import Mathlib

/-!
Verification of the intraday multi-product market core (matching engine,
product lifecycle, market operator routing, settlement) as a shallow
embedding of the Python sources:

* `intraday_abm/core/product.py`
* `intraday_abm/core/product_aware_order_book.py`
* `intraday_abm/core/multi_product_market_operator.py`
* `intraday_abm/sim/settlement.py`
* `intraday_abm/sim/multi_product_simulation.py`

Modelling conventions: Python floats (prices, volumes) become `ℚ`,
Python ints (ids, times) become `Int`, Python dicts become
insertion-ordered association lists, in-place mutation becomes explicit
state passing, and `raise` becomes `Except.error`.
-/

/-- Order direction, from `types.py` (`class Side`). -/
inductive Side where
  | BUY
  | SELL
deriving DecidableEq, Repr

/-- Time-in-force, from `types.py` (`class TimeInForce`). -/
inductive TimeInForce where
  | GTC
  | IOC
deriving DecidableEq, Repr

/-- Limit order record. The field set is the one used by the multi-product
engine (`product_aware_order_book.py`, `multi_product_market_operator.py`
and the agents construct orders with exactly these fields; the
`time_in_force` field is optional because `process_order` guards with
`order.time_in_force is not None`). Prices and volumes are Python floats,
modelled as `ℚ`. -/
structure Order where
  id : Int
  agent_id : Int
  side : Side
  price : ℚ
  volume : ℚ
  product_id : Int
  time_in_force : Option TimeInForce
  timestamp : Int
deriving DecidableEq, Repr

/-- Trade record, with the exact fields constructed in
`ProductAwareOrderBook._match_buy` / `_match_sell`. -/
structure Trade where
  product_id : Int
  price : ℚ
  volume : ℚ
  buy_order_id : Int
  sell_order_id : Int
  buy_agent_id : Int
  sell_agent_id : Int
  time : Int
deriving DecidableEq, Repr

/-- Product lifecycle states, from `product.py` (`class ProductStatus`). -/
inductive ProductStatus where
  | PENDING
  | OPEN
  | CLOSED
  | SETTLED
deriving DecidableEq, Repr

/-- Delivery product, from `product.py` (`class Product`; the optional
`name` field is display-only and omitted). -/
structure Product where
  product_id : Int
  delivery_start : Int
  delivery_end : Int
  gate_open : Int
  gate_close : Int
  duration : Int
  da_price : ℚ
  status : ProductStatus
deriving DecidableEq, Repr

/-- `Product.is_open`: `gate_open <= t < gate_close`. -/
def Product.is_open (p : Product) (t : Int) : Prop :=
  p.gate_open ≤ t ∧ t < p.gate_close

instance (p : Product) (t : Int) : Decidable (p.is_open t) := by
  unfold Product.is_open; infer_instance

/-- `Product.update_status`: `dataclasses.replace(self, status=new_status)`. -/
def Product.update_status (p : Product) (new_status : ProductStatus) : Product :=
  { p with status := new_status }

/-!
Association-list model of Python `dict` / `defaultdict`: keys are unique
and iteration order is insertion order. `dictGet` is `d[k]` / `d.get(k)`,
`dictSet` is `d[k] = v` (updates in place, or appends a fresh key at the
end), `dictDelete` is `del d[k]`.
-/

/-- Lookup of the first (unique) entry with the given key. -/
def dictGet {κ β : Type} [DecidableEq κ] : List (κ × β) → κ → Option β
  | [], _ => none
  | (k', v) :: rest, k => if k' = k then some v else dictGet rest k

/-- Assignment `d[k] = v`: replaces the value at an existing key in place,
otherwise appends the new key at the end (Python dict insertion order). -/
def dictSet {κ β : Type} [DecidableEq κ] : List (κ × β) → κ → β → List (κ × β)
  | [], k, v => [(k, v)]
  | (k', v') :: rest, k, v =>
    if k' = k then (k, v) :: rest else (k', v') :: dictSet rest k v

/-- Deletion `del d[k]` (removes the first entry with the key). -/
def dictDelete {κ β : Type} [DecidableEq κ] : List (κ × β) → κ → List (κ × β)
  | [], _ => []
  | (k', v') :: rest, k => if k' = k then rest else (k', v') :: dictDelete rest k

/-- `max(d.keys())`, defined on a nonempty key list. -/
def maxKey? {β : Type} (d : List (ℚ × β)) : Option ℚ :=
  match d.map Prod.fst with
  | [] => none
  | k :: ks => some (ks.foldl max k)

/-- `min(d.keys())`, defined on a nonempty key list. -/
def minKey? {β : Type} (d : List (ℚ × β)) : Option ℚ :=
  match d.map Prod.fst with
  | [] => none
  | k :: ks => some (ks.foldl min k)

/-- `level.remove(order)` guarded by `if order in level`: removes the first
element equal to `o`, or leaves the list unchanged when `o` is absent. -/
def eraseFirstOrder : List Order → Order → List Order
  | [], _ => []
  | x :: xs, o => if x = o then xs else x :: eraseFirstOrder xs o

/-- Replaces the first element equal to `o` by `o'` (models an in-place
field mutation of an order object aliased from inside the book). -/
def replaceFirstOrder : List Order → Order → Order → List Order
  | [], _, _ => []
  | x :: xs, o, o' => if x = o then o' :: xs else x :: replaceFirstOrder xs o o'

/-- One price side of a book: `Dict[float, List[Order]]`. -/
abbrev BookSide := List (ℚ × List Order)

/-- All orders of a side, in price-level iteration order. -/
def sideOrders (s : BookSide) : List Order :=
  s.flatMap Prod.snd

/-- Number of orders on a side. -/
def sideCount (s : BookSide) : Nat :=
  (s.map fun e => e.2.length).sum

/-- Total remaining volume on a side. -/
def sideVolSum (s : BookSide) : ℚ :=
  (s.map fun e => ((e.2.map Order.volume).sum)).sum

/-- `defaultdict(list)` access-and-append: `d[k].append(o)`. -/
def dictAppendAt (d : BookSide) (k : ℚ) (o : Order) : BookSide :=
  dictSet d k (((dictGet d k).getD []) ++ [o])

/-- Per-product order book, from `product_aware_order_book.py`
(`class ProductAwareOrderBook`). -/
structure ProductAwareOrderBook where
  product : Product
  bids : BookSide
  asks : BookSide
deriving DecidableEq, Repr

/-- `ProductAwareOrderBook.is_open`: product status is OPEN and `t` is
within the trading window. -/
def ProductAwareOrderBook.is_open (b : ProductAwareOrderBook) (t : Int) : Prop :=
  b.product.status = ProductStatus.OPEN ∧ b.product.is_open t

instance (b : ProductAwareOrderBook) (t : Int) : Decidable (b.is_open t) := by
  unfold ProductAwareOrderBook.is_open; infer_instance

/-- `ProductAwareOrderBook.add_order`. Raises (`Except.error`) on a
product-id mismatch, or — when `validate_time` is set — when `t` is
missing or the product is not open; otherwise appends the order to the
price level of its side. -/
def ProductAwareOrderBook.add_order (b : ProductAwareOrderBook) (o : Order)
    (validate_time : Bool := false) (t : Option Int := none) :
    Except String ProductAwareOrderBook :=
  if o.product_id ≠ b.product.product_id then
    .error "Order product_id does not match book product_id"
  else if validate_time ∧ t = none then
    .error "Time t must be provided when validate_time=True"
  else if validate_time ∧ (∀ t', t = some t' → ¬ b.is_open t') then
    .error "Cannot place order: product not open"
  else
    .ok <| match o.side with
      | Side.BUY => { b with bids := dictAppendAt b.bids o.price o }
      | Side.SELL => { b with asks := dictAppendAt b.asks o.price o }

/-- `ProductAwareOrderBook.remove_order`: removes the first order equal to
`o` from the level at key `o.price` on the side of `o.side`, and deletes
the level if it is empty afterwards. -/
def ProductAwareOrderBook.remove_order (b : ProductAwareOrderBook) (o : Order) :
    ProductAwareOrderBook :=
  match o.side with
  | Side.BUY =>
    match dictGet b.bids o.price with
    | none => b
    | some level =>
      let level' := eraseFirstOrder level o
      if level' = [] then { b with bids := dictDelete b.bids o.price }
      else { b with bids := dictSet b.bids o.price level' }
  | Side.SELL =>
    match dictGet b.asks o.price with
    | none => b
    | some level =>
      let level' := eraseFirstOrder level o
      if level' = [] then { b with asks := dictDelete b.asks o.price }
      else { b with asks := dictSet b.asks o.price level' }

/-- Models the aliased in-place mutation `resting.volume -= traded`: the
order object `o`, reached through the book, is replaced by `o'` at its
price level. -/
def ProductAwareOrderBook.mutateOrder (b : ProductAwareOrderBook) (o o' : Order) :
    ProductAwareOrderBook :=
  match o.side with
  | Side.BUY =>
    match dictGet b.bids o.price with
    | none => b
    | some level => { b with bids := dictSet b.bids o.price (replaceFirstOrder level o o') }
  | Side.SELL =>
    match dictGet b.asks o.price with
    | none => b
    | some level => { b with asks := dictSet b.asks o.price (replaceFirstOrder level o o') }

/-- `ProductAwareOrderBook.__len__`: total number of resting orders. -/
def ProductAwareOrderBook.size (b : ProductAwareOrderBook) : Nat :=
  sideCount b.bids + sideCount b.asks

/-- `ProductAwareOrderBook.clear_all_orders`: empties both sides and
returns the count removed. -/
def ProductAwareOrderBook.clear_all_orders (b : ProductAwareOrderBook) :
    Nat × ProductAwareOrderBook :=
  (b.size, { b with bids := [], asks := [] })

/-- `ProductAwareOrderBook.best_bid`: head of the highest-price bid level
(`level[0] if level else None`). -/
def ProductAwareOrderBook.best_bid (b : ProductAwareOrderBook) : Option Order :=
  match maxKey? b.bids with
  | none => none
  | some best_price =>
    match dictGet b.bids best_price with
    | none => none   -- unreachable: the key was taken from the dict itself
    | some level => level.head?

/-- `ProductAwareOrderBook.best_ask`: head of the lowest-price ask level. -/
def ProductAwareOrderBook.best_ask (b : ProductAwareOrderBook) : Option Order :=
  match minKey? b.asks with
  | none => none
  | some best_price =>
    match dictGet b.asks best_price with
    | none => none   -- unreachable: the key was taken from the dict itself
    | some level => level.head?

/-- `ProductAwareOrderBook.best_bid_price`. -/
def ProductAwareOrderBook.best_bid_price (b : ProductAwareOrderBook) : Option ℚ :=
  (b.best_bid).map Order.price

/-- `ProductAwareOrderBook.best_ask_price`. -/
def ProductAwareOrderBook.best_ask_price (b : ProductAwareOrderBook) : Option ℚ :=
  (b.best_ask).map Order.price

/-- Loop body of `ProductAwareOrderBook._match_buy`, with an explicit
fuel parameter bounding the number of `while` iterations (each iteration
except possibly the last removes one resting order, so
`sideCount asks + 1` units of fuel make the fuel bound unreachable on a
well-formed book; see `matchBuyFuel_stops`). Returns the produced trades,
the incoming order with its reduced volume, and the updated book. -/
def matchBuyFuel : Nat → ProductAwareOrderBook → Order → Int →
    List Trade × Order × ProductAwareOrderBook
  | 0, b, incoming, _ => ([], incoming, b)
  | fuel + 1, b, incoming, t =>
    if 0 < incoming.volume then
      match b.best_ask with
      | none => ([], incoming, b)
      | some best_ask =>
        if incoming.price < best_ask.price then ([], incoming, b)
        else
          let traded_volume := min incoming.volume best_ask.volume
          let trade : Trade :=
            { product_id := b.product.product_id
              price := best_ask.price   -- pay-as-bid
              volume := traded_volume
              buy_order_id := incoming.id
              sell_order_id := best_ask.id
              buy_agent_id := incoming.agent_id
              sell_agent_id := best_ask.agent_id
              time := t }
          let incoming' := { incoming with volume := incoming.volume - traded_volume }
          let best_ask' := { best_ask with volume := best_ask.volume - traded_volume }
          let bMid := b.mutateOrder best_ask best_ask'
          let b' := if best_ask'.volume ≤ 0 then bMid.remove_order best_ask' else bMid
          let rest := matchBuyFuel fuel b' incoming' t
          (trade :: rest.1, rest.2.1, rest.2.2)
    else ([], incoming, b)

/-- Loop body of `ProductAwareOrderBook._match_sell`, mirrored. -/
def matchSellFuel : Nat → ProductAwareOrderBook → Order → Int →
    List Trade × Order × ProductAwareOrderBook
  | 0, b, incoming, _ => ([], incoming, b)
  | fuel + 1, b, incoming, t =>
    if 0 < incoming.volume then
      match b.best_bid with
      | none => ([], incoming, b)
      | some best_bid =>
        if best_bid.price < incoming.price then ([], incoming, b)
        else
          let traded_volume := min incoming.volume best_bid.volume
          let trade : Trade :=
            { product_id := b.product.product_id
              price := best_bid.price   -- pay-as-bid
              volume := traded_volume
              buy_order_id := best_bid.id
              sell_order_id := incoming.id
              buy_agent_id := best_bid.agent_id
              sell_agent_id := incoming.agent_id
              time := t }
          let incoming' := { incoming with volume := incoming.volume - traded_volume }
          let best_bid' := { best_bid with volume := best_bid.volume - traded_volume }
          let bMid := b.mutateOrder best_bid best_bid'
          let b' := if best_bid'.volume ≤ 0 then bMid.remove_order best_bid' else bMid
          let rest := matchSellFuel fuel b' incoming' t
          (trade :: rest.1, rest.2.1, rest.2.2)
    else ([], incoming, b)

/-- `ProductAwareOrderBook.match_order`: dispatch on the incoming side. -/
def ProductAwareOrderBook.match_order (b : ProductAwareOrderBook) (incoming : Order)
    (t : Int) : List Trade × Order × ProductAwareOrderBook :=
  match incoming.side with
  | Side.BUY => matchBuyFuel (sideCount b.asks + 1) b incoming t
  | Side.SELL => matchSellFuel (sideCount b.bids + 1) b incoming t

/-- Multi-product market operator, from
`multi_product_market_operator.py`. -/
structure MultiProductMarketOperator where
  products : List (Int × Product)
  order_books : List (Int × ProductAwareOrderBook)
  next_order_id : Int
deriving DecidableEq, Repr

/-- `MultiProductMarketOperator.from_products`. -/
def MultiProductMarketOperator.from_products (ps : List Product) :
    MultiProductMarketOperator :=
  { products := ps.map fun p => (p.product_id, p)
    order_books := ps.map fun p => (p.product_id, { product := p, bids := [], asks := [] })
    next_order_id := 1 }

/-- The status transition decided for one product at tick `t` in
`update_product_status` (the `if`/`elif` chain; `none` = no transition). -/
def stepStatus (p : Product) (t : Int) : Option ProductStatus :=
  if p.status = ProductStatus.PENDING ∧ t ≥ p.gate_open then
    some ProductStatus.OPEN
  else if p.status = ProductStatus.OPEN ∧ t ≥ p.gate_close then
    some ProductStatus.CLOSED
  else if p.status = ProductStatus.CLOSED ∧ t ≥ p.delivery_end then
    some ProductStatus.SETTLED
  else
    none

/-- Per-product book update inside `update_product_status`: on the
OPEN→CLOSED transition the book is cleared, and on any transition the
book's `product` reference is refreshed. A missing book key (which would
raise `KeyError` in Python) leaves the dict unchanged here; theorems
assume a well-formed catalog where the key is present. -/
def upsBookStep (t : Int) (books : List (Int × ProductAwareOrderBook))
    (e : Int × Product) : List (Int × ProductAwareOrderBook) :=
  match stepStatus e.2 t with
  | none => books
  | some new_status =>
    let updated := e.2.update_status new_status
    let books1 :=
      if new_status = ProductStatus.CLOSED then
        match dictGet books e.1 with
        | none => books
        | some ob => dictSet books e.1 (ob.clear_all_orders).2
      else books
    match dictGet books1 e.1 with
    | none => books1
    | some ob => dictSet books1 e.1 { ob with product := updated }

/-- The product after the (possibly absent) status transition of one
`update_product_status` call. -/
def applyStepStatus (p : Product) (t : Int) : Product :=
  match stepStatus p t with
  | some s => p.update_status s
  | none => p

/-- `MultiProductMarketOperator.update_product_status`: advances every
product's status by at most one stage (PENDING→OPEN at gate-open,
OPEN→CLOSED at gate-close with a forced book purge, CLOSED→SETTLED at
delivery end) and returns the list of product ids closed in this call. -/
def MultiProductMarketOperator.update_product_status
    (mo : MultiProductMarketOperator) (t : Int) :
    MultiProductMarketOperator × List Int :=
  let products' := mo.products.map fun e => (e.1, applyStepStatus e.2 t)
  let closed := mo.products.filterMap fun e =>
    if e.2.status = ProductStatus.OPEN ∧ t ≥ e.2.gate_close then some e.1 else none
  let books' := mo.products.foldl (upsBookStep t) mo.order_books
  ({ mo with products := products', order_books := books' }, closed)

/-- `MultiProductMarketOperator.process_order`: routes the order to its
product's book, optionally validates the trading window, assigns the next
order id and the timestamp, matches, and inserts a GTC remainder.
Validation failures surface as `Except.error` before any state change. -/
def MultiProductMarketOperator.process_order (mo : MultiProductMarketOperator)
    (order : Order) (t : Int) (validate_time : Bool := true) :
    Except String (List Trade) × MultiProductMarketOperator :=
  match dictGet mo.order_books order.product_id with
  | none => (.error "Product not found in market operator", mo)
  | some ob =>
    if validate_time ∧ ¬ ob.is_open t then
      (.error "Cannot place order: product not open", mo)
    else
      let order1 := { order with id := mo.next_order_id, timestamp := t }
      let mo1 := { mo with next_order_id := mo.next_order_id + 1 }
      let res := ob.match_order order1 t
      let trades := res.1
      let order2 := res.2.1
      let ob1 := res.2.2
      if 0 < order2.volume ∧ order2.time_in_force = some TimeInForce.GTC then
        match ob1.add_order order2 with
        | .ok ob2 =>
          (.ok trades, { mo1 with order_books := dictSet mo1.order_books order.product_id ob2 })
        | .error e =>
          (.error e, { mo1 with order_books := dictSet mo1.order_books order.product_id ob1 })
      else
        (.ok trades, { mo1 with order_books := dictSet mo1.order_books order.product_id ob1 })

/-- `settlement.get_imbalance_prices`. The stochastic branch samples
`rng.uniform(-volatility, volatility)` twice; the samples are surfaced as
the explicit arguments `u_up`, `u_down` so that every pair the Python
function can produce is an instance of this definition. -/
def get_imbalance_prices (product : Product) (base_offset : ℚ := 10)
    (use_stochastic : Bool := false) (u_up : ℚ := 0) (u_down : ℚ := 0) : ℚ × ℚ :=
  let offset_up := if use_stochastic then base_offset + u_up else base_offset
  let offset_down := if use_stochastic then base_offset + u_down else base_offset
  (product.da_price + offset_up, max 0 (product.da_price - offset_down))

/-- `settlement.calculate_imbalance_cost`. -/
def calculate_imbalance_cost (imbalance lambda_up lambda_down : ℚ) : ℚ :=
  if 0 < imbalance then imbalance * lambda_up
  else if imbalance < 0 then |imbalance| * lambda_down
  else 0

/-- One tick of the loop of `run_multi_product_simulation` as far as
statuses and settlement invocations are concerned: advance statuses at
tick `t` and record a settlement invocation when the returned closed list
is nonempty. -/
def schedStep (acc : MultiProductMarketOperator × List (Nat × List Int)) (t : Nat) :
    MultiProductMarketOperator × List (Nat × List Int) :=
  let r := acc.1.update_product_status (t : Int)
  (r.1, if r.2 ≠ [] then acc.2 ++ [(t, r.2)] else acc.2)

/-- The settlement-invocation schedule of `run_multi_product_simulation`
(with settlement enabled): after the pre-loop `update_product_status(0)`,
each tick `t in range(n_steps)` advances statuses, and whenever the
returned closed list is nonempty the settlement engine is invoked on
exactly those products. Agents only submit orders, which cannot affect
statuses or the closed lists, so the schedule is computed with no agent
activity. Returns the list of `(tick, closed product ids)` invocations. -/
def runSettlementSchedule (ps : List Product) (n_steps : Nat) :
    List (Nat × List Int) :=
  let mo0 := MultiProductMarketOperator.from_products ps
  let mo1 := (mo0.update_product_status 0).1
  ((List.range n_steps).foldl schedStep (mo1, ([] : List (Nat × List Int)))).2

/-- Ticks at which the settlement engine is invoked for product `pid`. -/
def settleTicksFor (pid : Int) (events : List (Nat × List Int)) : List Nat :=
  events.filterMap fun e => if pid ∈ e.2 then some e.1 else none

/-- The simulation state (operator and recorded settlement invocations)
after the pre-loop status update and the first `n` loop ticks. -/
def schedState (ps : List Product) (n : Nat) :
    MultiProductMarketOperator × List (Nat × List Int) :=
  (List.range n).foldl schedStep
    (((MultiProductMarketOperator.from_products ps).update_product_status 0).1,
      ([] : List (Nat × List Int)))

/-!
Specification-side predicates used to state the claims.
-/

/-- Well-formedness of a book, maintained by the Python implementation:
price-level keys are unique, levels are nonempty (empty levels are always
deleted), and every order rests at the level keyed by its own price, on
the side matching its direction. -/
structure BookWF (b : ProductAwareOrderBook) : Prop where
  bids_nodup : (b.bids.map Prod.fst).Nodup
  asks_nodup : (b.asks.map Prod.fst).Nodup
  bids_levels : ∀ e ∈ b.bids, e.2 ≠ [] ∧ ∀ o ∈ e.2, o.price = e.1 ∧ o.side = Side.BUY
  asks_levels : ∀ e ∈ b.asks, e.2 ≠ [] ∧ ∀ o ∈ e.2, o.price = e.1 ∧ o.side = Side.SELL

/-- The book is not crossed: whenever both sides are nonempty, the best
bid price is strictly below the best ask price. -/
def Uncrossed (b : ProductAwareOrderBook) : Prop :=
  ∀ pb pa, b.best_bid_price = some pb → b.best_ask_price = some pa → pb < pa

/-- Position of a status along the PENDING→OPEN→CLOSED→SETTLED chain. -/
def statusRank : ProductStatus → Nat
  | ProductStatus.PENDING => 0
  | ProductStatus.OPEN => 1
  | ProductStatus.CLOSED => 2
  | ProductStatus.SETTLED => 3

/-- One forward step of the lifecycle chain. -/
def ChainStep (a b : ProductStatus) : Prop :=
  (a = ProductStatus.PENDING ∧ b = ProductStatus.OPEN) ∨
  (a = ProductStatus.OPEN ∧ b = ProductStatus.CLOSED) ∨
  (a = ProductStatus.CLOSED ∧ b = ProductStatus.SETTLED)

/-- The order refers to a product in the catalog that is OPEN and within
its trading window at `t` (the condition `process_order` validates). -/
def CanTrade (mo : MultiProductMarketOperator) (o : Order) (t : Int) : Prop :=
  ∃ ob, dictGet mo.order_books o.product_id = some ob ∧ ob.is_open t

/-- Remaining volume on the side a given incoming order matches against. -/
def oppVolSum (s : Side) (b : ProductAwareOrderBook) : ℚ :=
  match s with
  | Side.BUY => sideVolSum b.asks
  | Side.SELL => sideVolSum b.bids

/-- Within-level FIFO discipline: the post-pass state `l'` of a price
level arises from its pre-pass state `l` (whose list order is arrival
order, since `add_order` appends at the end) by fully consuming a prefix
of the earlier-added orders, with at most the earliest surviving order
partially reduced in volume. In particular no later-added order is
touched before every earlier-added order of the level is fully filled. -/
def levelFifo (l l' : List Order) : Prop :=
  (∃ consumed, l = consumed ++ l') ∨
  (∃ consumed h rest v, l = consumed ++ h :: rest ∧ l' = { h with volume := v } :: rest)

/-!
Concrete sample data used by the scenario theorems, the witnesses and the
counterexamples.
-/

/-- An OPEN hourly product (gate window `[0, 1380)`). -/
def sampleOpenProduct : Product :=
  { product_id := 0, delivery_start := 1440, delivery_end := 1500, gate_open := 0,
    gate_close := 1380, duration := 60, da_price := 50, status := ProductStatus.OPEN }

/-- Resting bid of agent A in the FIFO scenario: 5 MW at 50, added first. -/
def fifoBidA : Order :=
  { id := 1, agent_id := 100, side := Side.BUY, price := 50, volume := 5,
    product_id := 0, time_in_force := some TimeInForce.GTC, timestamp := 0 }

/-- Resting bid of agent B in the FIFO scenario: 7 MW at 50, added second. -/
def fifoBidB : Order :=
  { id := 2, agent_id := 101, side := Side.BUY, price := 50, volume := 7,
    product_id := 0, time_in_force := some TimeInForce.GTC, timestamp := 0 }

/-- FIFO-scenario book: both bids rest at the same price level, in
arrival order. -/
def fifoBook : ProductAwareOrderBook :=
  { product := sampleOpenProduct, bids := [(50, [fifoBidA, fifoBidB])], asks := [] }

/-- FIFO-scenario incoming sell order: 10 MW at 49. -/
def fifoIncoming : Order :=
  { id := 3, agent_id := 200, side := Side.SELL, price := 49, volume := 10,
    product_id := 0, time_in_force := some TimeInForce.GTC, timestamp := 1 }

/-- A resting ask used by several witnesses: 5 MW at 50. -/
def sampleAsk : Order :=
  { id := 4, agent_id := 300, side := Side.SELL, price := 50, volume := 5,
    product_id := 0, time_in_force := some TimeInForce.GTC, timestamp := 0 }

/-- Book holding only `sampleAsk`. -/
def sampleAskBook : ProductAwareOrderBook :=
  { product := sampleOpenProduct, bids := [], asks := [(50, [sampleAsk])] }

/-- Incoming buy order crossing `sampleAsk`: 3 MW at 60. -/
def sampleBuy : Order :=
  { id := 5, agent_id := 301, side := Side.BUY, price := 60, volume := 3,
    product_id := 0, time_in_force := some TimeInForce.GTC, timestamp := 1 }

/-- Operator holding the single open product `sampleOpenProduct` with the
one-ask book. -/
def sampleOperator : MultiProductMarketOperator :=
  { products := [(0, sampleOpenProduct)], order_books := [(0, sampleAskBook)],
    next_order_id := 1 }

/-- A PENDING product whose gate closes at tick 2 and whose delivery ends
at tick 10 (used against the settlement-timing claim). -/
def earlyCloseProduct : Product :=
  { product_id := 0, delivery_start := 8, delivery_end := 10, gate_open := 0,
    gate_close := 2, duration := 2, da_price := 50, status := ProductStatus.PENDING }

/-- A product whose day-ahead price (5 €/MWh) lies below the default
settlement offset (10 €/MWh), so its downward imbalance price is clamped
to 0. -/
def lowPriceProduct : Product :=
  { earlyCloseProduct with da_price := 5 }

/-- A buy order with a negative limit price and positive volume. -/
def negPriceOrder : Order :=
  { id := -1, agent_id := 7, side := Side.BUY, price := -5, volume := 3,
    product_id := 0, time_in_force := some TimeInForce.GTC, timestamp := 0 }

/-- Operator with one OPEN product and an empty book, the target of the
invalid-order counterexample. -/
def emptyBookOperator : MultiProductMarketOperator :=
  { products := [(0, sampleOpenProduct)],
    order_books := [(0, { product := sampleOpenProduct, bids := [], asks := [] })],
    next_order_id := 1 }

/-- Operator whose single product is OPEN although tick 2000 is past its
gate-close: used to exercise the OPEN→CLOSED purge. Its book holds two
resting orders. -/
def purgeOperator : MultiProductMarketOperator :=
  { products := [(0, sampleOpenProduct)],
    order_books := [(0, { product := sampleOpenProduct,
                          bids := [(50, [fifoBidA])], asks := [(60, [sampleAsk])] })],
    next_order_id := 1 }

/-- A sell order with zero volume (used against the invalid-order claim). -/
def zeroVolOrder : Order :=
  { id := 9, agent_id := 9, side := Side.SELL, price := 55, volume := 0,
    product_id := 0, time_in_force := some TimeInForce.GTC, timestamp := 0 }

/-- First trade of the FIFO scenario: 5 MW at 50 against agent A's bid. -/
def fifoTradeA : Trade :=
  { product_id := 0, price := 50, volume := 5, buy_order_id := 1, sell_order_id := 3,
    buy_agent_id := 100, sell_agent_id := 200, time := 1 }

/-- Second trade of the FIFO scenario: 5 MW at 50 against agent B's bid. -/
def fifoTradeB : Trade :=
  { product_id := 0, price := 50, volume := 5, buy_order_id := 2, sell_order_id := 3,
    buy_agent_id := 101, sell_agent_id := 200, time := 1 }

/-- FIFO-scenario book after the matching pass: agent B's bid remains with
2 MW at 50. -/
def fifoBookAfter : ProductAwareOrderBook :=
  { product := sampleOpenProduct, bids := [(50, [{ fifoBidB with volume := 2 }])],
    asks := [] }

/-- FIFO-scenario book after the first iteration: agent A's bid is filled
and removed. -/
def fifoBookM1 : ProductAwareOrderBook :=
  { product := sampleOpenProduct, bids := [(50, [fifoBidB])], asks := [] }

/-- FIFO-scenario incoming order after the first iteration: 5 MW left. -/
def fifoIncM1 : Order := { fifoIncoming with volume := 5 }

/-- The trade produced when `sampleBuy` crosses `sampleAsk`: 3 MW at the
resting ask's price 50. -/
def sampleTrade : Trade :=
  { product_id := 0, price := 50, volume := 3, buy_order_id := 5, sell_order_id := 4,
    buy_agent_id := 301, sell_agent_id := 300, time := 1 }

deriving instance DecidableEq for Except

/-!
Library lemmas about the dict model.
-/

theorem dictGet_set_self {κ β : Type} [DecidableEq κ] (d : List (κ × β)) (k : κ) (v : β) :
    dictGet (dictSet d k v) k = some v := by
  induction d with
  | nil => simp [dictSet, dictGet]
  | cons e rest ih =>
    obtain ⟨k', v'⟩ := e
    by_cases h : k' = k
    · simp [dictSet, h, dictGet]
    · simp [dictSet, h, dictGet, ih]

theorem dictGet_set_ne {κ β : Type} [DecidableEq κ] (d : List (κ × β)) (k k' : κ) (v : β)
    (h : k' ≠ k) : dictGet (dictSet d k v) k' = dictGet d k' := by
  have hks : ¬ k = k' := fun he => h he.symm
  induction d with
  | nil => simp [dictSet, dictGet, hks]
  | cons e rest ih =>
    obtain ⟨k0, v0⟩ := e
    by_cases h0 : k0 = k
    · subst h0
      simp [dictSet, dictGet, hks]
    · simp [dictSet, h0, dictGet, ih]

theorem dictSet_get_self {κ β : Type} [DecidableEq κ] (d : List (κ × β)) (k : κ) (v : β)
    (h : dictGet d k = some v) : dictSet d k v = d := by
  induction d with
  | nil => simp [dictGet] at h
  | cons e rest ih =>
    obtain ⟨k0, v0⟩ := e
    by_cases h0 : k0 = k
    · subst h0
      simp [dictGet] at h
      simp [dictSet, h]
    · simp [dictGet, h0] at h
      simp [dictSet, h0, ih h]

theorem dictGet_mem {κ β : Type} [DecidableEq κ] (d : List (κ × β)) (k : κ) (v : β)
    (h : dictGet d k = some v) : (k, v) ∈ d := by
  induction d with
  | nil => simp [dictGet] at h
  | cons e rest ih =>
    obtain ⟨k0, v0⟩ := e
    by_cases h0 : k0 = k
    · subst h0
      simp [dictGet] at h
      simp [h]
    · simp [dictGet, h0] at h
      simp [ih h]

theorem mem_keys_of_dictGet {κ β : Type} [DecidableEq κ] (d : List (κ × β)) (k : κ) (v : β)
    (h : dictGet d k = some v) : k ∈ d.map Prod.fst := by
  have := dictGet_mem d k v h
  exact List.mem_map.mpr ⟨(k, v), this, rfl⟩

theorem dictGet_isSome_of_mem_keys {κ β : Type} [DecidableEq κ] (d : List (κ × β)) (k : κ)
    (h : k ∈ d.map Prod.fst) : ∃ v, dictGet d k = some v := by
  induction d with
  | nil => simp at h
  | cons e rest ih =>
    obtain ⟨k0, v0⟩ := e
    by_cases h0 : k0 = k
    · exact ⟨v0, by simp [dictGet, h0]⟩
    · rw [List.map_cons, List.mem_cons] at h
      rcases h with h | h
      · exact absurd h.symm h0
      · obtain ⟨v, hv⟩ := ih h
        exact ⟨v, by simp [dictGet, h0, hv]⟩

theorem dictGet_of_mem_nodup {κ β : Type} [DecidableEq κ] (d : List (κ × β)) (k : κ) (v : β)
    (hnd : (d.map Prod.fst).Nodup) (h : (k, v) ∈ d) : dictGet d k = some v := by
  induction d with
  | nil => simp at h
  | cons e rest ih =>
    obtain ⟨k0, v0⟩ := e
    rw [List.map_cons, List.nodup_cons] at hnd
    rcases List.mem_cons.mp h with h1 | h1
    · rw [Prod.ext_iff] at h1
      obtain ⟨hk, hv⟩ := h1
      subst hk
      subst hv
      simp [dictGet]
    · have hk0 : ¬ k0 = k := by
        intro he
        subst he
        exact hnd.1 (List.mem_map.mpr ⟨(k0, v), h1, rfl⟩)
      simp [dictGet, hk0]
      exact ih hnd.2 h1

theorem dictDelete_sublist {κ β : Type} [DecidableEq κ] (d : List (κ × β)) (k : κ) :
    (dictDelete d k).Sublist d := by
  induction d with
  | nil => simp [dictDelete]
  | cons e rest ih =>
    obtain ⟨k0, v0⟩ := e
    by_cases h0 : k0 = k
    · subst h0
      have hdel : dictDelete ((k0, v0) :: rest) k0 = rest := by simp [dictDelete]
      rw [hdel]
      exact List.sublist_cons_self (k0, v0) rest
    · simpa [dictDelete, h0] using ih.cons₂ (k0, v0)

theorem keys_dictSet_mem {κ β : Type} [DecidableEq κ] (d : List (κ × β)) (k : κ) (v : β)
    (h : k ∈ d.map Prod.fst) : (dictSet d k v).map Prod.fst = d.map Prod.fst := by
  induction d with
  | nil => simp at h
  | cons e rest ih =>
    obtain ⟨k0, v0⟩ := e
    by_cases h0 : k0 = k
    · simp [dictSet, h0]
    · rw [List.map_cons, List.mem_cons] at h
      rcases h with h | h
      · exact absurd h.symm h0
      · simp [dictSet, h0, ih h]

theorem keys_dictSet_not_mem {κ β : Type} [DecidableEq κ] (d : List (κ × β)) (k : κ) (v : β)
    (h : k ∉ d.map Prod.fst) : (dictSet d k v).map Prod.fst = d.map Prod.fst ++ [k] := by
  induction d with
  | nil => simp [dictSet]
  | cons e rest ih =>
    obtain ⟨k0, v0⟩ := e
    rw [List.map_cons, List.mem_cons] at h
    push_neg at h
    obtain ⟨h1, h2⟩ := h
    have h0 : ¬ k0 = k := fun he => h1 he.symm
    simp [dictSet, h0, ih h2]

theorem keys_dictSet_subset {κ β : Type} [DecidableEq κ] (d : List (κ × β)) (k : κ) (v : β) :
    ∀ x ∈ (dictSet d k v).map Prod.fst, x ∈ d.map Prod.fst ∨ x = k := by
  intro x hx
  by_cases h : k ∈ d.map Prod.fst
  · rw [keys_dictSet_mem d k v h] at hx
    exact Or.inl hx
  · rw [keys_dictSet_not_mem d k v h] at hx
    simpa using hx

theorem nodup_keys_dictSet {κ β : Type} [DecidableEq κ] (d : List (κ × β)) (k : κ) (v : β)
    (hnd : (d.map Prod.fst).Nodup) : ((dictSet d k v).map Prod.fst).Nodup := by
  by_cases h : k ∈ d.map Prod.fst
  · rwa [keys_dictSet_mem d k v h]
  · rw [keys_dictSet_not_mem d k v h]
    refine List.Nodup.append hnd (List.nodup_singleton k) ?_
    intro x hx hx'
    rw [List.mem_singleton] at hx'
    subst hx'
    exact h hx

theorem dictGet_delete_ne {κ β : Type} [DecidableEq κ] (d : List (κ × β)) (k k' : κ)
    (h : k' ≠ k) : dictGet (dictDelete d k) k' = dictGet d k' := by
  have hks : ¬ k = k' := fun he => h he.symm
  induction d with
  | nil => simp [dictDelete]
  | cons e rest ih =>
    obtain ⟨k0, v0⟩ := e
    by_cases h0 : k0 = k
    · subst h0
      simp [dictDelete, dictGet, hks]
    · simp [dictDelete, h0, dictGet, ih]

theorem foldl_max_spec (ks : List ℚ) (k : ℚ) :
    (ks.foldl max k = k ∨ ks.foldl max k ∈ ks) ∧
      (k ≤ ks.foldl max k ∧ ∀ x ∈ ks, x ≤ ks.foldl max k) := by
  induction ks generalizing k with
  | nil => simp
  | cons a l ih =>
    obtain ⟨hmem, hk, hall⟩ := ih (max k a)
    refine ⟨?_, ?_, ?_⟩
    · rcases hmem with h | h
      · rcases max_choice k a with hc | hc
        · rw [List.foldl_cons]
          rw [h, hc]
          exact Or.inl rfl
        · rw [List.foldl_cons]
          rw [h, hc]
          exact Or.inr (by simp)
      · exact Or.inr (by simp [List.foldl_cons, h])
    · calc k ≤ max k a := le_max_left _ _
        _ ≤ (a :: l).foldl max k := by simpa using hk
    · intro x hx
      rcases List.mem_cons.mp hx with h | h
      · subst h
        calc x ≤ max k x := le_max_right _ _
          _ ≤ (x :: l).foldl max k := by simpa using hk
      · simpa using hall x h

theorem foldl_min_spec (ks : List ℚ) (k : ℚ) :
    (ks.foldl min k = k ∨ ks.foldl min k ∈ ks) ∧
      (ks.foldl min k ≤ k ∧ ∀ x ∈ ks, ks.foldl min k ≤ x) := by
  induction ks generalizing k with
  | nil => simp
  | cons a l ih =>
    obtain ⟨hmem, hk, hall⟩ := ih (min k a)
    refine ⟨?_, ?_, ?_⟩
    · rcases hmem with h | h
      · rcases min_choice k a with hc | hc
        · rw [List.foldl_cons]
          rw [h, hc]
          exact Or.inl rfl
        · rw [List.foldl_cons]
          rw [h, hc]
          exact Or.inr (by simp)
      · exact Or.inr (by simp [List.foldl_cons, h])
    · calc (a :: l).foldl min k = l.foldl min (min k a) := by simp
        _ ≤ min k a := hk
        _ ≤ k := min_le_left _ _
    · intro x hx
      rcases List.mem_cons.mp hx with h | h
      · subst h
        calc (x :: l).foldl min k = l.foldl min (min k x) := by simp
          _ ≤ min k x := hk
          _ ≤ x := min_le_right _ _
      · simpa using hall x h

theorem maxKey?_mem {β : Type} (d : List (ℚ × β)) (m : ℚ) (h : maxKey? d = some m) :
    m ∈ d.map Prod.fst := by
  unfold maxKey? at h
  rcases hd : d.map Prod.fst with _ | ⟨k, ks⟩
  · simp [hd] at h
  · simp [hd] at h
    rcases (foldl_max_spec ks k).1 with h0 | h0
    · simp [hd, ← h, h0]
    · simp [hd, ← h, h0]

theorem le_maxKey? {β : Type} (d : List (ℚ × β)) (m : ℚ) (h : maxKey? d = some m) :
    ∀ k ∈ d.map Prod.fst, k ≤ m := by
  unfold maxKey? at h
  rcases hd : d.map Prod.fst with _ | ⟨k, ks⟩
  · simp [hd] at h
  · simp [hd] at h
    obtain ⟨_, hk, hall⟩ := foldl_max_spec ks k
    intro x hx
    rcases List.mem_cons.mp hx with h0 | h0
    · subst h0
      rw [← h]
      exact hk
    · rw [← h]
      exact hall x h0

theorem minKey?_mem {β : Type} (d : List (ℚ × β)) (m : ℚ) (h : minKey? d = some m) :
    m ∈ d.map Prod.fst := by
  unfold minKey? at h
  rcases hd : d.map Prod.fst with _ | ⟨k, ks⟩
  · simp [hd] at h
  · simp [hd] at h
    rcases (foldl_min_spec ks k).1 with h0 | h0
    · simp [hd, ← h, h0]
    · simp [hd, ← h, h0]

theorem minKey?_le {β : Type} (d : List (ℚ × β)) (m : ℚ) (h : minKey? d = some m) :
    ∀ k ∈ d.map Prod.fst, m ≤ k := by
  unfold minKey? at h
  rcases hd : d.map Prod.fst with _ | ⟨k, ks⟩
  · simp [hd] at h
  · simp [hd] at h
    obtain ⟨_, hk, hall⟩ := foldl_min_spec ks k
    intro x hx
    rcases List.mem_cons.mp hx with h0 | h0
    · subst h0
      rw [← h]
      exact hk
    · rw [← h]
      exact hall x h0

theorem maxKey?_eq_none_iff {β : Type} (d : List (ℚ × β)) : maxKey? d = none ↔ d = [] := by
  unfold maxKey?
  rcases hd : d.map Prod.fst with _ | ⟨k, ks⟩
  · simp [List.map_eq_nil_iff.mp hd]
  · constructor
    · intro h
      simp at h
    · intro h
      subst h
      simp at hd

theorem minKey?_eq_none_iff {β : Type} (d : List (ℚ × β)) : minKey? d = none ↔ d = [] := by
  unfold minKey?
  rcases hd : d.map Prod.fst with _ | ⟨k, ks⟩
  · simp [List.map_eq_nil_iff.mp hd]
  · constructor
    · intro h
      simp at h
    · intro h
      subst h
      simp at hd

/-!
Lemmas about level-list surgery and side aggregates.
-/

theorem eraseFirstOrder_subset (l : List Order) (o : Order) :
    ∀ x ∈ eraseFirstOrder l o, x ∈ l := by
  induction l with
  | nil => simp [eraseFirstOrder]
  | cons a rest ih =>
    by_cases h : a = o
    · intro x hx
      simp only [eraseFirstOrder, if_pos h] at hx
      exact List.mem_cons_of_mem a hx
    · intro x hx
      simp only [eraseFirstOrder, if_neg h] at hx
      rcases List.mem_cons.mp hx with h1 | h1
      · exact h1 ▸ List.mem_cons_self a rest
      · exact List.mem_cons_of_mem a (ih x h1)

theorem eraseFirstOrder_length (l : List Order) (o : Order) (h : o ∈ l) :
    (eraseFirstOrder l o).length + 1 = l.length := by
  induction l with
  | nil => simp at h
  | cons a rest ih =>
    by_cases h0 : a = o
    · simp [eraseFirstOrder, h0]
    · have hmem : o ∈ rest := by
        rcases List.mem_cons.mp h with h1 | h1
        · exact absurd h1.symm h0
        · exact h1
      simp only [eraseFirstOrder, if_neg h0, List.length_cons]
      rw [← ih hmem]

theorem eraseFirstOrder_volume (l : List Order) (o : Order) (h : o ∈ l) :
    ((eraseFirstOrder l o).map Order.volume).sum = (l.map Order.volume).sum - o.volume := by
  induction l with
  | nil => simp at h
  | cons a rest ih =>
    by_cases h0 : a = o
    · simp [eraseFirstOrder, h0]
    · have hmem : o ∈ rest := by
        rcases List.mem_cons.mp h with h1 | h1
        · exact absurd h1.symm h0
        · exact h1
      simp only [eraseFirstOrder, if_neg h0, List.map_cons, List.sum_cons, ih hmem]
      ring

theorem replaceFirstOrder_length (l : List Order) (o o' : Order) :
    (replaceFirstOrder l o o').length = l.length := by
  induction l with
  | nil => simp [replaceFirstOrder]
  | cons a rest ih =>
    by_cases h : a = o
    · simp [replaceFirstOrder, h]
    · simp [replaceFirstOrder, h, ih]

theorem replaceFirstOrder_mem (l : List Order) (o o' : Order) :
    ∀ x ∈ replaceFirstOrder l o o', x ∈ l ∨ x = o' := by
  induction l with
  | nil => simp [replaceFirstOrder]
  | cons a rest ih =>
    intro x hx
    by_cases h : a = o
    · simp only [replaceFirstOrder, if_pos h] at hx
      rcases List.mem_cons.mp hx with h1 | h1
      · exact Or.inr h1
      · exact Or.inl (List.mem_cons_of_mem a h1)
    · simp only [replaceFirstOrder, if_neg h] at hx
      rcases List.mem_cons.mp hx with h1 | h1
      · exact Or.inl (h1 ▸ List.mem_cons_self a rest)
      · rcases ih x h1 with h2 | h2
        · exact Or.inl (List.mem_cons_of_mem a h2)
        · exact Or.inr h2

theorem replaceFirstOrder_self_mem (l : List Order) (o o' : Order) (h : o ∈ l) :
    o' ∈ replaceFirstOrder l o o' := by
  induction l with
  | nil => simp at h
  | cons a rest ih =>
    by_cases h0 : a = o
    · simp [replaceFirstOrder, h0]
    · have hmem : o ∈ rest := by
        rcases List.mem_cons.mp h with h1 | h1
        · exact absurd h1.symm h0
        · exact h1
      simp only [replaceFirstOrder, if_neg h0]
      exact List.mem_cons_of_mem a (ih hmem)

theorem replaceFirstOrder_volume (l : List Order) (o o' : Order) (h : o ∈ l) :
    ((replaceFirstOrder l o o').map Order.volume).sum
      = (l.map Order.volume).sum - o.volume + o'.volume := by
  induction l with
  | nil => simp at h
  | cons a rest ih =>
    by_cases h0 : a = o
    · subst h0
      have hrep : replaceFirstOrder (a :: rest) a o' = o' :: rest := by
        simp [replaceFirstOrder]
      rw [hrep]
      simp only [List.map_cons, List.sum_cons]
      ring
    · have hmem : o ∈ rest := by
        rcases List.mem_cons.mp h with h1 | h1
        · exact absurd h1.symm h0
        · exact h1
      simp only [replaceFirstOrder, if_neg h0, List.map_cons, List.sum_cons, ih hmem]
      ring

theorem sideOrders_mem_iff (s : BookSide) (o : Order) :
    o ∈ sideOrders s ↔ ∃ e ∈ s, o ∈ e.2 := by
  simp [sideOrders, List.mem_flatMap]

theorem sideOrders_of_level (s : BookSide) (k : ℚ) (l : List Order) (o : Order)
    (hget : dictGet s k = some l) (ho : o ∈ l) : o ∈ sideOrders s := by
  exact (sideOrders_mem_iff s o).mpr ⟨(k, l), dictGet_mem s k l hget, ho⟩

theorem sideVolSum_dictSet (s : BookSide) (k : ℚ) (l l' : List Order)
    (hget : dictGet s k = some l) :
    sideVolSum (dictSet s k l')
      = sideVolSum s - (l.map Order.volume).sum + (l'.map Order.volume).sum := by
  induction s with
  | nil => simp [dictGet] at hget
  | cons e rest ih =>
    obtain ⟨k0, l0⟩ := e
    by_cases h0 : k0 = k
    · subst h0
      have hl : l0 = l := by simpa [dictGet] using hget
      have hset : dictSet ((k0, l0) :: rest) k0 l' = (k0, l') :: rest := by simp [dictSet]
      rw [hset]
      simp only [sideVolSum, List.map_cons, List.sum_cons, hl]
      ring
    · simp only [dictGet, if_neg h0] at hget
      simp only [dictSet, if_neg h0, sideVolSum, List.map_cons, List.sum_cons]
      have := ih hget
      simp only [sideVolSum] at this
      rw [this]
      ring

theorem sideCount_dictSet (s : BookSide) (k : ℚ) (l l' : List Order)
    (hget : dictGet s k = some l) :
    sideCount (dictSet s k l') + l.length = sideCount s + l'.length := by
  induction s with
  | nil => simp [dictGet] at hget
  | cons e rest ih =>
    obtain ⟨k0, l0⟩ := e
    by_cases h0 : k0 = k
    · subst h0
      have hl : l0 = l := by simpa [dictGet] using hget
      have hset : dictSet ((k0, l0) :: rest) k0 l' = (k0, l') :: rest := by simp [dictSet]
      rw [hset]
      simp only [sideCount, List.map_cons, List.sum_cons, hl]
      omega
    · simp only [dictGet, if_neg h0] at hget
      simp only [dictSet, if_neg h0, sideCount, List.map_cons, List.sum_cons]
      have := ih hget
      simp only [sideCount] at this
      omega

theorem sideVolSum_dictDelete (s : BookSide) (k : ℚ) (l : List Order)
    (hget : dictGet s k = some l) :
    sideVolSum (dictDelete s k) = sideVolSum s - (l.map Order.volume).sum := by
  induction s with
  | nil => simp [dictGet] at hget
  | cons e rest ih =>
    obtain ⟨k0, l0⟩ := e
    by_cases h0 : k0 = k
    · subst h0
      have hl : l0 = l := by simpa [dictGet] using hget
      have hdel : dictDelete ((k0, l0) :: rest) k0 = rest := by simp [dictDelete]
      rw [hdel]
      simp only [sideVolSum, List.map_cons, List.sum_cons, hl]
      ring
    · simp only [dictGet, if_neg h0] at hget
      simp only [dictDelete, if_neg h0, sideVolSum, List.map_cons, List.sum_cons]
      have := ih hget
      simp only [sideVolSum] at this
      rw [this]
      ring

theorem sideCount_dictDelete (s : BookSide) (k : ℚ) (l : List Order)
    (hget : dictGet s k = some l) :
    sideCount (dictDelete s k) + l.length = sideCount s := by
  induction s with
  | nil => simp [dictGet] at hget
  | cons e rest ih =>
    obtain ⟨k0, l0⟩ := e
    by_cases h0 : k0 = k
    · subst h0
      have hl : l0 = l := by simpa [dictGet] using hget
      have hdel : dictDelete ((k0, l0) :: rest) k0 = rest := by simp [dictDelete]
      rw [hdel]
      simp only [sideCount, List.map_cons, List.sum_cons, hl]
      omega
    · simp only [dictGet, if_neg h0] at hget
      simp only [dictDelete, if_neg h0, sideCount, List.map_cons, List.sum_cons]
      have := ih hget
      simp only [sideCount] at this
      omega

theorem sideOrders_dictSet_subset (s : BookSide) (k : ℚ) (l' : List Order) :
    ∀ x ∈ sideOrders (dictSet s k l'), x ∈ sideOrders s ∨ x ∈ l' := by
  induction s with
  | nil =>
    intro x hx
    simp [dictSet, sideOrders] at hx
    exact Or.inr hx
  | cons e rest ih =>
    obtain ⟨k0, l0⟩ := e
    intro x hx
    by_cases h0 : k0 = k
    · simp only [dictSet, if_pos h0, sideOrders, List.flatMap_cons] at hx
      rcases List.mem_append.mp hx with h1 | h1
      · exact Or.inr h1
      · exact Or.inl (by simp [sideOrders, List.flatMap_cons]; right; simpa [sideOrders] using h1)
    · simp only [dictSet, if_neg h0, sideOrders, List.flatMap_cons] at hx
      rcases List.mem_append.mp hx with h1 | h1
      · exact Or.inl (by simp [sideOrders, List.flatMap_cons]; exact Or.inl h1)
      · rcases ih x (by simpa [sideOrders] using h1) with h2 | h2
        · exact Or.inl (by simp [sideOrders, List.flatMap_cons]; right; simpa [sideOrders] using h2)
        · exact Or.inr h2

theorem sideOrders_dictDelete_subset (s : BookSide) (k : ℚ) :
    ∀ x ∈ sideOrders (dictDelete s k), x ∈ sideOrders s := by
  intro x hx
  rw [sideOrders_mem_iff] at hx ⊢
  obtain ⟨e, he, hxe⟩ := hx
  exact ⟨e, (dictDelete_sublist s k).mem he, hxe⟩

/-!
Top-of-book characterization on well-formed books.
-/

theorem best_ask_spec (b : ProductAwareOrderBook) (hwf : BookWF b) (a : Order)
    (h : b.best_ask = some a) :
    minKey? b.asks = some a.price ∧ a ∈ sideOrders b.asks ∧ a.side = Side.SELL ∧
      ∃ level, dictGet b.asks a.price = some level ∧ level.head? = some a := by
  rcases hm : minKey? b.asks with _ | m
  · simp [ProductAwareOrderBook.best_ask, hm] at h
  · rcases hg : dictGet b.asks m with _ | level
    · simp [ProductAwareOrderBook.best_ask, hm, hg] at h
    · have h2 : level.head? = some a := by
        simpa [ProductAwareOrderBook.best_ask, hm, hg] using h
      have hmem : a ∈ level := List.mem_of_mem_head? h2
      have hlv := (hwf.asks_levels (m, level) (dictGet_mem _ _ _ hg)).2 a hmem
      have hso := sideOrders_of_level b.asks m level a hg hmem
      have hap : a.price = m := hlv.1
      subst hap
      exact ⟨rfl, hso, hlv.2, level, hg, h2⟩

theorem best_bid_spec (b : ProductAwareOrderBook) (hwf : BookWF b) (a : Order)
    (h : b.best_bid = some a) :
    maxKey? b.bids = some a.price ∧ a ∈ sideOrders b.bids ∧ a.side = Side.BUY ∧
      ∃ level, dictGet b.bids a.price = some level ∧ level.head? = some a := by
  rcases hm : maxKey? b.bids with _ | m
  · simp [ProductAwareOrderBook.best_bid, hm] at h
  · rcases hg : dictGet b.bids m with _ | level
    · simp [ProductAwareOrderBook.best_bid, hm, hg] at h
    · have h2 : level.head? = some a := by
        simpa [ProductAwareOrderBook.best_bid, hm, hg] using h
      have hmem : a ∈ level := List.mem_of_mem_head? h2
      have hlv := (hwf.bids_levels (m, level) (dictGet_mem _ _ _ hg)).2 a hmem
      have hso := sideOrders_of_level b.bids m level a hg hmem
      have hap : a.price = m := hlv.1
      subst hap
      exact ⟨rfl, hso, hlv.2, level, hg, h2⟩

theorem minKey?_le_order_price (b : ProductAwareOrderBook) (hwf : BookWF b) (m : ℚ)
    (hm : minKey? b.asks = some m) : ∀ o ∈ sideOrders b.asks, m ≤ o.price := by
  intro o ho
  obtain ⟨e, he, hoe⟩ := (sideOrders_mem_iff b.asks o).mp ho
  have hp : o.price = e.1 := ((hwf.asks_levels e he).2 o hoe).1
  rw [hp]
  exact minKey?_le b.asks m hm e.1 (List.mem_map.mpr ⟨e, he, rfl⟩)

theorem order_price_le_maxKey? (b : ProductAwareOrderBook) (hwf : BookWF b) (m : ℚ)
    (hm : maxKey? b.bids = some m) : ∀ o ∈ sideOrders b.bids, o.price ≤ m := by
  intro o ho
  obtain ⟨e, he, hoe⟩ := (sideOrders_mem_iff b.bids o).mp ho
  have hp : o.price = e.1 := ((hwf.bids_levels e he).2 o hoe).1
  rw [hp]
  exact le_maxKey? b.bids m hm e.1 (List.mem_map.mpr ⟨e, he, rfl⟩)

theorem best_ask_none_iff (b : ProductAwareOrderBook) (hwf : BookWF b) :
    b.best_ask = none ↔ b.asks = [] := by
  constructor
  · intro h
    by_contra hne
    have : minKey? b.asks ≠ none := fun hc => hne ((minKey?_eq_none_iff b.asks).mp hc)
    rcases hm : minKey? b.asks with _ | m
    · exact this hm
    · have hkeys := minKey?_mem b.asks m hm
      obtain ⟨level, hget⟩ := dictGet_isSome_of_mem_keys b.asks m hkeys
      have hne2 : level ≠ [] := (hwf.asks_levels (m, level) (dictGet_mem _ _ _ hget)).1
      rcases hl : level with _ | ⟨a, rest⟩
      · exact hne2 hl
      · rw [hl] at hget
        simp [ProductAwareOrderBook.best_ask, hm, hget] at h
  · intro h
    have : minKey? b.asks = none := (minKey?_eq_none_iff b.asks).mpr h
    simp [ProductAwareOrderBook.best_ask, this]

theorem best_bid_none_iff (b : ProductAwareOrderBook) (hwf : BookWF b) :
    b.best_bid = none ↔ b.bids = [] := by
  constructor
  · intro h
    by_contra hne
    have : maxKey? b.bids ≠ none := fun hc => hne ((maxKey?_eq_none_iff b.bids).mp hc)
    rcases hm : maxKey? b.bids with _ | m
    · exact this hm
    · have hkeys := maxKey?_mem b.bids m hm
      obtain ⟨level, hget⟩ := dictGet_isSome_of_mem_keys b.bids m hkeys
      have hne2 : level ≠ [] := (hwf.bids_levels (m, level) (dictGet_mem _ _ _ hget)).1
      rcases hl : level with _ | ⟨a, rest⟩
      · exact hne2 hl
      · rw [hl] at hget
        simp [ProductAwareOrderBook.best_bid, hm, hget] at h
  · intro h
    have : maxKey? b.bids = none := (maxKey?_eq_none_iff b.bids).mpr h
    simp [ProductAwareOrderBook.best_bid, this]

theorem best_ask_price_eq_minKey (b : ProductAwareOrderBook) (hwf : BookWF b) :
    b.best_ask_price = minKey? b.asks := by
  unfold ProductAwareOrderBook.best_ask_price
  rcases ha : b.best_ask with _ | a
  · have h1 : b.asks = [] := (best_ask_none_iff b hwf).mp ha
    rw [h1]
    simp [minKey?]
  · rw [(best_ask_spec b hwf a ha).1]
    rfl

theorem best_bid_price_eq_maxKey (b : ProductAwareOrderBook) (hwf : BookWF b) :
    b.best_bid_price = maxKey? b.bids := by
  unfold ProductAwareOrderBook.best_bid_price
  rcases ha : b.best_bid with _ | a
  · have h1 : b.bids = [] := (best_bid_none_iff b hwf).mp ha
    rw [h1]
    simp [maxKey?]
  · rw [(best_bid_spec b hwf a ha).1]
    rfl

/-!
Effect of the three book mutations used by matching.
-/

theorem mem_dictSet {κ β : Type} [DecidableEq κ] (d : List (κ × β)) (k : κ) (v : β) :
    ∀ e ∈ dictSet d k v, e ∈ d ∨ e = (k, v) := by
  induction d with
  | nil =>
    intro e he
    simp [dictSet] at he
    exact Or.inr he
  | cons e0 rest ih =>
    obtain ⟨k0, v0⟩ := e0
    intro e he
    by_cases h0 : k0 = k
    · simp only [dictSet, if_pos h0] at he
      rcases List.mem_cons.mp he with h1 | h1
      · exact Or.inr h1
      · exact Or.inl (List.mem_cons_of_mem _ h1)
    · simp only [dictSet, if_neg h0] at he
      rcases List.mem_cons.mp he with h1 | h1
      · exact Or.inl (h1 ▸ List.mem_cons_self _ _)
      · rcases ih e h1 with h2 | h2
        · exact Or.inl (List.mem_cons_of_mem _ h2)
        · exact Or.inr h2

theorem mutateOrder_ask_spec (b : ProductAwareOrderBook) (hwf : BookWF b) (a a' : Order)
    (level : List Order) (hget : dictGet b.asks a.price = some level) (hmem : a ∈ level)
    (hp : a'.price = a.price) (hs : a'.side = a.side) (hside : a.side = Side.SELL) :
    BookWF (b.mutateOrder a a') ∧
      (b.mutateOrder a a').bids = b.bids ∧
      (b.mutateOrder a a').product = b.product ∧
      (b.mutateOrder a a').asks.map Prod.fst = b.asks.map Prod.fst ∧
      sideVolSum (b.mutateOrder a a').asks = sideVolSum b.asks - a.volume + a'.volume ∧
      sideCount (b.mutateOrder a a').asks = sideCount b.asks ∧
      (∀ x ∈ sideOrders (b.mutateOrder a a').asks, x ∈ sideOrders b.asks ∨ x = a') ∧
      dictGet (b.mutateOrder a a').asks a'.price
        = some (replaceFirstOrder level a a') := by
  have hbm : b.mutateOrder a a'
      = { b with asks := dictSet b.asks a.price (replaceFirstOrder level a a') } := by
    unfold ProductAwareOrderBook.mutateOrder
    rw [hside, hget]
  rw [hbm]
  have hkeymem : a.price ∈ b.asks.map Prod.fst := mem_keys_of_dictGet _ _ _ hget
  have hkeys := keys_dictSet_mem b.asks a.price (replaceFirstOrder level a a') hkeymem
  refine ⟨?_, rfl, rfl, hkeys, ?_, ?_, ?_, ?_⟩
  · constructor
    · exact hwf.bids_nodup
    · rw [hkeys]
      exact hwf.asks_nodup
    · exact hwf.bids_levels
    · intro e he
      rcases mem_dictSet b.asks a.price (replaceFirstOrder level a a') e he with h1 | h1
      · exact hwf.asks_levels e h1
      · subst h1
        constructor
        · intro hc
          have hc2 : replaceFirstOrder level a a' = [] := hc
          have hlen := replaceFirstOrder_length level a a'
          rw [hc2] at hlen
          have hne : level ≠ [] := (hwf.asks_levels (a.price, level) (dictGet_mem _ _ _ hget)).1
          simp at hlen
          exact hne (List.length_eq_zero.mp hlen.symm)
        · intro o ho
          rcases replaceFirstOrder_mem level a a' o ho with h2 | h2
          · exact (hwf.asks_levels (a.price, level) (dictGet_mem _ _ _ hget)).2 o h2
          · subst h2
            exact ⟨hp, hs.trans hside⟩
  · rw [sideVolSum_dictSet b.asks a.price level _ hget,
      replaceFirstOrder_volume level a a' hmem]
    ring
  · show sideCount (dictSet b.asks a.price (replaceFirstOrder level a a')) = sideCount b.asks
    have h1 := sideCount_dictSet b.asks a.price level (replaceFirstOrder level a a') hget
    rw [replaceFirstOrder_length level a a'] at h1
    omega
  · intro x hx
    rcases sideOrders_dictSet_subset b.asks a.price (replaceFirstOrder level a a') x hx
      with h1 | h1
    · exact Or.inl h1
    · rcases replaceFirstOrder_mem level a a' x h1 with h2 | h2
      · exact Or.inl (sideOrders_of_level b.asks a.price level x hget h2)
      · exact Or.inr h2
  · rw [hp]
    exact dictGet_set_self b.asks a.price (replaceFirstOrder level a a')

theorem mutateOrder_bid_spec (b : ProductAwareOrderBook) (hwf : BookWF b) (a a' : Order)
    (level : List Order) (hget : dictGet b.bids a.price = some level) (hmem : a ∈ level)
    (hp : a'.price = a.price) (hs : a'.side = a.side) (hside : a.side = Side.BUY) :
    BookWF (b.mutateOrder a a') ∧
      (b.mutateOrder a a').asks = b.asks ∧
      (b.mutateOrder a a').product = b.product ∧
      (b.mutateOrder a a').bids.map Prod.fst = b.bids.map Prod.fst ∧
      sideVolSum (b.mutateOrder a a').bids = sideVolSum b.bids - a.volume + a'.volume ∧
      sideCount (b.mutateOrder a a').bids = sideCount b.bids ∧
      (∀ x ∈ sideOrders (b.mutateOrder a a').bids, x ∈ sideOrders b.bids ∨ x = a') ∧
      dictGet (b.mutateOrder a a').bids a'.price
        = some (replaceFirstOrder level a a') := by
  have hbm : b.mutateOrder a a'
      = { b with bids := dictSet b.bids a.price (replaceFirstOrder level a a') } := by
    unfold ProductAwareOrderBook.mutateOrder
    rw [hside, hget]
  rw [hbm]
  have hkeymem : a.price ∈ b.bids.map Prod.fst := mem_keys_of_dictGet _ _ _ hget
  have hkeys := keys_dictSet_mem b.bids a.price (replaceFirstOrder level a a') hkeymem
  refine ⟨?_, rfl, rfl, hkeys, ?_, ?_, ?_, ?_⟩
  · constructor
    · rw [hkeys]
      exact hwf.bids_nodup
    · exact hwf.asks_nodup
    · intro e he
      rcases mem_dictSet b.bids a.price (replaceFirstOrder level a a') e he with h1 | h1
      · exact hwf.bids_levels e h1
      · subst h1
        constructor
        · intro hc
          have hc2 : replaceFirstOrder level a a' = [] := hc
          have hlen := replaceFirstOrder_length level a a'
          rw [hc2] at hlen
          have hne : level ≠ [] := (hwf.bids_levels (a.price, level) (dictGet_mem _ _ _ hget)).1
          simp at hlen
          exact hne (List.length_eq_zero.mp hlen.symm)
        · intro o ho
          rcases replaceFirstOrder_mem level a a' o ho with h2 | h2
          · exact (hwf.bids_levels (a.price, level) (dictGet_mem _ _ _ hget)).2 o h2
          · subst h2
            exact ⟨hp, hs.trans hside⟩
    · exact hwf.asks_levels
  · rw [sideVolSum_dictSet b.bids a.price level _ hget,
      replaceFirstOrder_volume level a a' hmem]
    ring
  · show sideCount (dictSet b.bids a.price (replaceFirstOrder level a a')) = sideCount b.bids
    have h1 := sideCount_dictSet b.bids a.price level (replaceFirstOrder level a a') hget
    rw [replaceFirstOrder_length level a a'] at h1
    omega
  · intro x hx
    rcases sideOrders_dictSet_subset b.bids a.price (replaceFirstOrder level a a') x hx
      with h1 | h1
    · exact Or.inl h1
    · rcases replaceFirstOrder_mem level a a' x h1 with h2 | h2
      · exact Or.inl (sideOrders_of_level b.bids a.price level x hget h2)
      · exact Or.inr h2
  · rw [hp]
    exact dictGet_set_self b.bids a.price (replaceFirstOrder level a a')

theorem removeOrder_ask_spec (b : ProductAwareOrderBook) (hwf : BookWF b) (o : Order)
    (level : List Order) (hget : dictGet b.asks o.price = some level) (hmem : o ∈ level)
    (hside : o.side = Side.SELL) :
    BookWF (b.remove_order o) ∧
      (b.remove_order o).bids = b.bids ∧
      (b.remove_order o).product = b.product ∧
      (∀ k ∈ (b.remove_order o).asks.map Prod.fst, k ∈ b.asks.map Prod.fst) ∧
      sideVolSum (b.remove_order o).asks = sideVolSum b.asks - o.volume ∧
      sideCount (b.remove_order o).asks + 1 = sideCount b.asks ∧
      (∀ x ∈ sideOrders (b.remove_order o).asks, x ∈ sideOrders b.asks) := by
  by_cases hnil : eraseFirstOrder level o = []
  · have hbr : b.remove_order o = { b with asks := dictDelete b.asks o.price } := by
      unfold ProductAwareOrderBook.remove_order
      rw [hside, hget]
      simp [hnil]
    rw [hbr]
    have hsub := dictDelete_sublist b.asks o.price
    have hvol : (level.map Order.volume).sum = o.volume := by
      have := eraseFirstOrder_volume level o hmem
      rw [hnil] at this
      simp at this
      linarith
    have hlen : level.length = 1 := by
      have := eraseFirstOrder_length level o hmem
      rw [hnil] at this
      simpa using this.symm
    refine ⟨?_, rfl, rfl, ?_, ?_, ?_, ?_⟩
    · constructor
      · exact hwf.bids_nodup
      · exact ((hsub.map Prod.fst).nodup hwf.asks_nodup)
      · exact hwf.bids_levels
      · intro e he
        exact hwf.asks_levels e (hsub.subset he)
    · intro k hk
      obtain ⟨e, he, hke⟩ := List.mem_map.mp hk
      exact List.mem_map.mpr ⟨e, hsub.subset he, hke⟩
    · show sideVolSum (dictDelete b.asks o.price) = sideVolSum b.asks - o.volume
      rw [sideVolSum_dictDelete b.asks o.price level hget, hvol]
    · show sideCount (dictDelete b.asks o.price) + 1 = sideCount b.asks
      have := sideCount_dictDelete b.asks o.price level hget
      omega
    · intro x hx
      exact sideOrders_dictDelete_subset b.asks o.price x hx
  · have hbr : b.remove_order o
        = { b with asks := dictSet b.asks o.price (eraseFirstOrder level o) } := by
      unfold ProductAwareOrderBook.remove_order
      rw [hside, hget]
      simp [hnil]
    rw [hbr]
    have hkeymem : o.price ∈ b.asks.map Prod.fst := mem_keys_of_dictGet _ _ _ hget
    have hkeys := keys_dictSet_mem b.asks o.price (eraseFirstOrder level o) hkeymem
    refine ⟨?_, rfl, rfl, ?_, ?_, ?_, ?_⟩
    · constructor
      · exact hwf.bids_nodup
      · rw [hkeys]
        exact hwf.asks_nodup
      · exact hwf.bids_levels
      · intro e he
        rcases mem_dictSet b.asks o.price (eraseFirstOrder level o) e he with h1 | h1
        · exact hwf.asks_levels e h1
        · subst h1
          refine ⟨hnil, ?_⟩
          intro x hx
          exact (hwf.asks_levels (o.price, level) (dictGet_mem _ _ _ hget)).2 x
            (eraseFirstOrder_subset level o x hx)
    · intro k hk
      rw [hkeys] at hk
      exact hk
    · show sideVolSum (dictSet b.asks o.price (eraseFirstOrder level o))
        = sideVolSum b.asks - o.volume
      rw [sideVolSum_dictSet b.asks o.price level _ hget, eraseFirstOrder_volume level o hmem]
      ring
    · show sideCount (dictSet b.asks o.price (eraseFirstOrder level o)) + 1 = sideCount b.asks
      have h1 := sideCount_dictSet b.asks o.price level (eraseFirstOrder level o) hget
      have h2 := eraseFirstOrder_length level o hmem
      omega
    · intro x hx
      rcases sideOrders_dictSet_subset b.asks o.price (eraseFirstOrder level o) x hx with h1 | h1
      · exact h1
      · exact sideOrders_of_level b.asks o.price level x hget
          (eraseFirstOrder_subset level o x h1)

theorem removeOrder_bid_spec (b : ProductAwareOrderBook) (hwf : BookWF b) (o : Order)
    (level : List Order) (hget : dictGet b.bids o.price = some level) (hmem : o ∈ level)
    (hside : o.side = Side.BUY) :
    BookWF (b.remove_order o) ∧
      (b.remove_order o).asks = b.asks ∧
      (b.remove_order o).product = b.product ∧
      (∀ k ∈ (b.remove_order o).bids.map Prod.fst, k ∈ b.bids.map Prod.fst) ∧
      sideVolSum (b.remove_order o).bids = sideVolSum b.bids - o.volume ∧
      sideCount (b.remove_order o).bids + 1 = sideCount b.bids ∧
      (∀ x ∈ sideOrders (b.remove_order o).bids, x ∈ sideOrders b.bids) := by
  by_cases hnil : eraseFirstOrder level o = []
  · have hbr : b.remove_order o = { b with bids := dictDelete b.bids o.price } := by
      unfold ProductAwareOrderBook.remove_order
      rw [hside, hget]
      simp [hnil]
    rw [hbr]
    have hsub := dictDelete_sublist b.bids o.price
    have hvol : (level.map Order.volume).sum = o.volume := by
      have := eraseFirstOrder_volume level o hmem
      rw [hnil] at this
      simp at this
      linarith
    refine ⟨?_, rfl, rfl, ?_, ?_, ?_, ?_⟩
    · constructor
      · exact ((hsub.map Prod.fst).nodup hwf.bids_nodup)
      · exact hwf.asks_nodup
      · intro e he
        exact hwf.bids_levels e (hsub.subset he)
      · exact hwf.asks_levels
    · intro k hk
      obtain ⟨e, he, hke⟩ := List.mem_map.mp hk
      exact List.mem_map.mpr ⟨e, hsub.subset he, hke⟩
    · show sideVolSum (dictDelete b.bids o.price) = sideVolSum b.bids - o.volume
      rw [sideVolSum_dictDelete b.bids o.price level hget, hvol]
    · show sideCount (dictDelete b.bids o.price) + 1 = sideCount b.bids
      have h1 := sideCount_dictDelete b.bids o.price level hget
      have h2 := eraseFirstOrder_length level o hmem
      rw [hnil] at h2
      simp at h2
      omega
    · intro x hx
      exact sideOrders_dictDelete_subset b.bids o.price x hx
  · have hbr : b.remove_order o
        = { b with bids := dictSet b.bids o.price (eraseFirstOrder level o) } := by
      unfold ProductAwareOrderBook.remove_order
      rw [hside, hget]
      simp [hnil]
    rw [hbr]
    have hkeymem : o.price ∈ b.bids.map Prod.fst := mem_keys_of_dictGet _ _ _ hget
    have hkeys := keys_dictSet_mem b.bids o.price (eraseFirstOrder level o) hkeymem
    refine ⟨?_, rfl, rfl, ?_, ?_, ?_, ?_⟩
    · constructor
      · rw [hkeys]
        exact hwf.bids_nodup
      · exact hwf.asks_nodup
      · intro e he
        rcases mem_dictSet b.bids o.price (eraseFirstOrder level o) e he with h1 | h1
        · exact hwf.bids_levels e h1
        · subst h1
          refine ⟨hnil, ?_⟩
          intro x hx
          exact (hwf.bids_levels (o.price, level) (dictGet_mem _ _ _ hget)).2 x
            (eraseFirstOrder_subset level o x hx)
      · exact hwf.asks_levels
    · intro k hk
      rw [hkeys] at hk
      exact hk
    · show sideVolSum (dictSet b.bids o.price (eraseFirstOrder level o))
        = sideVolSum b.bids - o.volume
      rw [sideVolSum_dictSet b.bids o.price level _ hget, eraseFirstOrder_volume level o hmem]
      ring
    · show sideCount (dictSet b.bids o.price (eraseFirstOrder level o)) + 1 = sideCount b.bids
      have h1 := sideCount_dictSet b.bids o.price level (eraseFirstOrder level o) hget
      have h2 := eraseFirstOrder_length level o hmem
      omega
    · intro x hx
      rcases sideOrders_dictSet_subset b.bids o.price (eraseFirstOrder level o) x hx with h1 | h1
      · exact h1
      · exact sideOrders_of_level b.bids o.price level x hget
          (eraseFirstOrder_subset level o x h1)

theorem order_price_mem_ask_keys (b : ProductAwareOrderBook) (hwf : BookWF b) (x : Order)
    (hx : x ∈ sideOrders b.asks) : x.price ∈ b.asks.map Prod.fst := by
  obtain ⟨e, he, hxe⟩ := (sideOrders_mem_iff b.asks x).mp hx
  rw [((hwf.asks_levels e he).2 x hxe).1]
  exact List.mem_map.mpr ⟨e, he, rfl⟩

theorem order_price_mem_bid_keys (b : ProductAwareOrderBook) (hwf : BookWF b) (x : Order)
    (hx : x ∈ sideOrders b.bids) : x.price ∈ b.bids.map Prod.fst := by
  obtain ⟨e, he, hxe⟩ := (sideOrders_mem_iff b.bids x).mp hx
  rw [((hwf.bids_levels e he).2 x hxe).1]
  exact List.mem_map.mpr ⟨e, he, rfl⟩

theorem addOrder_buy_eq (b : ProductAwareOrderBook) (o : Order)
    (hpid : o.product_id = b.product.product_id) (hside : o.side = Side.BUY) :
    b.add_order o = .ok { b with bids := dictAppendAt b.bids o.price o } := by
  unfold ProductAwareOrderBook.add_order
  simp [hpid, hside]

theorem addOrder_sell_eq (b : ProductAwareOrderBook) (o : Order)
    (hpid : o.product_id = b.product.product_id) (hside : o.side = Side.SELL) :
    b.add_order o = .ok { b with asks := dictAppendAt b.asks o.price o } := by
  unfold ProductAwareOrderBook.add_order
  simp [hpid, hside]

theorem dictAppendAt_bookwf_bids (b : ProductAwareOrderBook) (hwf : BookWF b) (o : Order)
    (hside : o.side = Side.BUY) :
    BookWF { b with bids := dictAppendAt b.bids o.price o } := by
  constructor
  · exact nodup_keys_dictSet b.bids o.price _ hwf.bids_nodup
  · exact hwf.asks_nodup
  · intro e he
    rcases mem_dictSet b.bids o.price _ e he with h1 | h1
    · exact hwf.bids_levels e h1
    · subst h1
      refine ⟨by simp, ?_⟩
      intro x hx
      rcases List.mem_append.mp hx with h2 | h2
      · rcases hg : dictGet b.bids o.price with _ | level
        · rw [hg] at h2
          simp at h2
        · rw [hg] at h2
          simp only [Option.getD_some] at h2
          exact (hwf.bids_levels (o.price, level) (dictGet_mem _ _ _ hg)).2 x h2
      · rw [List.mem_singleton] at h2
        subst h2
        exact ⟨rfl, hside⟩
  · exact hwf.asks_levels

theorem dictAppendAt_bookwf_asks (b : ProductAwareOrderBook) (hwf : BookWF b) (o : Order)
    (hside : o.side = Side.SELL) :
    BookWF { b with asks := dictAppendAt b.asks o.price o } := by
  constructor
  · exact hwf.bids_nodup
  · exact nodup_keys_dictSet b.asks o.price _ hwf.asks_nodup
  · exact hwf.bids_levels
  · intro e he
    rcases mem_dictSet b.asks o.price _ e he with h1 | h1
    · exact hwf.asks_levels e h1
    · subst h1
      refine ⟨by simp, ?_⟩
      intro x hx
      rcases List.mem_append.mp hx with h2 | h2
      · rcases hg : dictGet b.asks o.price with _ | level
        · rw [hg] at h2
          simp at h2
        · rw [hg] at h2
          simp only [Option.getD_some] at h2
          exact (hwf.asks_levels (o.price, level) (dictGet_mem _ _ _ hg)).2 x h2
      · rw [List.mem_singleton] at h2
        subst h2
        exact ⟨rfl, hside⟩

/-- Unfolding equation for one executed iteration of the `_match_buy`
loop. -/
theorem matchBuyFuel_succ_eq (fuel : Nat) (b : ProductAwareOrderBook) (inc : Order)
    (t : Int) (ask : Order) (hvol : 0 < inc.volume) (hba : b.best_ask = some ask)
    (hcross : ¬ inc.price < ask.price) :
    matchBuyFuel (fuel + 1) b inc t =
      ({ product_id := b.product.product_id, price := ask.price,
         volume := min inc.volume ask.volume, buy_order_id := inc.id,
         sell_order_id := ask.id, buy_agent_id := inc.agent_id,
         sell_agent_id := ask.agent_id, time := t }
        :: (matchBuyFuel fuel
            (if ({ ask with volume := ask.volume - min inc.volume ask.volume } : Order).volume ≤ 0
             then (b.mutateOrder ask { ask with volume := ask.volume - min inc.volume ask.volume }).remove_order
               { ask with volume := ask.volume - min inc.volume ask.volume }
             else b.mutateOrder ask { ask with volume := ask.volume - min inc.volume ask.volume })
            { inc with volume := inc.volume - min inc.volume ask.volume } t).1,
       (matchBuyFuel fuel
            (if ({ ask with volume := ask.volume - min inc.volume ask.volume } : Order).volume ≤ 0
             then (b.mutateOrder ask { ask with volume := ask.volume - min inc.volume ask.volume }).remove_order
               { ask with volume := ask.volume - min inc.volume ask.volume }
             else b.mutateOrder ask { ask with volume := ask.volume - min inc.volume ask.volume })
            { inc with volume := inc.volume - min inc.volume ask.volume } t).2.1,
       (matchBuyFuel fuel
            (if ({ ask with volume := ask.volume - min inc.volume ask.volume } : Order).volume ≤ 0
             then (b.mutateOrder ask { ask with volume := ask.volume - min inc.volume ask.volume }).remove_order
               { ask with volume := ask.volume - min inc.volume ask.volume }
             else b.mutateOrder ask { ask with volume := ask.volume - min inc.volume ask.volume })
            { inc with volume := inc.volume - min inc.volume ask.volume } t).2.2) := by
  conv_lhs => rw [matchBuyFuel]
  rw [if_pos hvol, hba]
  simp only [hcross, if_false]

theorem matchBuyFuel_nonpos (fuel : Nat) (b : ProductAwareOrderBook) (inc : Order)
    (t : Int) (hvol : ¬ 0 < inc.volume) : matchBuyFuel fuel b inc t = ([], inc, b) := by
  cases fuel with
  | zero => rfl
  | succ fuel =>
    conv_lhs => rw [matchBuyFuel]
    rw [if_neg hvol]

theorem matchBuyFuel_noask (fuel : Nat) (b : ProductAwareOrderBook) (inc : Order)
    (t : Int) (hba : b.best_ask = none) : matchBuyFuel fuel b inc t = ([], inc, b) := by
  cases fuel with
  | zero => rfl
  | succ fuel =>
    conv_lhs => rw [matchBuyFuel]
    rw [hba]
    simp

theorem matchBuyFuel_nocross (fuel : Nat) (b : ProductAwareOrderBook) (inc : Order)
    (t : Int) (ask : Order) (hba : b.best_ask = some ask)
    (hc : inc.price < ask.price) : matchBuyFuel fuel b inc t = ([], inc, b) := by
  cases fuel with
  | zero => rfl
  | succ fuel =>
    conv_lhs => rw [matchBuyFuel]
    rw [hba]
    simp [hc]

theorem matchSellFuel_nonpos (fuel : Nat) (b : ProductAwareOrderBook) (inc : Order)
    (t : Int) (hvol : ¬ 0 < inc.volume) : matchSellFuel fuel b inc t = ([], inc, b) := by
  cases fuel with
  | zero => rfl
  | succ fuel =>
    conv_lhs => rw [matchSellFuel]
    rw [if_neg hvol]

theorem matchSellFuel_nobid (fuel : Nat) (b : ProductAwareOrderBook) (inc : Order)
    (t : Int) (hbb : b.best_bid = none) : matchSellFuel fuel b inc t = ([], inc, b) := by
  cases fuel with
  | zero => rfl
  | succ fuel =>
    conv_lhs => rw [matchSellFuel]
    rw [hbb]
    simp

theorem matchSellFuel_nocross (fuel : Nat) (b : ProductAwareOrderBook) (inc : Order)
    (t : Int) (bid : Order) (hbb : b.best_bid = some bid)
    (hc : bid.price < inc.price) : matchSellFuel fuel b inc t = ([], inc, b) := by
  cases fuel with
  | zero => rfl
  | succ fuel =>
    conv_lhs => rw [matchSellFuel]
    rw [hbb]
    simp [hc]

/-- Unfolding equation for one executed iteration of the `_match_sell`
loop. -/
theorem matchSellFuel_succ_eq (fuel : Nat) (b : ProductAwareOrderBook) (inc : Order)
    (t : Int) (bid : Order) (hvol : 0 < inc.volume) (hbb : b.best_bid = some bid)
    (hcross : ¬ bid.price < inc.price) :
    matchSellFuel (fuel + 1) b inc t =
      ({ product_id := b.product.product_id, price := bid.price,
         volume := min inc.volume bid.volume, buy_order_id := bid.id,
         sell_order_id := inc.id, buy_agent_id := bid.agent_id,
         sell_agent_id := inc.agent_id, time := t }
        :: (matchSellFuel fuel
            (if ({ bid with volume := bid.volume - min inc.volume bid.volume } : Order).volume ≤ 0
             then (b.mutateOrder bid { bid with volume := bid.volume - min inc.volume bid.volume }).remove_order
               { bid with volume := bid.volume - min inc.volume bid.volume }
             else b.mutateOrder bid { bid with volume := bid.volume - min inc.volume bid.volume })
            { inc with volume := inc.volume - min inc.volume bid.volume } t).1,
       (matchSellFuel fuel
            (if ({ bid with volume := bid.volume - min inc.volume bid.volume } : Order).volume ≤ 0
             then (b.mutateOrder bid { bid with volume := bid.volume - min inc.volume bid.volume }).remove_order
               { bid with volume := bid.volume - min inc.volume bid.volume }
             else b.mutateOrder bid { bid with volume := bid.volume - min inc.volume bid.volume })
            { inc with volume := inc.volume - min inc.volume bid.volume } t).2.1,
       (matchSellFuel fuel
            (if ({ bid with volume := bid.volume - min inc.volume bid.volume } : Order).volume ≤ 0
             then (b.mutateOrder bid { bid with volume := bid.volume - min inc.volume bid.volume }).remove_order
               { bid with volume := bid.volume - min inc.volume bid.volume }
             else b.mutateOrder bid { bid with volume := bid.volume - min inc.volume bid.volume })
            { inc with volume := inc.volume - min inc.volume bid.volume } t).2.2) := by
  conv_lhs => rw [matchSellFuel]
  rw [if_pos hvol, hbb]
  simp only [hcross, if_false]

/-- Invariants of the `_match_buy` loop, proved for any amount of fuel:
well-formedness, bid-side preservation, ask-key shrinkage, pay-as-bid
trade prices, exact volume bookkeeping, and price monotonicity. -/
theorem matchBuyFuel_spec (fuel : Nat) (b : ProductAwareOrderBook) (inc : Order) (t : Int)
    (hwf : BookWF b) :
    BookWF (matchBuyFuel fuel b inc t).2.2 ∧
    (matchBuyFuel fuel b inc t).2.2.bids = b.bids ∧
    (matchBuyFuel fuel b inc t).2.2.product = b.product ∧
    (∀ k ∈ (matchBuyFuel fuel b inc t).2.2.asks.map Prod.fst, k ∈ b.asks.map Prod.fst) ∧
    (matchBuyFuel fuel b inc t).2.1
      = { inc with volume := (matchBuyFuel fuel b inc t).2.1.volume } ∧
    inc.volume - (matchBuyFuel fuel b inc t).2.1.volume
      = ((matchBuyFuel fuel b inc t).1.map Trade.volume).sum ∧
    (0 ≤ inc.volume → 0 ≤ (matchBuyFuel fuel b inc t).2.1.volume) ∧
    sideVolSum b.asks - sideVolSum (matchBuyFuel fuel b inc t).2.2.asks
      = ((matchBuyFuel fuel b inc t).1.map Trade.volume).sum ∧
    (∀ tr ∈ (matchBuyFuel fuel b inc t).1, ∃ ro ∈ sideOrders b.asks,
      tr.price = ro.price ∧ tr.sell_order_id = ro.id ∧ tr.sell_agent_id = ro.agent_id ∧
      tr.buy_order_id = inc.id ∧ tr.buy_agent_id = inc.agent_id ∧
      tr.product_id = b.product.product_id ∧ tr.time = t) ∧
    (∀ tr ∈ (matchBuyFuel fuel b inc t).1,
      ∀ x ∈ sideOrders (matchBuyFuel fuel b inc t).2.2.asks, tr.price ≤ x.price) ∧
    List.Pairwise (fun tr1 tr2 => tr1.price ≤ tr2.price) (matchBuyFuel fuel b inc t).1 := by
  induction fuel generalizing b inc with
  | zero =>
    refine ⟨hwf, rfl, rfl, fun k hk => hk, rfl, by simp [matchBuyFuel], fun h => h,
      by simp [matchBuyFuel], by simp [matchBuyFuel], by simp [matchBuyFuel],
      by simp [matchBuyFuel]⟩
  | succ fuel ih =>
    by_cases hvol : 0 < inc.volume
    case neg =>
      rw [matchBuyFuel_nonpos (fuel + 1) b inc t hvol]
      exact ⟨hwf, rfl, rfl, fun k hk => hk, rfl, by simp, fun h => h, by simp,
        by simp, by simp, by simp⟩
    rcases hba : b.best_ask with _ | ask
    · rw [matchBuyFuel_noask (fuel + 1) b inc t hba]
      exact ⟨hwf, rfl, rfl, fun k hk => hk, rfl, by simp, fun h => h, by simp,
        by simp, by simp, by simp⟩
    by_cases hcross : inc.price < ask.price
    · rw [matchBuyFuel_nocross (fuel + 1) b inc t ask hba hcross]
      exact ⟨hwf, rfl, rfl, fun k hk => hk, rfl, by simp, fun h => h, by simp,
        by simp, by simp, by simp⟩
    -- One iteration executes.
    obtain ⟨hmin, hmemS, hsideS, level, hget, hhead⟩ := best_ask_spec b hwf ask hba
    set traded := min inc.volume ask.volume with htraded
    set ask' : Order := { ask with volume := ask.volume - traded } with hask'
    set inc' : Order := { inc with volume := inc.volume - traded } with hinc'
    set b' : ProductAwareOrderBook :=
      if ask'.volume ≤ 0 then (b.mutateOrder ask ask').remove_order ask'
      else b.mutateOrder ask ask' with hb'
    have heq := matchBuyFuel_succ_eq fuel b inc t ask hvol hba hcross
    have hmemlvl : ask ∈ level := List.mem_of_mem_head? hhead
    obtain ⟨hmwf, hmbids, hmprod, hmkeys, hmvol, hmcount, hmorders, hmget⟩ :=
      mutateOrder_ask_spec b hwf ask ask' level hget hmemlvl rfl rfl hsideS
    -- Summary facts about the book after this iteration.
    have hb'wf : BookWF b' ∧ b'.bids = b.bids ∧ b'.product = b.product ∧
        (∀ k ∈ b'.asks.map Prod.fst, k ∈ b.asks.map Prod.fst) ∧
        sideVolSum b'.asks = sideVolSum b.asks - traded ∧
        (∀ x ∈ sideOrders b'.asks, x ∈ sideOrders b.asks ∨ x = ask') := by
      by_cases hrem : ask'.volume ≤ 0
      · have hv0 : ask.volume ≤ traded := by
          have : ask.volume - traded ≤ 0 := hrem
          linarith
        have htv : traded = ask.volume := le_antisymm (min_le_right _ _) hv0
        have hmem' : ask' ∈ replaceFirstOrder level ask ask' :=
          replaceFirstOrder_self_mem level ask ask' hmemlvl
        obtain ⟨hrwf, hrbids, hrprod, hrkeys, hrvol, hrcount, hrorders⟩ :=
          removeOrder_ask_spec (b.mutateOrder ask ask') hmwf ask'
            (replaceFirstOrder level ask ask') hmget hmem' hsideS
        rw [hb', if_pos hrem]
        refine ⟨hrwf, hrbids.trans hmbids, hrprod.trans hmprod, ?_, ?_, ?_⟩
        · intro k hk
          have h1 := hrkeys k hk
          rw [hmkeys] at h1
          exact h1
        · rw [hrvol, hmvol]
          show sideVolSum b.asks - ask.volume + (ask.volume - traded) - (ask.volume - traded)
            = sideVolSum b.asks - traded
          rw [htv]
          ring
        · intro x hx
          exact hmorders x (hrorders x hx)
      · rw [hb', if_neg hrem]
        refine ⟨hmwf, hmbids, hmprod, fun k hk => by rw [hmkeys] at hk; exact hk, ?_,
          hmorders⟩
        rw [hmvol]
        show sideVolSum b.asks - ask.volume + (ask.volume - traded) = sideVolSum b.asks - traded
        ring
    obtain ⟨hb'wf1, hb'bids, hb'prod, hb'keys, hb'vol, hb'orders⟩ := hb'wf
    obtain ⟨iwf, ibids, iprod, ikeys, iinc, ivol, innneg, iasks, itrades, isurv, ipair⟩ :=
      ih b' inc' hb'wf1
    have hrwfin : ∀ k ∈ (matchBuyFuel fuel b' inc' t).2.2.asks.map Prod.fst,
        k ∈ b.asks.map Prod.fst := fun k hk => hb'keys k (ikeys k hk)
    -- Trade prices of the recursive call are at least the current best ask price.
    have hlater : ∀ tr ∈ (matchBuyFuel fuel b' inc' t).1, ask.price ≤ tr.price := by
      intro tr htr
      obtain ⟨ro, hro, hp, _⟩ := itrades tr htr
      have hkey : ro.price ∈ b'.asks.map Prod.fst := order_price_mem_ask_keys b' hb'wf1 ro hro
      have : ro.price ∈ b.asks.map Prod.fst := hb'keys ro.price hkey
      rw [hp]
      exact minKey?_le b.asks ask.price hmin ro.price this
    have hsurvb : ∀ x ∈ sideOrders (matchBuyFuel fuel b' inc' t).2.2.asks,
        ask.price ≤ x.price := by
      intro x hx
      have hkey : x.price ∈ (matchBuyFuel fuel b' inc' t).2.2.asks.map Prod.fst :=
        order_price_mem_ask_keys _ iwf x hx
      exact minKey?_le b.asks ask.price hmin x.price (hrwfin x.price hkey)
    rw [heq]
    refine ⟨iwf, ibids.trans hb'bids, iprod.trans hb'prod, hrwfin, ?_, ?_, ?_, ?_, ?_, ?_, ?_⟩
    · rw [iinc]
    · have h1 : inc'.volume = inc.volume - traded := rfl
      rw [List.map_cons, List.sum_cons, ← ivol, h1]
      show inc.volume - (matchBuyFuel fuel b' inc' t).2.1.volume
        = traded + (inc.volume - traded - (matchBuyFuel fuel b' inc' t).2.1.volume)
      ring
    · intro _
      have h0 : 0 ≤ inc'.volume := by
        show 0 ≤ inc.volume - traded
        have := min_le_left inc.volume ask.volume
        rw [← htraded] at this
        linarith
      exact innneg h0
    · rw [List.map_cons, List.sum_cons, ← iasks, hb'vol]
      ring
    · intro tr htr
      rcases List.mem_cons.mp htr with h1 | h1
      · subst h1
        exact ⟨ask, hmemS, rfl, rfl, rfl, rfl, rfl, rfl, rfl⟩
      · obtain ⟨ro, hro, hp, hid, hag, hbid, hbag, hpid, htime⟩ := itrades tr h1
        rcases hb'orders ro hro with h2 | h2
        · exact ⟨ro, h2, hp, hid, hag, hbid, hbag, hpid.trans (congrArg Product.product_id hb'prod),
            htime⟩
        · refine ⟨ask, hmemS, ?_, ?_, ?_, hbid, hbag,
            hpid.trans (congrArg Product.product_id hb'prod), htime⟩
          · rw [hp, h2]
          · rw [hid, h2]
          · rw [hag, h2]
    · intro tr htr x hx
      rcases List.mem_cons.mp htr with h1 | h1
      · subst h1
        exact hsurvb x hx
      · exact isurv tr h1 x hx
    · rw [List.pairwise_cons]
      exact ⟨hlater, ipair⟩

/-- Invariants of the `_match_sell` loop, mirroring `matchBuyFuel_spec`. -/
theorem matchSellFuel_spec (fuel : Nat) (b : ProductAwareOrderBook) (inc : Order) (t : Int)
    (hwf : BookWF b) :
    BookWF (matchSellFuel fuel b inc t).2.2 ∧
    (matchSellFuel fuel b inc t).2.2.asks = b.asks ∧
    (matchSellFuel fuel b inc t).2.2.product = b.product ∧
    (∀ k ∈ (matchSellFuel fuel b inc t).2.2.bids.map Prod.fst, k ∈ b.bids.map Prod.fst) ∧
    (matchSellFuel fuel b inc t).2.1
      = { inc with volume := (matchSellFuel fuel b inc t).2.1.volume } ∧
    inc.volume - (matchSellFuel fuel b inc t).2.1.volume
      = ((matchSellFuel fuel b inc t).1.map Trade.volume).sum ∧
    (0 ≤ inc.volume → 0 ≤ (matchSellFuel fuel b inc t).2.1.volume) ∧
    sideVolSum b.bids - sideVolSum (matchSellFuel fuel b inc t).2.2.bids
      = ((matchSellFuel fuel b inc t).1.map Trade.volume).sum ∧
    (∀ tr ∈ (matchSellFuel fuel b inc t).1, ∃ ro ∈ sideOrders b.bids,
      tr.price = ro.price ∧ tr.buy_order_id = ro.id ∧ tr.buy_agent_id = ro.agent_id ∧
      tr.sell_order_id = inc.id ∧ tr.sell_agent_id = inc.agent_id ∧
      tr.product_id = b.product.product_id ∧ tr.time = t) ∧
    (∀ tr ∈ (matchSellFuel fuel b inc t).1,
      ∀ x ∈ sideOrders (matchSellFuel fuel b inc t).2.2.bids, x.price ≤ tr.price) ∧
    List.Pairwise (fun tr1 tr2 => tr2.price ≤ tr1.price) (matchSellFuel fuel b inc t).1 := by
  induction fuel generalizing b inc with
  | zero =>
    refine ⟨hwf, rfl, rfl, fun k hk => hk, rfl, by simp [matchSellFuel], fun h => h,
      by simp [matchSellFuel], by simp [matchSellFuel], by simp [matchSellFuel],
      by simp [matchSellFuel]⟩
  | succ fuel ih =>
    by_cases hvol : 0 < inc.volume
    case neg =>
      rw [matchSellFuel_nonpos (fuel + 1) b inc t hvol]
      exact ⟨hwf, rfl, rfl, fun k hk => hk, rfl, by simp, fun h => h, by simp,
        by simp, by simp, by simp⟩
    rcases hbb : b.best_bid with _ | bid
    · rw [matchSellFuel_nobid (fuel + 1) b inc t hbb]
      exact ⟨hwf, rfl, rfl, fun k hk => hk, rfl, by simp, fun h => h, by simp,
        by simp, by simp, by simp⟩
    by_cases hcross : bid.price < inc.price
    · rw [matchSellFuel_nocross (fuel + 1) b inc t bid hbb hcross]
      exact ⟨hwf, rfl, rfl, fun k hk => hk, rfl, by simp, fun h => h, by simp,
        by simp, by simp, by simp⟩
    -- One iteration executes.
    obtain ⟨hmax, hmemS, hsideS, level, hget, hhead⟩ := best_bid_spec b hwf bid hbb
    set traded := min inc.volume bid.volume with htraded
    set bid' : Order := { bid with volume := bid.volume - traded } with hbid'
    set inc' : Order := { inc with volume := inc.volume - traded } with hinc'
    set b' : ProductAwareOrderBook :=
      if bid'.volume ≤ 0 then (b.mutateOrder bid bid').remove_order bid'
      else b.mutateOrder bid bid' with hb'
    have heq := matchSellFuel_succ_eq fuel b inc t bid hvol hbb hcross
    have hmemlvl : bid ∈ level := List.mem_of_mem_head? hhead
    obtain ⟨hmwf, hmasks, hmprod, hmkeys, hmvol, hmcount, hmorders, hmget⟩ :=
      mutateOrder_bid_spec b hwf bid bid' level hget hmemlvl rfl rfl hsideS
    -- Summary facts about the book after this iteration.
    have hb'wf : BookWF b' ∧ b'.asks = b.asks ∧ b'.product = b.product ∧
        (∀ k ∈ b'.bids.map Prod.fst, k ∈ b.bids.map Prod.fst) ∧
        sideVolSum b'.bids = sideVolSum b.bids - traded ∧
        (∀ x ∈ sideOrders b'.bids, x ∈ sideOrders b.bids ∨ x = bid') := by
      by_cases hrem : bid'.volume ≤ 0
      · have hv0 : bid.volume ≤ traded := by
          have : bid.volume - traded ≤ 0 := hrem
          linarith
        have htv : traded = bid.volume := le_antisymm (min_le_right _ _) hv0
        have hmem' : bid' ∈ replaceFirstOrder level bid bid' :=
          replaceFirstOrder_self_mem level bid bid' hmemlvl
        obtain ⟨hrwf, hrasks, hrprod, hrkeys, hrvol, hrcount, hrorders⟩ :=
          removeOrder_bid_spec (b.mutateOrder bid bid') hmwf bid'
            (replaceFirstOrder level bid bid') hmget hmem' hsideS
        rw [hb', if_pos hrem]
        refine ⟨hrwf, hrasks.trans hmasks, hrprod.trans hmprod, ?_, ?_, ?_⟩
        · intro k hk
          have h1 := hrkeys k hk
          rw [hmkeys] at h1
          exact h1
        · rw [hrvol, hmvol]
          show sideVolSum b.bids - bid.volume + (bid.volume - traded) - (bid.volume - traded)
            = sideVolSum b.bids - traded
          rw [htv]
          ring
        · intro x hx
          exact hmorders x (hrorders x hx)
      · rw [hb', if_neg hrem]
        refine ⟨hmwf, hmasks, hmprod, fun k hk => by rw [hmkeys] at hk; exact hk, ?_,
          hmorders⟩
        rw [hmvol]
        show sideVolSum b.bids - bid.volume + (bid.volume - traded) = sideVolSum b.bids - traded
        ring
    obtain ⟨hb'wf1, hb'asks, hb'prod, hb'keys, hb'vol, hb'orders⟩ := hb'wf
    obtain ⟨iwf, iasksEq, iprod, ikeys, iinc, ivol, innneg, ibids, itrades, isurv, ipair⟩ :=
      ih b' inc' hb'wf1
    have hrwfin : ∀ k ∈ (matchSellFuel fuel b' inc' t).2.2.bids.map Prod.fst,
        k ∈ b.bids.map Prod.fst := fun k hk => hb'keys k (ikeys k hk)
    -- Trade prices of the recursive call are at most the current best bid price.
    have hlater : ∀ tr ∈ (matchSellFuel fuel b' inc' t).1, tr.price ≤ bid.price := by
      intro tr htr
      obtain ⟨ro, hro, hp, _⟩ := itrades tr htr
      have hkey : ro.price ∈ b'.bids.map Prod.fst := order_price_mem_bid_keys b' hb'wf1 ro hro
      have : ro.price ∈ b.bids.map Prod.fst := hb'keys ro.price hkey
      rw [hp]
      exact le_maxKey? b.bids bid.price hmax ro.price this
    have hsurvb : ∀ x ∈ sideOrders (matchSellFuel fuel b' inc' t).2.2.bids,
        x.price ≤ bid.price := by
      intro x hx
      have hkey : x.price ∈ (matchSellFuel fuel b' inc' t).2.2.bids.map Prod.fst :=
        order_price_mem_bid_keys _ iwf x hx
      exact le_maxKey? b.bids bid.price hmax x.price (hrwfin x.price hkey)
    rw [heq]
    refine ⟨iwf, iasksEq.trans hb'asks, iprod.trans hb'prod, hrwfin, ?_, ?_, ?_, ?_, ?_, ?_, ?_⟩
    · rw [iinc]
    · have h1 : inc'.volume = inc.volume - traded := rfl
      rw [List.map_cons, List.sum_cons, ← ivol, h1]
      show inc.volume - (matchSellFuel fuel b' inc' t).2.1.volume
        = traded + (inc.volume - traded - (matchSellFuel fuel b' inc' t).2.1.volume)
      ring
    · intro _
      have h0 : 0 ≤ inc'.volume := by
        show 0 ≤ inc.volume - traded
        have := min_le_left inc.volume bid.volume
        rw [← htraded] at this
        linarith
      exact innneg h0
    · rw [List.map_cons, List.sum_cons, ← ibids, hb'vol]
      ring
    · intro tr htr
      rcases List.mem_cons.mp htr with h1 | h1
      · subst h1
        exact ⟨bid, hmemS, rfl, rfl, rfl, rfl, rfl, rfl, rfl⟩
      · obtain ⟨ro, hro, hp, hid, hag, hsid, hsag, hpid, htime⟩ := itrades tr h1
        rcases hb'orders ro hro with h2 | h2
        · exact ⟨ro, h2, hp, hid, hag, hsid, hsag,
            hpid.trans (congrArg Product.product_id hb'prod), htime⟩
        · refine ⟨bid, hmemS, ?_, ?_, ?_, hsid, hsag,
            hpid.trans (congrArg Product.product_id hb'prod), htime⟩
          · rw [hp, h2]
          · rw [hid, h2]
          · rw [hag, h2]
    · intro tr htr x hx
      rcases List.mem_cons.mp htr with h1 | h1
      · subst h1
        exact hsurvb x hx
      · exact isurv tr h1 x hx
    · rw [List.pairwise_cons]
      exact ⟨hlater, ipair⟩

/-- With fuel exceeding the number of resting asks, the `_match_buy` loop
runs to completion: it stops only because the incoming volume is
exhausted, the ask side is empty, or the price no longer crosses. -/
theorem matchBuyFuel_stops (fuel : Nat) (b : ProductAwareOrderBook) (inc : Order)
    (t : Int) (hwf : BookWF b) (hfuel : sideCount b.asks + 1 ≤ fuel) :
    (matchBuyFuel fuel b inc t).2.1.volume ≤ 0 ∨
    (matchBuyFuel fuel b inc t).2.2.best_ask = none ∨
    (∃ a, (matchBuyFuel fuel b inc t).2.2.best_ask = some a ∧
      (matchBuyFuel fuel b inc t).2.1.price < a.price) := by
  induction fuel generalizing b inc with
  | zero => omega
  | succ fuel ih =>
    by_cases hvol : 0 < inc.volume
    case neg =>
      rw [matchBuyFuel_nonpos (fuel + 1) b inc t hvol]
      exact Or.inl (le_of_not_lt hvol)
    rcases hba : b.best_ask with _ | ask
    · rw [matchBuyFuel_noask (fuel + 1) b inc t hba]
      exact Or.inr (Or.inl hba)
    by_cases hcross : inc.price < ask.price
    · rw [matchBuyFuel_nocross (fuel + 1) b inc t ask hba hcross]
      exact Or.inr (Or.inr ⟨ask, hba, hcross⟩)
    obtain ⟨hmin, hmemS, hsideS, level, hget, hhead⟩ := best_ask_spec b hwf ask hba
    set traded := min inc.volume ask.volume with htraded
    set ask' : Order := { ask with volume := ask.volume - traded } with hask'
    set inc' : Order := { inc with volume := inc.volume - traded } with hinc'
    have heq := matchBuyFuel_succ_eq fuel b inc t ask hvol hba hcross
    have hmemlvl : ask ∈ level := List.mem_of_mem_head? hhead
    obtain ⟨hmwf, hmbids, hmprod, hmkeys, hmvol, hmcount, hmorders, hmget⟩ :=
      mutateOrder_ask_spec b hwf ask ask' level hget hmemlvl rfl rfl hsideS
    rw [heq]
    by_cases hrem : ask'.volume ≤ 0
    · rw [if_pos hrem]
      have hmem' : ask' ∈ replaceFirstOrder level ask ask' :=
        replaceFirstOrder_self_mem level ask ask' hmemlvl
      obtain ⟨hrwf, _, _, _, _, hrcount, _⟩ :=
        removeOrder_ask_spec (b.mutateOrder ask ask') hmwf ask'
          (replaceFirstOrder level ask ask') hmget hmem' hsideS
      have hfuel' : sideCount ((b.mutateOrder ask ask').remove_order ask').asks + 1 ≤ fuel := by
        omega
      exact ih ((b.mutateOrder ask ask').remove_order ask') inc' hrwf hfuel'
    · rw [if_neg hrem]
      have hiv : inc'.volume = 0 := by
        show inc.volume - traded = 0
        rcases le_total inc.volume ask.volume with h1 | h1
        · rw [htraded, min_eq_left h1]
          ring
        · exfalso
          apply hrem
          show ask.volume - traded ≤ 0
          rw [htraded, min_eq_right h1]
          ring_nf
          exact le_refl 0
      have : ¬ 0 < inc'.volume := by
        rw [hiv]
        exact lt_irrefl 0
      rw [matchBuyFuel_nonpos fuel (b.mutateOrder ask ask') inc' t this]
      exact Or.inl (le_of_eq hiv)

/-- Sell-side counterpart of `matchBuyFuel_stops`. -/
theorem matchSellFuel_stops (fuel : Nat) (b : ProductAwareOrderBook) (inc : Order)
    (t : Int) (hwf : BookWF b) (hfuel : sideCount b.bids + 1 ≤ fuel) :
    (matchSellFuel fuel b inc t).2.1.volume ≤ 0 ∨
    (matchSellFuel fuel b inc t).2.2.best_bid = none ∨
    (∃ a, (matchSellFuel fuel b inc t).2.2.best_bid = some a ∧
      a.price < (matchSellFuel fuel b inc t).2.1.price) := by
  induction fuel generalizing b inc with
  | zero => omega
  | succ fuel ih =>
    by_cases hvol : 0 < inc.volume
    case neg =>
      rw [matchSellFuel_nonpos (fuel + 1) b inc t hvol]
      exact Or.inl (le_of_not_lt hvol)
    rcases hbb : b.best_bid with _ | bid
    · rw [matchSellFuel_nobid (fuel + 1) b inc t hbb]
      exact Or.inr (Or.inl hbb)
    by_cases hcross : bid.price < inc.price
    · rw [matchSellFuel_nocross (fuel + 1) b inc t bid hbb hcross]
      exact Or.inr (Or.inr ⟨bid, hbb, hcross⟩)
    obtain ⟨hmax, hmemS, hsideS, level, hget, hhead⟩ := best_bid_spec b hwf bid hbb
    set traded := min inc.volume bid.volume with htraded
    set bid' : Order := { bid with volume := bid.volume - traded } with hbid'
    set inc' : Order := { inc with volume := inc.volume - traded } with hinc'
    have heq := matchSellFuel_succ_eq fuel b inc t bid hvol hbb hcross
    have hmemlvl : bid ∈ level := List.mem_of_mem_head? hhead
    obtain ⟨hmwf, hmasks, hmprod, hmkeys, hmvol, hmcount, hmorders, hmget⟩ :=
      mutateOrder_bid_spec b hwf bid bid' level hget hmemlvl rfl rfl hsideS
    rw [heq]
    by_cases hrem : bid'.volume ≤ 0
    · rw [if_pos hrem]
      have hmem' : bid' ∈ replaceFirstOrder level bid bid' :=
        replaceFirstOrder_self_mem level bid bid' hmemlvl
      obtain ⟨hrwf, _, _, _, _, hrcount, _⟩ :=
        removeOrder_bid_spec (b.mutateOrder bid bid') hmwf bid'
          (replaceFirstOrder level bid bid') hmget hmem' hsideS
      have hfuel' : sideCount ((b.mutateOrder bid bid').remove_order bid').bids + 1 ≤ fuel := by
        omega
      exact ih ((b.mutateOrder bid bid').remove_order bid') inc' hrwf hfuel'
    · rw [if_neg hrem]
      have hiv : inc'.volume = 0 := by
        show inc.volume - traded = 0
        rcases le_total inc.volume bid.volume with h1 | h1
        · rw [htraded, min_eq_left h1]
          ring
        · exfalso
          apply hrem
          show bid.volume - traded ≤ 0
          rw [htraded, min_eq_right h1]
          ring_nf
          exact le_refl 0
      have : ¬ 0 < inc'.volume := by
        rw [hiv]
        exact lt_irrefl 0
      rw [matchSellFuel_nonpos fuel (b.mutateOrder bid bid') inc' t this]
      exact Or.inl (le_of_eq hiv)

theorem minKey?_some_of_mem {β : Type} (d : List (ℚ × β)) (k : ℚ)
    (h : k ∈ d.map Prod.fst) : ∃ m, minKey? d = some m ∧ m ≤ k := by
  rcases hm : minKey? d with _ | m
  · rw [minKey?_eq_none_iff] at hm
    subst hm
    simp at h
  · exact ⟨m, rfl, minKey?_le d m hm k h⟩

theorem maxKey?_some_of_mem {β : Type} (d : List (ℚ × β)) (k : ℚ)
    (h : k ∈ d.map Prod.fst) : ∃ m, maxKey? d = some m ∧ k ≤ m := by
  rcases hm : maxKey? d with _ | m
  · rw [maxKey?_eq_none_iff] at hm
    subst hm
    simp at h
  · exact ⟨m, rfl, le_maxKey? d m hm k h⟩

theorem best_bid_congr (b b' : ProductAwareOrderBook) (h : b'.bids = b.bids) :
    b'.best_bid = b.best_bid := by
  unfold ProductAwareOrderBook.best_bid
  rw [h]

theorem best_ask_congr (b b' : ProductAwareOrderBook) (h : b'.asks = b.asks) :
    b'.best_ask = b.best_ask := by
  unfold ProductAwareOrderBook.best_ask
  rw [h]

/-- Matching an incoming buy never crosses the book: bids are untouched
and the ask side only loses price levels. -/
theorem matchBuyFuel_uncrossed (fuel : Nat) (b : ProductAwareOrderBook) (inc : Order)
    (t : Int) (hwf : BookWF b) (hunc : Uncrossed b) :
    Uncrossed (matchBuyFuel fuel b inc t).2.2 := by
  obtain ⟨iwf, ibids, _, ikeys, _⟩ := matchBuyFuel_spec fuel b inc t hwf
  intro pb pa hpb hpa
  have hbb : (matchBuyFuel fuel b inc t).2.2.best_bid = b.best_bid :=
    best_bid_congr b _ ibids
  have hpb' : b.best_bid_price = some pb := by
    unfold ProductAwareOrderBook.best_bid_price at hpb ⊢
    rw [hbb] at hpb
    exact hpb
  have hpa' : minKey? (matchBuyFuel fuel b inc t).2.2.asks = some pa := by
    rw [← best_ask_price_eq_minKey _ iwf]
    exact hpa
  have hpamem : pa ∈ (matchBuyFuel fuel b inc t).2.2.asks.map Prod.fst :=
    minKey?_mem _ pa hpa'
  obtain ⟨m, hm, hmle⟩ := minKey?_some_of_mem b.asks pa (ikeys pa hpamem)
  have : pb < m := hunc pb m hpb' (by rw [best_ask_price_eq_minKey b hwf, hm])
  linarith

/-- Matching an incoming sell never crosses the book. -/
theorem matchSellFuel_uncrossed (fuel : Nat) (b : ProductAwareOrderBook) (inc : Order)
    (t : Int) (hwf : BookWF b) (hunc : Uncrossed b) :
    Uncrossed (matchSellFuel fuel b inc t).2.2 := by
  obtain ⟨iwf, iasks, _, ikeys, _⟩ := matchSellFuel_spec fuel b inc t hwf
  intro pb pa hpb hpa
  have hba : (matchSellFuel fuel b inc t).2.2.best_ask = b.best_ask :=
    best_ask_congr b _ iasks
  have hpa' : b.best_ask_price = some pa := by
    unfold ProductAwareOrderBook.best_ask_price at hpa ⊢
    rw [hba] at hpa
    exact hpa
  have hpb' : maxKey? (matchSellFuel fuel b inc t).2.2.bids = some pb := by
    rw [← best_bid_price_eq_maxKey _ iwf]
    exact hpb
  have hpbmem : pb ∈ (matchSellFuel fuel b inc t).2.2.bids.map Prod.fst :=
    maxKey?_mem _ pb hpb'
  obtain ⟨m, hm, hmle⟩ := maxKey?_some_of_mem b.bids pb (ikeys pb hpbmem)
  have : m < pa := hunc m pa (by rw [best_bid_price_eq_maxKey b hwf, hm]) hpa'
  linarith

/-- Inserting a buy remainder whose price does not cross the remaining
ask side keeps the book uncrossed. -/
theorem addOrder_uncrossed_buy (b : ProductAwareOrderBook) (o : Order) (hwf : BookWF b)
    (hside : o.side = Side.BUY) (hunc : Uncrossed b)
    (hstop : b.best_ask = none ∨ ∃ a, b.best_ask = some a ∧ o.price < a.price) :
    Uncrossed { b with bids := dictAppendAt b.bids o.price o } := by
  have hwf2 : BookWF { b with bids := dictAppendAt b.bids o.price o } :=
    dictAppendAt_bookwf_bids b hwf o hside
  intro pb pa hpb hpa
  have hpa2 : minKey? b.asks = some pa := by
    rw [← best_ask_price_eq_minKey _ hwf2] at *
    exact hpa
  rcases hstop with h1 | ⟨a, ha, hap⟩
  · rw [(best_ask_none_iff b hwf).mp h1] at hpa2
    simp [minKey?] at hpa2
  · have hpaa : pa ≤ a.price := by
      obtain ⟨hminp, _⟩ := best_ask_spec b hwf a ha
      rw [hminp] at hpa2
      exact le_of_eq (Option.some.inj hpa2).symm
    have hpb2 : maxKey? (dictAppendAt b.bids o.price o) = some pb := by
      rw [← best_bid_price_eq_maxKey _ hwf2] at *
      exact hpb
    have hpbmem : pb ∈ (dictAppendAt b.bids o.price o).map Prod.fst :=
      maxKey?_mem _ pb hpb2
    rcases keys_dictSet_subset b.bids o.price _ pb hpbmem with h2 | h2
    · obtain ⟨m, hm, hmle⟩ := maxKey?_some_of_mem b.bids pb h2
      have hma : m < a.price := hunc m a.price
        (by rw [best_bid_price_eq_maxKey b hwf, hm])
        (by unfold ProductAwareOrderBook.best_ask_price; rw [ha]; rfl)
      have : pa ≤ a.price := hpaa
      have h3 : pb ≤ m := hmle
      -- pa equals the best ask price, which is at most a.price, and in fact
      -- pa is the minimum ask key while a.price is an ask key, so pa ≤ a.price;
      -- conversely the uncrossedness bound runs through a.price.
      have hpaeq : pa = a.price := by
        obtain ⟨hminp, _⟩ := best_ask_spec b hwf a ha
        rw [hminp] at hpa2
        exact (Option.some.inj hpa2).symm
      rw [hpaeq]
      linarith
    · subst h2
      have hpaeq : pa = a.price := by
        obtain ⟨hminp, _⟩ := best_ask_spec b hwf a ha
        rw [hminp] at hpa2
        exact (Option.some.inj hpa2).symm
      rw [hpaeq]
      exact hap

/-- Inserting a sell remainder whose price does not cross the remaining
bid side keeps the book uncrossed. -/
theorem addOrder_uncrossed_sell (b : ProductAwareOrderBook) (o : Order) (hwf : BookWF b)
    (hside : o.side = Side.SELL) (hunc : Uncrossed b)
    (hstop : b.best_bid = none ∨ ∃ a, b.best_bid = some a ∧ a.price < o.price) :
    Uncrossed { b with asks := dictAppendAt b.asks o.price o } := by
  have hwf2 : BookWF { b with asks := dictAppendAt b.asks o.price o } :=
    dictAppendAt_bookwf_asks b hwf o hside
  intro pb pa hpb hpa
  have hpb2 : maxKey? b.bids = some pb := by
    rw [← best_bid_price_eq_maxKey _ hwf2] at *
    exact hpb
  rcases hstop with h1 | ⟨a, ha, hap⟩
  · rw [(best_bid_none_iff b hwf).mp h1] at hpb2
    simp [maxKey?] at hpb2
  · have hpbeq : pb = a.price := by
      obtain ⟨hmaxp, _⟩ := best_bid_spec b hwf a ha
      rw [hmaxp] at hpb2
      exact (Option.some.inj hpb2).symm
    have hpa2 : minKey? (dictAppendAt b.asks o.price o) = some pa := by
      rw [← best_ask_price_eq_minKey _ hwf2] at *
      exact hpa
    have hpamem : pa ∈ (dictAppendAt b.asks o.price o).map Prod.fst :=
      minKey?_mem _ pa hpa2
    rcases keys_dictSet_subset b.asks o.price _ pa hpamem with h2 | h2
    · obtain ⟨m, hm, hmle⟩ := minKey?_some_of_mem b.asks pa h2
      have hma : a.price < m := hunc a.price m
        (by unfold ProductAwareOrderBook.best_bid_price; rw [ha]; rfl)
        (by rw [best_ask_price_eq_minKey b hwf, hm])
      rw [hpbeq]
      linarith
    · subst h2
      rw [hpbeq]
      exact hap

theorem match_order_buy_eq (b : ProductAwareOrderBook) (inc : Order) (t : Int)
    (hside : inc.side = Side.BUY) :
    b.match_order inc t = matchBuyFuel (sideCount b.asks + 1) b inc t := by
  unfold ProductAwareOrderBook.match_order
  rw [hside]

theorem match_order_sell_eq (b : ProductAwareOrderBook) (inc : Order) (t : Int)
    (hside : inc.side = Side.SELL) :
    b.match_order inc t = matchSellFuel (sideCount b.bids + 1) b inc t := by
  unfold ProductAwareOrderBook.match_order
  rw [hside]

/-- The matched remainder keeps every field of the incoming order except
its volume, and the matched book keeps its product; well-formedness is
preserved. -/
theorem match_order_basic (b : ProductAwareOrderBook) (inc : Order) (t : Int)
    (hwf : BookWF b) :
    BookWF (b.match_order inc t).2.2 ∧
    (b.match_order inc t).2.2.product = b.product ∧
    (b.match_order inc t).2.1
      = { inc with volume := (b.match_order inc t).2.1.volume } := by
  cases hs : inc.side
  · rw [match_order_buy_eq b inc t hs, ← hs]
    obtain ⟨h1, _, h3, _, h5, _⟩ := matchBuyFuel_spec (sideCount b.asks + 1) b inc t hwf
    exact ⟨h1, h3, h5⟩
  · rw [match_order_sell_eq b inc t hs, ← hs]
    obtain ⟨h1, _, h3, _, h5, _⟩ := matchSellFuel_spec (sideCount b.bids + 1) b inc t hwf
    exact ⟨h1, h3, h5⟩

theorem process_order_none_eq (mo : MultiProductMarketOperator) (o : Order) (t : Int)
    (vt : Bool) (h : dictGet mo.order_books o.product_id = none) :
    mo.process_order o t vt = (.error "Product not found in market operator", mo) := by
  unfold MultiProductMarketOperator.process_order
  rw [h]

theorem process_order_closed_eq (mo : MultiProductMarketOperator) (o : Order) (t : Int)
    (ob : ProductAwareOrderBook) (h : dictGet mo.order_books o.product_id = some ob)
    (hno : ¬ ob.is_open t) :
    mo.process_order o t true = (.error "Cannot place order: product not open", mo) := by
  unfold MultiProductMarketOperator.process_order
  rw [h]
  simp [hno]

theorem process_order_main_eq (mo : MultiProductMarketOperator) (o : Order) (t : Int)
    (vt : Bool) (ob : ProductAwareOrderBook)
    (h : dictGet mo.order_books o.product_id = some ob)
    (hok : ¬ (vt = true ∧ ¬ ob.is_open t)) :
    mo.process_order o t vt =
      (if 0 < (ob.match_order { o with id := mo.next_order_id, timestamp := t } t).2.1.volume ∧
          (ob.match_order { o with id := mo.next_order_id, timestamp := t } t).2.1.time_in_force
            = some TimeInForce.GTC then
        match (ob.match_order { o with id := mo.next_order_id, timestamp := t } t).2.2.add_order
            (ob.match_order { o with id := mo.next_order_id, timestamp := t } t).2.1 with
        | .ok ob2 =>
          (.ok (ob.match_order { o with id := mo.next_order_id, timestamp := t } t).1,
           { mo with
             next_order_id := mo.next_order_id + 1
             order_books := dictSet mo.order_books o.product_id ob2 })
        | .error e =>
          (.error e,
           { mo with
             next_order_id := mo.next_order_id + 1
             order_books := dictSet mo.order_books o.product_id
               (ob.match_order { o with id := mo.next_order_id, timestamp := t } t).2.2 })
      else
        (.ok (ob.match_order { o with id := mo.next_order_id, timestamp := t } t).1,
         { mo with
           next_order_id := mo.next_order_id + 1
           order_books := dictSet mo.order_books o.product_id
             (ob.match_order { o with id := mo.next_order_id, timestamp := t } t).2.2 })) := by
  unfold MultiProductMarketOperator.process_order
  rw [h]
  simp only [if_neg hok]

/-!
Effect of `update_product_status` on catalog entries, books, and the
closed-products list.
-/

theorem dictGet_map_value {κ β : Type} [DecidableEq κ] (l : List (κ × β)) (f : β → β)
    (k : κ) : dictGet (l.map fun e => (e.1, f e.2)) k = (dictGet l k).map f := by
  induction l with
  | nil => simp [dictGet]
  | cons e rest ih =>
    obtain ⟨k0, v0⟩ := e
    by_cases h0 : k0 = k
    · simp [dictGet, h0]
    · simp [dictGet, h0, ih]

theorem ups_products_get (mo : MultiProductMarketOperator) (t : Int) (pid : Int) :
    dictGet (mo.update_product_status t).1.products pid
      = (dictGet mo.products pid).map (fun p => applyStepStatus p t) := by
  unfold MultiProductMarketOperator.update_product_status
  exact dictGet_map_value mo.products (fun p => applyStepStatus p t) pid

theorem ups_products_keys (mo : MultiProductMarketOperator) (t : Int) :
    ((mo.update_product_status t).1.products).map Prod.fst = mo.products.map Prod.fst := by
  unfold MultiProductMarketOperator.update_product_status
  simp

theorem ups_closed_mem (mo : MultiProductMarketOperator) (t : Int) (pid : Int)
    (p : Product) (hnd : (mo.products.map Prod.fst).Nodup)
    (hget : dictGet mo.products pid = some p) :
    pid ∈ (mo.update_product_status t).2
      ↔ (p.status = ProductStatus.OPEN ∧ t ≥ p.gate_close) := by
  unfold MultiProductMarketOperator.update_product_status
  simp only [List.mem_filterMap]
  constructor
  · rintro ⟨e, he, hfe⟩
    by_cases hc : e.2.status = ProductStatus.OPEN ∧ t ≥ e.2.gate_close
    · rw [if_pos hc] at hfe
      have hk : e.1 = pid := Option.some.inj hfe
      have : dictGet mo.products pid = some e.2 := by
        rw [← hk]
        exact dictGet_of_mem_nodup mo.products e.1 e.2 hnd (by
          rcases e with ⟨k, v⟩
          exact he)
      rw [hget] at this
      rw [Option.some.inj this]
      exact hc
    · rw [if_neg hc] at hfe
      simp at hfe
  · intro hc
    refine ⟨(pid, p), dictGet_mem mo.products pid p hget, ?_⟩
    rw [if_pos hc]

theorem upsBookStep_at_other (t : Int) (books : List (Int × ProductAwareOrderBook))
    (e : Int × Product) (pid : Int) (h : e.1 ≠ pid) :
    dictGet (upsBookStep t books e) pid = dictGet books pid := by
  unfold upsBookStep
  rcases stepStatus e.2 t with _ | s
  · rfl
  · simp only
    by_cases hcl : s = ProductStatus.CLOSED
    · rw [if_pos hcl]
      rcases hg : dictGet books e.1 with _ | ob
      · simp only
        rcases hg2 : dictGet books e.1 with _ | ob2
        · rfl
        · rw [hg] at hg2
          simp at hg2
      · simp only
        rcases hg2 : dictGet (dictSet books e.1 (ob.clear_all_orders).2) e.1 with _ | ob2
        · rw [dictGet_set_ne books e.1 pid _ (fun hx => h hx.symm)]
        · rw [dictGet_set_ne _ e.1 pid _ (fun hx => h hx.symm),
            dictGet_set_ne books e.1 pid _ (fun hx => h hx.symm)]
    · rw [if_neg hcl]
      rcases hg : dictGet books e.1 with _ | ob
      · rfl
      · exact dictGet_set_ne books e.1 pid _ (fun hx => h hx.symm)

theorem fold_upsBookStep_other (t : Int) (l : List (Int × Product))
    (books : List (Int × ProductAwareOrderBook)) (pid : Int)
    (h : ∀ e ∈ l, e.1 ≠ pid) :
    dictGet (l.foldl (upsBookStep t) books) pid = dictGet books pid := by
  induction l generalizing books with
  | nil => rfl
  | cons e rest ih =>
    rw [List.foldl_cons]
    rw [ih (upsBookStep t books e) (fun x hx => h x (List.mem_cons_of_mem e hx))]
    exact upsBookStep_at_other t books e pid (h e (List.mem_cons_self e rest))

theorem upsBookStep_at_self (t : Int) (books : List (Int × ProductAwareOrderBook))
    (pid : Int) (p : Product) :
    dictGet (upsBookStep t books (pid, p)) pid
      = match stepStatus p t with
        | none => dictGet books pid
        | some s =>
          match dictGet books pid with
          | none => none
          | some ob => some { (if s = ProductStatus.CLOSED then (ob.clear_all_orders).2 else ob)
              with product := p.update_status s } := by
  rcases hs : stepStatus p t with _ | s
  · simp [upsBookStep, hs]
  · by_cases hcl : s = ProductStatus.CLOSED
    · rcases hg : dictGet books pid with _ | ob
      · simp [upsBookStep, hs, hcl, hg]
      · simp [upsBookStep, hs, hcl, hg, dictGet_set_self]
    · rcases hg : dictGet books pid with _ | ob
      · simp [upsBookStep, hs, hcl, hg]
      · simp [upsBookStep, hs, hcl, hg, dictGet_set_self]

theorem fold_upsBookStep_get (t : Int) (l : List (Int × Product))
    (books : List (Int × ProductAwareOrderBook)) (pid : Int) (p : Product)
    (hnd : (l.map Prod.fst).Nodup) (hget : dictGet l pid = some p) :
    dictGet (l.foldl (upsBookStep t) books) pid
      = match stepStatus p t with
        | none => dictGet books pid
        | some s =>
          match dictGet books pid with
          | none => none
          | some ob => some { (if s = ProductStatus.CLOSED then (ob.clear_all_orders).2 else ob)
              with product := p.update_status s } := by
  induction l generalizing books with
  | nil => simp [dictGet] at hget
  | cons e rest ih =>
    obtain ⟨k0, p0⟩ := e
    rw [List.map_cons, List.nodup_cons] at hnd
    by_cases h0 : k0 = pid
    · subst h0
      have hp : p0 = p := by simpa [dictGet] using hget
      subst hp
      rw [List.foldl_cons]
      have hnone : ∀ e2 ∈ rest, e2.1 ≠ k0 := by
        intro e2 he2 hc
        exact hnd.1 (hc ▸ List.mem_map.mpr ⟨e2, he2, rfl⟩)
      rw [fold_upsBookStep_other t rest (upsBookStep t books (k0, p0)) k0 hnone]
      exact upsBookStep_at_self t books k0 p0
    · have hget2 : dictGet rest pid = some p := by
        simpa [dictGet, h0] using hget
      rw [List.foldl_cons]
      rw [ih (upsBookStep t books (k0, p0)) hnd.2 hget2]
      rw [upsBookStep_at_other t books (k0, p0) pid h0]

theorem ups_books_get (mo : MultiProductMarketOperator) (t : Int) (pid : Int) (p : Product)
    (hnd : (mo.products.map Prod.fst).Nodup) (hget : dictGet mo.products pid = some p) :
    dictGet (mo.update_product_status t).1.order_books pid
      = match stepStatus p t with
        | none => dictGet mo.order_books pid
        | some s =>
          match dictGet mo.order_books pid with
          | none => none
          | some ob => some { (if s = ProductStatus.CLOSED then (ob.clear_all_orders).2 else ob)
              with product := p.update_status s } := by
  unfold MultiProductMarketOperator.update_product_status
  exact fold_upsBookStep_get t mo.products mo.order_books pid p hnd hget

theorem stepStatus_chain (p : Product) (t : Int) :
    stepStatus p t = none ∨ ∃ s, stepStatus p t = some s ∧ ChainStep p.status s := by
  unfold stepStatus
  split_ifs with h1 h2 h3
  · exact Or.inr ⟨ProductStatus.OPEN, rfl, Or.inl ⟨h1.1, rfl⟩⟩
  · exact Or.inr ⟨ProductStatus.CLOSED, rfl, Or.inr (Or.inl ⟨h2.1, rfl⟩)⟩
  · exact Or.inr ⟨ProductStatus.SETTLED, rfl, Or.inr (Or.inr ⟨h3.1, rfl⟩)⟩
  · exact Or.inl rfl

theorem applyStepStatus_timing (p : Product) (t : Int) :
    (applyStepStatus p t).gate_open = p.gate_open ∧
    (applyStepStatus p t).gate_close = p.gate_close ∧
    (applyStepStatus p t).delivery_end = p.delivery_end ∧
    (applyStepStatus p t).product_id = p.product_id := by
  unfold applyStepStatus
  rcases stepStatus p t with _ | s
  · exact ⟨rfl, rfl, rfl, rfl⟩
  · exact ⟨rfl, rfl, rfl, rfl⟩

theorem applyStepStatus_chain (p : Product) (t : Int) :
    applyStepStatus p t = p ∨
      ∃ s, ChainStep p.status s ∧ applyStepStatus p t = p.update_status s := by
  rcases stepStatus_chain p t with h | ⟨s, hs, hc⟩
  · left
    unfold applyStepStatus
    rw [h]
  · right
    refine ⟨s, hc, ?_⟩
    unfold applyStepStatus
    rw [hs]

theorem ChainStep_rank (a b : ProductStatus) (h : ChainStep a b) :
    statusRank a + 1 = statusRank b := by
  rcases h with ⟨h1, h2⟩ | ⟨h1, h2⟩ | ⟨h1, h2⟩ <;> subst h1 <;> subst h2 <;> rfl

theorem stepStatus_open_close (p : Product) (t : Int)
    (hs : p.status = ProductStatus.OPEN) (ht : t ≥ p.gate_close) :
    stepStatus p t = some ProductStatus.CLOSED := by
  unfold stepStatus
  rw [if_neg (by rw [hs]; rintro ⟨h, _⟩; cases h)]
  rw [if_pos ⟨hs, ht⟩]

theorem stepStatus_pending_open (p : Product) (t : Int)
    (hs : p.status = ProductStatus.PENDING) (ht : t ≥ p.gate_open) :
    stepStatus p t = some ProductStatus.OPEN := by
  unfold stepStatus
  rw [if_pos ⟨hs, ht⟩]

/-- C5. A single `update_product_status` call advances each product's
status only forward along the PENDING→OPEN→CLOSED→SETTLED chain (hence
across any sequence of calls the status never regresses), and at the
OPEN→CLOSED transition the product is reported closed and its book is
purged to zero orders. -/
theorem lifecycle_monotone_purge (mo : MultiProductMarketOperator) (t : Int)
    (pid : Int) (p : Product) (hnd : (mo.products.map Prod.fst).Nodup)
    (hget : dictGet mo.products pid = some p)
    (hbook : ∃ ob, dictGet mo.order_books pid = some ob) :
    (∃ p', dictGet (mo.update_product_status t).1.products pid = some p' ∧
      (p' = p ∨ ChainStep p.status p'.status) ∧
      statusRank p.status ≤ statusRank p'.status) ∧
    (p.status = ProductStatus.OPEN → t ≥ p.gate_close →
      pid ∈ (mo.update_product_status t).2 ∧
      (∃ p', dictGet (mo.update_product_status t).1.products pid = some p' ∧
        p'.status = ProductStatus.CLOSED) ∧
      (∃ ob', dictGet (mo.update_product_status t).1.order_books pid = some ob' ∧
        ob'.size = 0)) := by
  have hget' : dictGet (mo.update_product_status t).1.products pid
      = some (applyStepStatus p t) := by
    rw [ups_products_get, hget]
    rfl
  constructor
  · refine ⟨applyStepStatus p t, hget', ?_, ?_⟩
    · rcases applyStepStatus_chain p t with h | ⟨s, hc, hs⟩
      · exact Or.inl h
      · right
        rw [hs]
        exact hc
    · rcases applyStepStatus_chain p t with h | ⟨s, hc, hs⟩
      · rw [h]
      · rw [hs]
        have := ChainStep_rank p.status s hc
        show statusRank p.status ≤ statusRank s
        omega
  · intro hopen ht
    have hstep : stepStatus p t = some ProductStatus.CLOSED :=
      stepStatus_open_close p t hopen ht
    refine ⟨?_, ?_, ?_⟩
    · exact (ups_closed_mem mo t pid p hnd hget).mpr ⟨hopen, ht⟩
    · refine ⟨applyStepStatus p t, hget', ?_⟩
      unfold applyStepStatus
      rw [hstep]
      rfl
    · obtain ⟨ob, hob⟩ := hbook
      have := ups_books_get mo t pid p hnd hget
      rw [hstep] at this
      simp only at this
      rw [hob] at this
      refine ⟨_, this, ?_⟩
      simp [ProductAwareOrderBook.size, ProductAwareOrderBook.clear_all_orders, sideCount]

/-- Closed witness for `lifecycle_monotone_purge`: a call at tick 2000 on
an operator whose product is OPEN with gate-close 1380 closes the product
and purges its two resting orders. -/
theorem lifecycle_monotone_purge_witness :
    ((purgeOperator.products.map Prod.fst).Nodup ∧
      dictGet purgeOperator.products 0 = some sampleOpenProduct ∧
      sampleOpenProduct.status = ProductStatus.OPEN ∧ (2000 : Int) ≥ sampleOpenProduct.gate_close) ∧
    (0 ∈ (purgeOperator.update_product_status 2000).2 ∧
      (∃ ob', dictGet (purgeOperator.update_product_status 2000).1.order_books 0 = some ob' ∧
        ob'.size = 0)) := by
  have h := lifecycle_monotone_purge purgeOperator 2000 0 sampleOpenProduct
    (by decide) (by decide)
    ⟨{ product := sampleOpenProduct, bids := [(50, [fifoBidA])], asks := [(60, [sampleAsk])] },
      by decide⟩
  obtain ⟨_, h2⟩ := h
  obtain ⟨hc, _, hb⟩ := h2 (by decide) (by decide)
  exact ⟨⟨by decide, by decide, by decide, by decide⟩, hc, hb⟩

/-- C10. A single `update_product_status` call advances a product by at
most one lifecycle stage; in particular a PENDING product whose gate-close
has already passed only becomes OPEN in that call and is not reported in
the closed list. -/
theorem single_transition_per_tick (mo : MultiProductMarketOperator) (t : Int)
    (pid : Int) (p : Product) (hnd : (mo.products.map Prod.fst).Nodup)
    (hget : dictGet mo.products pid = some p) :
    (∃ p', dictGet (mo.update_product_status t).1.products pid = some p' ∧
      statusRank p'.status ≤ statusRank p.status + 1) ∧
    (p.status = ProductStatus.PENDING → t ≥ p.gate_open → t ≥ p.gate_close →
      (∃ p', dictGet (mo.update_product_status t).1.products pid = some p' ∧
        p'.status = ProductStatus.OPEN) ∧
      pid ∉ (mo.update_product_status t).2) := by
  have hget' : dictGet (mo.update_product_status t).1.products pid
      = some (applyStepStatus p t) := by
    rw [ups_products_get, hget]
    rfl
  constructor
  · refine ⟨applyStepStatus p t, hget', ?_⟩
    rcases applyStepStatus_chain p t with h | ⟨s, hc, hs⟩
    · rw [h]
      omega
    · rw [hs]
      have := ChainStep_rank p.status s hc
      show statusRank s ≤ statusRank p.status + 1
      omega
  · intro hpend hgo hgc
    constructor
    · refine ⟨applyStepStatus p t, hget', ?_⟩
      unfold applyStepStatus
      rw [stepStatus_pending_open p t hpend hgo]
      rfl
    · intro hc
      have := (ups_closed_mem mo t pid p hnd hget).mp hc
      rw [hpend] at this
      cases this.1

/-- Closed witness for `single_transition_per_tick`: the PENDING product
of `earlyCloseProduct` at tick 5 (past both gate-open 0 and gate-close 2)
becomes OPEN, not CLOSED, and is not reported closed. -/
theorem single_transition_per_tick_witness :
    (((MultiProductMarketOperator.from_products [earlyCloseProduct]).products.map Prod.fst).Nodup ∧
      dictGet (MultiProductMarketOperator.from_products [earlyCloseProduct]).products 0
        = some earlyCloseProduct ∧
      earlyCloseProduct.status = ProductStatus.PENDING ∧
      (5 : Int) ≥ earlyCloseProduct.gate_open ∧ (5 : Int) ≥ earlyCloseProduct.gate_close) ∧
    ((∃ p', dictGet ((MultiProductMarketOperator.from_products
        [earlyCloseProduct]).update_product_status 5).1.products 0 = some p' ∧
        p'.status = ProductStatus.OPEN) ∧
      0 ∉ ((MultiProductMarketOperator.from_products [earlyCloseProduct]).update_product_status 5).2) := by
  have h := single_transition_per_tick (MultiProductMarketOperator.from_products
    [earlyCloseProduct]) 5 0 earlyCloseProduct (by decide) (by decide)
  obtain ⟨_, h2⟩ := h
  exact ⟨⟨by decide, by decide, by decide, by decide, by decide⟩,
    h2 (by decide) (by decide) (by decide)⟩

/-- Counterexample to C7 as stated: for `lowPriceProduct` (day-ahead price
5 €/MWh, below the default 10 €/MWh offset) the downward imbalance price
produced by `get_imbalance_prices` is clamped to 0, so an imbalance of
−1 MW incurs zero cost although the imbalance is not zero. -/
theorem imbalance_cost_zero_counterexample :
    (get_imbalance_prices lowPriceProduct).2 = 0 ∧
    calculate_imbalance_cost (-1) (get_imbalance_prices lowPriceProduct).1
      (get_imbalance_prices lowPriceProduct).2 = 0 ∧
    (-1 : ℚ) ≠ 0 := by
  have hp : get_imbalance_prices lowPriceProduct = (15, 0) := by
    unfold get_imbalance_prices lowPriceProduct earlyCloseProduct
    norm_num
  refine ⟨by rw [hp], ?_, by norm_num⟩
  rw [hp]
  norm_num [calculate_imbalance_cost]

/-- C7 (amended). The piecewise cost formula holds for every price pair
produced by `get_imbalance_prices`; the downward price is always
nonnegative (it is clamped at 0); the cost is nonnegative whenever the
upward price is nonnegative; and the cost vanishes exactly on zero
imbalance provided both prices are strictly positive (which fails when
the day-ahead price does not exceed the offset). -/
theorem imbalance_cost_spec (product : Product) (base_offset u_up u_down x : ℚ)
    (use_stochastic : Bool) (lu ld : ℚ)
    (hl : get_imbalance_prices product base_offset use_stochastic u_up u_down = (lu, ld)) :
    (0 < x → calculate_imbalance_cost x lu ld = x * lu) ∧
    (x < 0 → calculate_imbalance_cost x lu ld = |x| * ld) ∧
    (x = 0 → calculate_imbalance_cost x lu ld = 0) ∧
    0 ≤ ld ∧
    (0 ≤ lu → 0 ≤ calculate_imbalance_cost x lu ld) ∧
    (0 < lu → 0 < ld → (calculate_imbalance_cost x lu ld = 0 ↔ x = 0)) := by
  have hld : 0 ≤ ld := by
    have : ld = max 0 (product.da_price -
        (if use_stochastic then base_offset + u_down else base_offset)) := by
      unfold get_imbalance_prices at hl
      exact (congrArg Prod.snd hl).symm
    rw [this]
    exact le_max_left _ _
  refine ⟨?_, ?_, ?_, hld, ?_, ?_⟩
  · intro hx
    unfold calculate_imbalance_cost
    rw [if_pos hx]
  · intro hx
    unfold calculate_imbalance_cost
    rw [if_neg (by linarith), if_pos hx]
  · intro hx
    unfold calculate_imbalance_cost
    rw [if_neg (by linarith), if_neg (by linarith)]
  · intro hlu
    unfold calculate_imbalance_cost
    split_ifs with h1 h2
    · exact mul_nonneg (le_of_lt h1) hlu
    · exact mul_nonneg (abs_nonneg x) hld
    · exact le_refl 0
  · intro hlu hld2
    constructor
    · intro hc
      unfold calculate_imbalance_cost at hc
      split_ifs at hc with h1 h2
      · exact absurd hc (ne_of_gt (mul_pos h1 hlu))
      · exact absurd hc (ne_of_gt (mul_pos (abs_pos.mpr (ne_of_lt h2)) hld2))
      · linarith
    · intro hx
      unfold calculate_imbalance_cost
      rw [if_neg (by linarith), if_neg (by linarith)]

/-- Closed witness for `imbalance_cost_spec` at the default offsets on
`sampleOpenProduct` (day-ahead price 50): prices (60, 40), a +3 MW
imbalance costs 3 × 60, and zero cost occurs exactly at zero imbalance. -/
theorem imbalance_cost_spec_witness :
    calculate_imbalance_cost 3 60 40 = 3 * 60 ∧
    (calculate_imbalance_cost 3 60 40 = 0 ↔ (3 : ℚ) = 0) := by
  have h := imbalance_cost_spec sampleOpenProduct 10 0 0 3 false 60 40
    (by unfold get_imbalance_prices sampleOpenProduct; norm_num)
  exact ⟨h.1 (by norm_num), (h.2.2.2.2.2 (by norm_num) (by norm_num))⟩

/-!
Behaviour of `add_order` on a product-id match, and validation routing of
`process_order` (claims C8, C9).
-/

theorem add_order_ok (b : ProductAwareOrderBook) (o : Order)
    (h : o.product_id = b.product.product_id) :
    b.add_order o = .ok (match o.side with
      | Side.BUY => { b with bids := dictAppendAt b.bids o.price o }
      | Side.SELL => { b with asks := dictAppendAt b.asks o.price o }) := by
  unfold ProductAwareOrderBook.add_order
  rw [if_neg (not_not_intro h), if_neg (by rintro ⟨hb, -⟩; exact Bool.noConfusion hb),
    if_neg (by rintro ⟨hb, -⟩; exact Bool.noConfusion hb)]

theorem add_order_ok_inv (b : ProductAwareOrderBook) (o : Order) (vt : Bool)
    (t : Option Int) (b2 : ProductAwareOrderBook) (h : b.add_order o vt t = .ok b2) :
    b2 = (match o.side with
      | Side.BUY => { b with bids := dictAppendAt b.bids o.price o }
      | Side.SELL => { b with asks := dictAppendAt b.asks o.price o }) := by
  unfold ProductAwareOrderBook.add_order at h
  split_ifs at h
  exact (Except.ok.inj h).symm

theorem match_order_nonpos (b : ProductAwareOrderBook) (inc : Order) (t : Int)
    (h : ¬ 0 < inc.volume) : b.match_order inc t = ([], inc, b) := by
  cases hs : inc.side
  · rw [match_order_buy_eq b inc t hs]
    exact matchBuyFuel_nonpos _ b inc t h
  · rw [match_order_sell_eq b inc t hs]
    exact matchSellFuel_nonpos _ b inc t h

theorem emptyBook_wf : BookWF { product := sampleOpenProduct, bids := [], asks := [] } :=
  ⟨by decide, by decide, by decide, by decide⟩

theorem emptyBook_unc : Uncrossed { product := sampleOpenProduct, bids := [], asks := [] } := by
  intro pb pa hpb hpa
  exact Option.noConfusion (hpb : (none : Option ℚ) = some pb)

/-- C8. With time validation enabled, `process_order` fails with a named
error when the order's product id is missing from the catalog, or when the
product is not OPEN within its trading window at `t`; every failing case
returns the operator unchanged (no trades, no book change, no id-counter
change), and whenever the product exists, is OPEN and `t` is in-window, no
error is raised. The operator is assumed book-consistent: each routed book
carries the product of its key and is well-formed. -/
theorem process_order_validation (mo : MultiProductMarketOperator) (o : Order) (t : Int)
    (hcons : ∀ ob, dictGet mo.order_books o.product_id = some ob →
      ob.product.product_id = o.product_id ∧ BookWF ob) :
    (dictGet mo.order_books o.product_id = none →
      mo.process_order o t true = (.error "Product not found in market operator", mo)) ∧
    (∀ ob, dictGet mo.order_books o.product_id = some ob → ¬ ob.is_open t →
      mo.process_order o t true = (.error "Cannot place order: product not open", mo)) ∧
    (¬ CanTrade mo o t → ∃ e, mo.process_order o t true = (.error e, mo)) ∧
    (CanTrade mo o t → ∃ trades, (mo.process_order o t true).1 = .ok trades) := by
  refine ⟨fun h => process_order_none_eq mo o t true h,
    fun ob hget hno => process_order_closed_eq mo o t ob hget hno, ?_, ?_⟩
  · intro hnc
    rcases hg : dictGet mo.order_books o.product_id with _ | ob
    · exact ⟨_, process_order_none_eq mo o t true hg⟩
    · exact ⟨_, process_order_closed_eq mo o t ob hg (fun hop => hnc ⟨ob, hg, hop⟩)⟩
  · rintro ⟨ob, hget, hop⟩
    obtain ⟨hpid, hwf⟩ := hcons ob hget
    have hok : ¬ (true = true ∧ ¬ ob.is_open t) := by
      rintro ⟨-, hno⟩
      exact hno hop
    rw [process_order_main_eq mo o t true ob hget hok]
    by_cases hins : 0 < (ob.match_order { o with id := mo.next_order_id, timestamp := t } t).2.1.volume ∧
        (ob.match_order { o with id := mo.next_order_id, timestamp := t } t).2.1.time_in_force
          = some TimeInForce.GTC
    · rw [if_pos hins]
      obtain ⟨-, hprod, hrem⟩ :=
        match_order_basic ob { o with id := mo.next_order_id, timestamp := t } t hwf
      have hpid2 : (ob.match_order { o with id := mo.next_order_id, timestamp := t } t).2.1.product_id
          = (ob.match_order { o with id := mo.next_order_id, timestamp := t } t).2.2.product.product_id := by
        rw [hprod, hpid, hrem]
      rw [add_order_ok _ _ hpid2]
      exact ⟨_, rfl⟩
    · rw [if_neg hins]
      exact ⟨_, rfl⟩

/-- Closed witness for `process_order_validation`: an in-window buy order
on the open product of `emptyBookOperator` is accepted without error. -/
theorem process_order_validation_witness :
    ∃ trades, (emptyBookOperator.process_order sampleBuy 100 true).1 = .ok trades := by
  have hcons : ∀ ob, dictGet emptyBookOperator.order_books sampleBuy.product_id = some ob →
      ob.product.product_id = sampleBuy.product_id ∧ BookWF ob := by
    intro ob hob
    have he : dictGet emptyBookOperator.order_books sampleBuy.product_id
        = some { product := sampleOpenProduct, bids := [], asks := [] } := by decide
    rw [he] at hob
    obtain rfl := Option.some.inj hob
    exact ⟨by decide, emptyBook_wf⟩
  exact (process_order_validation emptyBookOperator sampleBuy 100 hcons).2.2.2
    ⟨{ product := sampleOpenProduct, bids := [], asks := [] }, by decide, by decide⟩

/-- Counterexample to C9 as stated: a buy order with a negative limit
price on an open, in-window product is not rejected — `process_order`
returns no error and the order is inserted into the book at its negative
price level. -/
theorem invalid_order_accepted_counterexample :
    negPriceOrder.price < 0 ∧ 0 < negPriceOrder.volume ∧
    emptyBookOperator.process_order negPriceOrder 0 true
      = (.ok [], { emptyBookOperator with
          next_order_id := 2
          order_books := [(0, { product := sampleOpenProduct
                                bids := [(-5, [{ negPriceOrder with id := 1, timestamp := 0 }])]
                                asks := [] })] }) := by
  exact ⟨by decide, by decide, by decide⟩

/-- C9 (amended). `process_order` performs no explicit invalid-order
validation. An order with non-positive volume on a tradable product is
not rejected: the call succeeds with no trades and no state change other
than consuming an order id (the remainder-insertion guard `volume > 0`
merely keeps it out of the book); an order with negative price reaches
the book unchecked (see the counterexample). -/
theorem nonpositive_volume_no_trade (mo : MultiProductMarketOperator) (o : Order)
    (t : Int) (hct : CanTrade mo o t) (hvol : o.volume ≤ 0) :
    mo.process_order o t true
      = (.ok [], { mo with next_order_id := mo.next_order_id + 1 }) := by
  obtain ⟨ob, hget, hop⟩ := hct
  have hok : ¬ (true = true ∧ ¬ ob.is_open t) := by
    rintro ⟨-, hno⟩
    exact hno hop
  rw [process_order_main_eq mo o t true ob hget hok]
  have hvol1 : ¬ 0 < ({ o with id := mo.next_order_id, timestamp := t } : Order).volume := by
    show ¬ 0 < o.volume
    exact not_lt.mpr hvol
  rw [match_order_nonpos ob { o with id := mo.next_order_id, timestamp := t } t hvol1]
  rw [if_neg (by rintro ⟨hv, -⟩; exact hvol1 hv)]
  rw [(dictSet_get_self mo.order_books o.product_id ob hget :
    dictSet mo.order_books o.product_id
        (([] : List Trade), ({ o with id := mo.next_order_id, timestamp := t } : Order), ob).2.2
      = mo.order_books)]

/-- Closed witness for `nonpositive_volume_no_trade`: a zero-volume sell
order on the open product is silently accepted with no trades and no book
change. -/
theorem nonpositive_volume_no_trade_witness :
    emptyBookOperator.process_order zeroVolOrder 0 true
      = (.ok [], { emptyBookOperator with next_order_id := 2 }) := by
  have h := nonpositive_volume_no_trade emptyBookOperator zeroVolOrder 0
    ⟨{ product := sampleOpenProduct, bids := [], asks := [] }, by decide, by decide⟩
    (by decide)
  exact h.trans (by decide)

/-- C4. Volume conservation of a single `process_order` call: the sum of
the returned trades' volumes is at most the incoming order's pre-call
volume, and equals the total volume decrement applied to the resting
orders of the matched side (the opposite side of the incoming order). -/
theorem process_order_conservation (mo : MultiProductMarketOperator) (o : Order)
    (t : Int) (vt : Bool) (ob : ProductAwareOrderBook) (trades : List Trade)
    (hget : dictGet mo.order_books o.product_id = some ob) (hwf : BookWF ob)
    (hvol : 0 ≤ o.volume)
    (hok : (mo.process_order o t vt).1 = .ok trades) :
    (trades.map Trade.volume).sum ≤ o.volume ∧
    ∃ ob2, dictGet (mo.process_order o t vt).2.order_books o.product_id = some ob2 ∧
      (trades.map Trade.volume).sum = oppVolSum o.side ob - oppVolSum o.side ob2 := by
  by_cases hval : vt = true ∧ ¬ ob.is_open t
  · obtain ⟨hvt, hno⟩ := hval
    subst hvt
    rw [process_order_closed_eq mo o t ob hget hno] at hok
    exact absurd hok (by simp)
  rw [process_order_main_eq mo o t vt ob hget hval] at hok ⊢
  set order1 : Order := { o with id := mo.next_order_id, timestamp := t } with ho1
  have hso : order1.side = o.side := by rw [ho1]
  have hvo : order1.volume = o.volume := by rw [ho1]
  have key : order1.volume - (ob.match_order order1 t).2.1.volume
        = ((ob.match_order order1 t).1.map Trade.volume).sum ∧
      (0 ≤ order1.volume → 0 ≤ (ob.match_order order1 t).2.1.volume) ∧
      oppVolSum o.side ob - oppVolSum o.side (ob.match_order order1 t).2.2
        = ((ob.match_order order1 t).1.map Trade.volume).sum := by
    rcases hs : o.side with _ | _
    · have hs1 : order1.side = Side.BUY := by rw [hso, hs]
      rw [match_order_buy_eq ob order1 t hs1]
      obtain ⟨_, _, _, _, _, hsum, hnn, hasks, _⟩ :=
        matchBuyFuel_spec (sideCount ob.asks + 1) ob order1 t hwf
      exact ⟨hsum, hnn, hasks⟩
    · have hs1 : order1.side = Side.SELL := by rw [hso, hs]
      rw [match_order_sell_eq ob order1 t hs1]
      obtain ⟨_, _, _, _, _, hsum, hnn, hbids, _⟩ :=
        matchSellFuel_spec (sideCount ob.bids + 1) ob order1 t hwf
      exact ⟨hsum, hnn, hbids⟩
  obtain ⟨hsum, hnn, hopp⟩ := key
  have hnn0 : 0 ≤ (ob.match_order order1 t).2.1.volume := hnn (by rw [hvo]; exact hvol)
  have hle : (((ob.match_order order1 t).1).map Trade.volume).sum ≤ o.volume := by
    rw [← hsum, hvo]
    linarith
  obtain ⟨hwf2, hprod, hrem⟩ := match_order_basic ob order1 t hwf
  by_cases hins : 0 < (ob.match_order order1 t).2.1.volume ∧
      (ob.match_order order1 t).2.1.time_in_force = some TimeInForce.GTC
  · rw [if_pos hins] at hok ⊢
    cases hadd : (ob.match_order order1 t).2.2.add_order (ob.match_order order1 t).2.1 with
    | error e =>
      rw [hadd] at hok
      exact absurd (hok : Except.error e = Except.ok trades) (by simp)
    | ok ob2 =>
      rw [hadd] at hok
      have htr : trades = (ob.match_order order1 t).1 :=
        (Except.ok.inj (hok : Except.ok (ob.match_order order1 t).1 = Except.ok trades)).symm
      subst htr
      refine ⟨hle, ob2, dictGet_set_self mo.order_books o.product_id ob2, ?_⟩
      have hinv := add_order_ok_inv _ _ _ _ ob2 hadd
      rcases hs : o.side with _ | _
      · have hrs : (ob.match_order order1 t).2.1.side = Side.BUY := by
          rw [hrem, ho1]
          exact hs
        rw [hrs] at hinv
        have hasks2 : ob2.asks = (ob.match_order order1 t).2.2.asks := by
          rw [hinv]
        have hopp2 : sideVolSum ob.asks - sideVolSum (ob.match_order order1 t).2.2.asks
            = ((ob.match_order order1 t).1.map Trade.volume).sum := by
          rw [hs] at hopp
          exact hopp
        show ((ob.match_order order1 t).1.map Trade.volume).sum
          = sideVolSum ob.asks - sideVolSum ob2.asks
        rw [hasks2]
        exact hopp2.symm
      · have hrs : (ob.match_order order1 t).2.1.side = Side.SELL := by
          rw [hrem, ho1]
          exact hs
        rw [hrs] at hinv
        have hbids2 : ob2.bids = (ob.match_order order1 t).2.2.bids := by
          rw [hinv]
        have hopp2 : sideVolSum ob.bids - sideVolSum (ob.match_order order1 t).2.2.bids
            = ((ob.match_order order1 t).1.map Trade.volume).sum := by
          rw [hs] at hopp
          exact hopp
        show ((ob.match_order order1 t).1.map Trade.volume).sum
          = sideVolSum ob.bids - sideVolSum ob2.bids
        rw [hbids2]
        exact hopp2.symm
  · rw [if_neg hins] at hok ⊢
    have htr : trades = (ob.match_order order1 t).1 :=
      (Except.ok.inj (hok : Except.ok (ob.match_order order1 t).1 = Except.ok trades)).symm
    subst htr
    exact ⟨hle, (ob.match_order order1 t).2.2,
      dictGet_set_self mo.order_books o.product_id (ob.match_order order1 t).2.2, hopp.symm⟩

/-- Closed witness for `process_order_conservation`: a buy order on the
empty book trades nothing, and the conservation identity holds with both
sides zero. -/
theorem process_order_conservation_witness :
    (([] : List Trade).map Trade.volume).sum ≤ sampleBuy.volume ∧
    ∃ ob2, dictGet (emptyBookOperator.process_order sampleBuy 100 true).2.order_books
        sampleBuy.product_id = some ob2 ∧
      (([] : List Trade).map Trade.volume).sum
        = oppVolSum sampleBuy.side { product := sampleOpenProduct, bids := [], asks := [] }
          - oppVolSum sampleBuy.side ob2 :=
  process_order_conservation emptyBookOperator sampleBuy 100 true
    { product := sampleOpenProduct, bids := [], asks := [] } []
    (by decide) emptyBook_wf (by decide) (by decide)

/-- C3. Uncrossed-book postcondition: starting from a well-formed,
uncrossed book, the book routed to by any `process_order` call is still
uncrossed when the call returns (whatever the call's outcome). -/
theorem process_order_uncrossed (mo : MultiProductMarketOperator) (o : Order)
    (t : Int) (vt : Bool) (ob : ProductAwareOrderBook)
    (hget : dictGet mo.order_books o.product_id = some ob)
    (hwf : BookWF ob) (hunc : Uncrossed ob) :
    ∀ obF, dictGet (mo.process_order o t vt).2.order_books o.product_id = some obF →
      Uncrossed obF := by
  intro obF hobF
  by_cases hval : vt = true ∧ ¬ ob.is_open t
  · obtain ⟨hvt, hno⟩ := hval
    subst hvt
    rw [process_order_closed_eq mo o t ob hget hno] at hobF
    have h2 : dictGet mo.order_books o.product_id = some obF := hobF
    rw [hget] at h2
    obtain rfl := Option.some.inj h2
    exact hunc
  rw [process_order_main_eq mo o t vt ob hget hval] at hobF
  set order1 : Order := { o with id := mo.next_order_id, timestamp := t } with ho1
  have hso : order1.side = o.side := by rw [ho1]
  rcases hs : o.side with _ | _
  · have hs1 : order1.side = Side.BUY := by rw [hso, hs]
    rw [match_order_buy_eq ob order1 t hs1] at hobF
    set M := matchBuyFuel (sideCount ob.asks + 1) ob order1 t with hM
    have hMunc : Uncrossed M.2.2 := matchBuyFuel_uncrossed _ ob order1 t hwf hunc
    have hMwf : BookWF M.2.2 := (matchBuyFuel_spec _ ob order1 t hwf).1
    have hrem2 : M.2.1 = { order1 with volume := M.2.1.volume } :=
      (matchBuyFuel_spec _ ob order1 t hwf).2.2.2.2.1
    have hstops := matchBuyFuel_stops (sideCount ob.asks + 1) ob order1 t hwf (le_refl _)
    by_cases hins : 0 < M.2.1.volume ∧ M.2.1.time_in_force = some TimeInForce.GTC
    · rw [if_pos hins] at hobF
      cases hadd : M.2.2.add_order M.2.1 with
      | error e =>
        rw [hadd] at hobF
        have h2 : dictGet (dictSet mo.order_books o.product_id M.2.2) o.product_id
            = some obF := hobF
        rw [dictGet_set_self] at h2
        obtain rfl := Option.some.inj h2
        exact hMunc
      | ok ob2 =>
        rw [hadd] at hobF
        have h2 : dictGet (dictSet mo.order_books o.product_id ob2) o.product_id
            = some obF := hobF
        rw [dictGet_set_self] at h2
        obtain rfl := Option.some.inj h2
        have hinv := add_order_ok_inv _ _ _ _ ob2 hadd
        have hrs : M.2.1.side = Side.BUY := by
          rw [hrem2, ho1]
          exact hs
        rw [hrs] at hinv
        have hstop2 : M.2.2.best_ask = none ∨
            ∃ a, M.2.2.best_ask = some a ∧ M.2.1.price < a.price := by
          rcases hstops with h1 | h1 | h1
          · exact absurd hins.1 (not_lt.mpr h1)
          · exact Or.inl h1
          · exact Or.inr h1
        have hres := addOrder_uncrossed_buy M.2.2 M.2.1 hMwf hrs hMunc hstop2
        rw [hinv]
        exact hres
    · rw [if_neg hins] at hobF
      have h2 : dictGet (dictSet mo.order_books o.product_id M.2.2) o.product_id
          = some obF := hobF
      rw [dictGet_set_self] at h2
      obtain rfl := Option.some.inj h2
      exact hMunc
  · have hs1 : order1.side = Side.SELL := by rw [hso, hs]
    rw [match_order_sell_eq ob order1 t hs1] at hobF
    set M := matchSellFuel (sideCount ob.bids + 1) ob order1 t with hM
    have hMunc : Uncrossed M.2.2 := matchSellFuel_uncrossed _ ob order1 t hwf hunc
    have hMwf : BookWF M.2.2 := (matchSellFuel_spec _ ob order1 t hwf).1
    have hrem2 : M.2.1 = { order1 with volume := M.2.1.volume } :=
      (matchSellFuel_spec _ ob order1 t hwf).2.2.2.2.1
    have hstops := matchSellFuel_stops (sideCount ob.bids + 1) ob order1 t hwf (le_refl _)
    by_cases hins : 0 < M.2.1.volume ∧ M.2.1.time_in_force = some TimeInForce.GTC
    · rw [if_pos hins] at hobF
      cases hadd : M.2.2.add_order M.2.1 with
      | error e =>
        rw [hadd] at hobF
        have h2 : dictGet (dictSet mo.order_books o.product_id M.2.2) o.product_id
            = some obF := hobF
        rw [dictGet_set_self] at h2
        obtain rfl := Option.some.inj h2
        exact hMunc
      | ok ob2 =>
        rw [hadd] at hobF
        have h2 : dictGet (dictSet mo.order_books o.product_id ob2) o.product_id
            = some obF := hobF
        rw [dictGet_set_self] at h2
        obtain rfl := Option.some.inj h2
        have hinv := add_order_ok_inv _ _ _ _ ob2 hadd
        have hrs : M.2.1.side = Side.SELL := by
          rw [hrem2, ho1]
          exact hs
        rw [hrs] at hinv
        have hstop2 : M.2.2.best_bid = none ∨
            ∃ a, M.2.2.best_bid = some a ∧ a.price < M.2.1.price := by
          rcases hstops with h1 | h1 | h1
          · exact absurd hins.1 (not_lt.mpr h1)
          · exact Or.inl h1
          · exact Or.inr h1
        have hres := addOrder_uncrossed_sell M.2.2 M.2.1 hMwf hrs hMunc hstop2
        rw [hinv]
        exact hres
    · rw [if_neg hins] at hobF
      have h2 : dictGet (dictSet mo.order_books o.product_id M.2.2) o.product_id
          = some obF := hobF
      rw [dictGet_set_self] at h2
      obtain rfl := Option.some.inj h2
      exact hMunc

/-- Closed witness for `process_order_uncrossed`: after inserting a buy
order into the empty book the routed book is still uncrossed. -/
theorem process_order_uncrossed_witness :
    ∃ ob2, dictGet (emptyBookOperator.process_order sampleBuy 100 true).2.order_books
        sampleBuy.product_id = some ob2 ∧ Uncrossed ob2 := by
  have hGet : dictGet (emptyBookOperator.process_order sampleBuy 100 true).2.order_books
      sampleBuy.product_id
      = some { product := sampleOpenProduct
               bids := [(60, [{ sampleBuy with id := 1, timestamp := 100 }])]
               asks := [] } := by decide
  exact ⟨_, hGet, process_order_uncrossed emptyBookOperator sampleBuy 100 true
    { product := sampleOpenProduct, bids := [], asks := [] } (by decide) emptyBook_wf
    emptyBook_unc _ hGet⟩

/-- C1. Pay-as-bid pricing: every trade produced by a matching pass
carries the price, order id and agent id of the resting order it matched
against, together with the incoming order's ids on the other side — the
incoming order's limit price is never used as an execution price. -/
theorem pay_as_bid_price (b : ProductAwareOrderBook) (inc : Order) (t : Int)
    (hwf : BookWF b) :
    (inc.side = Side.BUY → ∀ tr ∈ (b.match_order inc t).1, ∃ ro ∈ sideOrders b.asks,
      tr.price = ro.price ∧ tr.sell_order_id = ro.id ∧ tr.sell_agent_id = ro.agent_id ∧
      tr.buy_order_id = inc.id ∧ tr.buy_agent_id = inc.agent_id) ∧
    (inc.side = Side.SELL → ∀ tr ∈ (b.match_order inc t).1, ∃ ro ∈ sideOrders b.bids,
      tr.price = ro.price ∧ tr.buy_order_id = ro.id ∧ tr.buy_agent_id = ro.agent_id ∧
      tr.sell_order_id = inc.id ∧ tr.sell_agent_id = inc.agent_id) := by
  constructor
  · intro hside tr htr
    rw [match_order_buy_eq b inc t hside] at htr
    obtain ⟨ro, hro, h1, h2, h3, h4, h5, -, -⟩ :=
      (matchBuyFuel_spec (sideCount b.asks + 1) b inc t hwf).2.2.2.2.2.2.2.2.1 tr htr
    exact ⟨ro, hro, h1, h2, h3, h4, h5⟩
  · intro hside tr htr
    rw [match_order_sell_eq b inc t hside] at htr
    obtain ⟨ro, hro, h1, h2, h3, h4, h5, -, -⟩ :=
      (matchSellFuel_spec (sideCount b.bids + 1) b inc t hwf).2.2.2.2.2.2.2.2.1 tr htr
    exact ⟨ro, hro, h1, h2, h3, h4, h5⟩

/-- Closed witness for `pay_as_bid_price`: the crossing buy at limit 60
trades at the resting ask's price 50, with the resting order's ids on the
sell side. -/
theorem pay_as_bid_price_witness :
    sampleTrade ∈ (sampleAskBook.match_order sampleBuy 1).1 ∧
    ∃ ro ∈ sideOrders sampleAskBook.asks,
      sampleTrade.price = ro.price ∧ sampleTrade.sell_order_id = ro.id ∧
      sampleTrade.sell_agent_id = ro.agent_id ∧ sampleTrade.buy_order_id = sampleBuy.id ∧
      sampleTrade.buy_agent_id = sampleBuy.agent_id := by
  have heval : (sampleAskBook.match_order sampleBuy 1).1 = [sampleTrade] := by
    rw [match_order_buy_eq sampleAskBook sampleBuy 1 rfl]
    have hfc : sideCount sampleAskBook.asks + 1 = 1 + 1 := rfl
    rw [hfc]
    have hv : 0 < sampleBuy.volume := by norm_num [sampleBuy]
    have hba : sampleAskBook.best_ask = some sampleAsk := by decide
    have hc : ¬ sampleBuy.price < sampleAsk.price := by norm_num [sampleBuy, sampleAsk]
    rw [matchBuyFuel_succ_eq 1 sampleAskBook sampleBuy 1 sampleAsk hv hba hc]
    rw [matchBuyFuel_nonpos 1 _ _ 1 (by norm_num [sampleBuy, sampleAsk, min_def])]
    norm_num [sampleAskBook, sampleBuy, sampleAsk, sampleTrade, sampleOpenProduct, min_def]
  have hmem : sampleTrade ∈ (sampleAskBook.match_order sampleBuy 1).1 := by
    rw [heval]
    exact List.mem_singleton_self sampleTrade
  exact ⟨hmem, (pay_as_bid_price sampleAskBook sampleBuy 1
    ⟨by decide, by decide, by decide, by decide⟩).1 rfl sampleTrade hmem⟩

/-!
Within-level FIFO discipline of the matching loop (claim C2): each
iteration consumes the head order of the best price level, so at every
level the consumed orders form a prefix in arrival order.
-/

theorem levelFifo_refl (l : List Order) : levelFifo l l :=
  Or.inl ⟨[], rfl⟩

theorem levelFifo_cons (a : Order) (l l' : List Order) (h : levelFifo l l') :
    levelFifo (a :: l) l' := by
  rcases h with ⟨consumed, hc⟩ | ⟨consumed, h0, rest, v, hc, hc'⟩
  · exact Or.inl ⟨a :: consumed, by simp [hc]⟩
  · exact Or.inr ⟨a :: consumed, h0, rest, v, by simp [hc], hc'⟩

theorem dictGet_eq_none_of_not_mem {κ β : Type} [DecidableEq κ] (d : List (κ × β)) (k : κ)
    (h : k ∉ d.map Prod.fst) : dictGet d k = none := by
  rcases hg : dictGet d k with _ | v
  · rfl
  · exact absurd (mem_keys_of_dictGet d k v hg) h

theorem dictGet_delete_self {κ β : Type} [DecidableEq κ] (d : List (κ × β)) (k : κ)
    (hnd : (d.map Prod.fst).Nodup) : dictGet (dictDelete d k) k = none := by
  induction d with
  | nil => rfl
  | cons e rest ih =>
    obtain ⟨k0, v0⟩ := e
    rw [List.map_cons, List.nodup_cons] at hnd
    by_cases h0 : k0 = k
    · subst h0
      have hdel : dictDelete ((k0, v0) :: rest) k0 = rest := by simp [dictDelete]
      rw [hdel]
      exact dictGet_eq_none_of_not_mem rest k0 hnd.1
    · have hdel : dictDelete ((k0, v0) :: rest) k = (k0, v0) :: dictDelete rest k := by
        simp [dictDelete, h0]
      rw [hdel]
      have hstep : dictGet ((k0, v0) :: dictDelete rest k) k = dictGet (dictDelete rest k) k := by
        simp [dictGet, h0]
      rw [hstep]
      exact ih hnd.2

theorem dictSet_dictSet {κ β : Type} [DecidableEq κ] (d : List (κ × β)) (k : κ) (v v' : β) :
    dictSet (dictSet d k v) k v' = dictSet d k v' := by
  induction d with
  | nil => simp [dictSet]
  | cons e rest ih =>
    obtain ⟨k0, v0⟩ := e
    by_cases h0 : k0 = k
    · simp [dictSet, h0]
    · simp [dictSet, h0, ih]

theorem matchBuyFuel_level_fifo (fuel : Nat) (b : ProductAwareOrderBook) (inc : Order)
    (t : Int) (hwf : BookWF b) :
    ∀ k l', dictGet (matchBuyFuel fuel b inc t).2.2.asks k = some l' →
      ∃ l, dictGet b.asks k = some l ∧ levelFifo l l' := by
  induction fuel generalizing b inc with
  | zero =>
    intro k l' h
    exact ⟨l', h, levelFifo_refl l'⟩
  | succ fuel ih =>
    by_cases hvol : 0 < inc.volume
    case neg =>
      rw [matchBuyFuel_nonpos (fuel + 1) b inc t hvol]
      intro k l' h
      exact ⟨l', h, levelFifo_refl l'⟩
    rcases hba : b.best_ask with _ | ask
    · rw [matchBuyFuel_noask (fuel + 1) b inc t hba]
      intro k l' h
      exact ⟨l', h, levelFifo_refl l'⟩
    by_cases hcross : inc.price < ask.price
    · rw [matchBuyFuel_nocross (fuel + 1) b inc t ask hba hcross]
      intro k l' h
      exact ⟨l', h, levelFifo_refl l'⟩
    obtain ⟨hmin, hmemS, hsideS, level, hget, hhead⟩ := best_ask_spec b hwf ask hba
    obtain ⟨ltail, hlevel⟩ : ∃ ltail, level = ask :: ltail := by
      cases level with
      | nil => exact absurd hhead (by simp)
      | cons a0 ltl =>
        have ha0 : a0 = ask := by simpa using hhead
        exact ⟨ltl, by rw [ha0]⟩
    subst hlevel
    set traded := min inc.volume ask.volume with htraded
    set ask' : Order := { ask with volume := ask.volume - traded } with hask'
    set inc' : Order := { inc with volume := inc.volume - traded } with hinc'
    set b' : ProductAwareOrderBook :=
      if ask'.volume ≤ 0 then (b.mutateOrder ask ask').remove_order ask'
      else b.mutateOrder ask ask' with hbset
    have heq := matchBuyFuel_succ_eq fuel b inc t ask hvol hba hcross
    rw [heq]
    have hmemlvl : ask ∈ ask :: ltail := List.mem_cons_self _ _
    have hrepl : replaceFirstOrder (ask :: ltail) ask ask' = ask' :: ltail := by
      simp [replaceFirstOrder]
    have hbm0 : b.mutateOrder ask ask'
        = { b with asks := dictSet b.asks ask.price (replaceFirstOrder (ask :: ltail) ask ask') } := by
      unfold ProductAwareOrderBook.mutateOrder
      rw [hsideS, hget]
    have hbm : b.mutateOrder ask ask'
        = { b with asks := dictSet b.asks ask.price (ask' :: ltail) } := by
      rw [hbm0, hrepl]
    have hask's : ask'.side = Side.SELL := hsideS
    have hbmid_get : dictGet (b.mutateOrder ask ask').asks ask'.price
        = some (ask' :: ltail) := by
      rw [hbm]
      exact dictGet_set_self b.asks ask.price (ask' :: ltail)
    have herase : eraseFirstOrder (ask' :: ltail) ask' = ltail := by
      simp [eraseFirstOrder]
    obtain ⟨hmwf, hmbids, hmprod, hmkeys, hmvol, hmcount, hmorders, hmget⟩ :=
      mutateOrder_ask_spec b hwf ask ask' (ask :: ltail) hget hmemlvl rfl rfl hsideS
    by_cases hrem : ask'.volume ≤ 0
    · have hb'1 : b' = (b.mutateOrder ask ask').remove_order ask' := by
        rw [hbset]
        exact if_pos hrem
      have hmem' : ask' ∈ replaceFirstOrder (ask :: ltail) ask ask' :=
        replaceFirstOrder_self_mem (ask :: ltail) ask ask' hmemlvl
      obtain ⟨hrwf, -, -, -, -, -, -⟩ :=
        removeOrder_ask_spec (b.mutateOrder ask ask') hmwf ask'
          (replaceFirstOrder (ask :: ltail) ask ask') hmget hmem' hsideS
      have hb'wf : BookWF b' := by
        rw [hb'1]
        exact hrwf
      intro k l' hkl
      have hkl2 : dictGet (matchBuyFuel fuel b' inc' t).2.2.asks k = some l' := hkl
      obtain ⟨lmid, hmid, hff⟩ := ih b' inc' hb'wf k l' hkl2
      by_cases hnil : ltail = []
      · have hbr : (b.mutateOrder ask ask').remove_order ask'
            = { b.mutateOrder ask ask' with
                asks := dictDelete (b.mutateOrder ask ask').asks ask'.price } := by
          unfold ProductAwareOrderBook.remove_order
          simp only [hask's, hsideS, hbmid_get, herase]
          rw [if_pos hnil]
        have hb'asks : b'.asks
            = dictDelete (dictSet b.asks ask.price (ask' :: ltail)) ask.price := by
          rw [hb'1, hbr, hbm]
        have hnd2 : ((dictSet b.asks ask.price (ask' :: ltail)).map Prod.fst).Nodup := by
          rw [keys_dictSet_mem b.asks ask.price (ask' :: ltail)
            (mem_keys_of_dictGet b.asks ask.price (ask :: ltail) hget)]
          exact hwf.asks_nodup
        by_cases hk : k = ask.price
        · subst hk
          rw [hb'asks, dictGet_delete_self _ _ hnd2] at hmid
          exact Option.noConfusion hmid
        · rw [hb'asks, dictGet_delete_ne _ ask.price k hk,
            dictGet_set_ne b.asks ask.price k _ hk] at hmid
          exact ⟨lmid, hmid, hff⟩
      · have hbr : (b.mutateOrder ask ask').remove_order ask'
            = { b.mutateOrder ask ask' with
                asks := dictSet (b.mutateOrder ask ask').asks ask'.price ltail } := by
          unfold ProductAwareOrderBook.remove_order
          simp only [hask's, hsideS, hbmid_get, herase]
          rw [if_neg hnil]
        have hb'asks : b'.asks = dictSet b.asks ask.price ltail := by
          rw [hb'1, hbr, hbm]
          exact dictSet_dictSet b.asks ask.price (ask' :: ltail) ltail
        by_cases hk : k = ask.price
        · subst hk
          rw [hb'asks, dictGet_set_self] at hmid
          obtain rfl := Option.some.inj hmid
          exact ⟨ask :: ltail, hget, levelFifo_cons ask ltail l' hff⟩
        · rw [hb'asks, dictGet_set_ne b.asks ask.price k ltail hk] at hmid
          exact ⟨lmid, hmid, hff⟩
    · have hb'1 : b' = b.mutateOrder ask ask' := by
        rw [hbset]
        exact if_neg hrem
      have hiv : inc'.volume = 0 := by
        show inc.volume - traded = 0
        rcases le_total inc.volume ask.volume with h1 | h1
        · rw [htraded, min_eq_left h1]
          ring
        · exfalso
          apply hrem
          show ask.volume - traded ≤ 0
          rw [htraded, min_eq_right h1]
          ring_nf
          exact le_refl 0
      have hstop : ¬ 0 < inc'.volume := by
        rw [hiv]
        exact lt_irrefl 0
      intro k l' hkl
      have hkl2 : dictGet (matchBuyFuel fuel b' inc' t).2.2.asks k = some l' := hkl
      rw [matchBuyFuel_nonpos fuel b' inc' t hstop] at hkl2
      have hkl3 : dictGet b'.asks k = some l' := hkl2
      rw [hb'1, hbm] at hkl3
      have hkl4 : dictGet (dictSet b.asks ask.price (ask' :: ltail)) k = some l' := hkl3
      by_cases hk : k = ask.price
      · subst hk
        rw [dictGet_set_self] at hkl4
        obtain rfl := Option.some.inj hkl4
        exact ⟨ask :: ltail, hget, Or.inr ⟨[], ask, ltail, ask.volume - traded, rfl, rfl⟩⟩
      · rw [dictGet_set_ne b.asks ask.price k _ hk] at hkl4
        exact ⟨l', hkl4, levelFifo_refl l'⟩

theorem matchSellFuel_level_fifo (fuel : Nat) (b : ProductAwareOrderBook) (inc : Order)
    (t : Int) (hwf : BookWF b) :
    ∀ k l', dictGet (matchSellFuel fuel b inc t).2.2.bids k = some l' →
      ∃ l, dictGet b.bids k = some l ∧ levelFifo l l' := by
  induction fuel generalizing b inc with
  | zero =>
    intro k l' h
    exact ⟨l', h, levelFifo_refl l'⟩
  | succ fuel ih =>
    by_cases hvol : 0 < inc.volume
    case neg =>
      rw [matchSellFuel_nonpos (fuel + 1) b inc t hvol]
      intro k l' h
      exact ⟨l', h, levelFifo_refl l'⟩
    rcases hbb : b.best_bid with _ | bid
    · rw [matchSellFuel_nobid (fuel + 1) b inc t hbb]
      intro k l' h
      exact ⟨l', h, levelFifo_refl l'⟩
    by_cases hcross : bid.price < inc.price
    · rw [matchSellFuel_nocross (fuel + 1) b inc t bid hbb hcross]
      intro k l' h
      exact ⟨l', h, levelFifo_refl l'⟩
    obtain ⟨hmax, hmemS, hsideS, level, hget, hhead⟩ := best_bid_spec b hwf bid hbb
    obtain ⟨ltail, hlevel⟩ : ∃ ltail, level = bid :: ltail := by
      cases level with
      | nil => exact absurd hhead (by simp)
      | cons a0 ltl =>
        have ha0 : a0 = bid := by simpa using hhead
        exact ⟨ltl, by rw [ha0]⟩
    subst hlevel
    set traded := min inc.volume bid.volume with htraded
    set bid' : Order := { bid with volume := bid.volume - traded } with hbid'
    set inc' : Order := { inc with volume := inc.volume - traded } with hinc'
    set b' : ProductAwareOrderBook :=
      if bid'.volume ≤ 0 then (b.mutateOrder bid bid').remove_order bid'
      else b.mutateOrder bid bid' with hbset
    have heq := matchSellFuel_succ_eq fuel b inc t bid hvol hbb hcross
    rw [heq]
    have hmemlvl : bid ∈ bid :: ltail := List.mem_cons_self _ _
    have hrepl : replaceFirstOrder (bid :: ltail) bid bid' = bid' :: ltail := by
      simp [replaceFirstOrder]
    have hbm0 : b.mutateOrder bid bid'
        = { b with bids := dictSet b.bids bid.price (replaceFirstOrder (bid :: ltail) bid bid') } := by
      unfold ProductAwareOrderBook.mutateOrder
      rw [hsideS, hget]
    have hbm : b.mutateOrder bid bid'
        = { b with bids := dictSet b.bids bid.price (bid' :: ltail) } := by
      rw [hbm0, hrepl]
    have hbid's : bid'.side = Side.BUY := hsideS
    have hbmid_get : dictGet (b.mutateOrder bid bid').bids bid'.price
        = some (bid' :: ltail) := by
      rw [hbm]
      exact dictGet_set_self b.bids bid.price (bid' :: ltail)
    have herase : eraseFirstOrder (bid' :: ltail) bid' = ltail := by
      simp [eraseFirstOrder]
    obtain ⟨hmwf, hmasks, hmprod, hmkeys, hmvol, hmcount, hmorders, hmget⟩ :=
      mutateOrder_bid_spec b hwf bid bid' (bid :: ltail) hget hmemlvl rfl rfl hsideS
    by_cases hrem : bid'.volume ≤ 0
    · have hb'1 : b' = (b.mutateOrder bid bid').remove_order bid' := by
        rw [hbset]
        exact if_pos hrem
      have hmem' : bid' ∈ replaceFirstOrder (bid :: ltail) bid bid' :=
        replaceFirstOrder_self_mem (bid :: ltail) bid bid' hmemlvl
      obtain ⟨hrwf, -, -, -, -, -, -⟩ :=
        removeOrder_bid_spec (b.mutateOrder bid bid') hmwf bid'
          (replaceFirstOrder (bid :: ltail) bid bid') hmget hmem' hsideS
      have hb'wf : BookWF b' := by
        rw [hb'1]
        exact hrwf
      intro k l' hkl
      have hkl2 : dictGet (matchSellFuel fuel b' inc' t).2.2.bids k = some l' := hkl
      obtain ⟨lmid, hmid, hff⟩ := ih b' inc' hb'wf k l' hkl2
      by_cases hnil : ltail = []
      · have hbr : (b.mutateOrder bid bid').remove_order bid'
            = { b.mutateOrder bid bid' with
                bids := dictDelete (b.mutateOrder bid bid').bids bid'.price } := by
          unfold ProductAwareOrderBook.remove_order
          simp only [hbid's, hsideS, hbmid_get, herase]
          rw [if_pos hnil]
        have hb'bids : b'.bids
            = dictDelete (dictSet b.bids bid.price (bid' :: ltail)) bid.price := by
          rw [hb'1, hbr, hbm]
        have hnd2 : ((dictSet b.bids bid.price (bid' :: ltail)).map Prod.fst).Nodup := by
          rw [keys_dictSet_mem b.bids bid.price (bid' :: ltail)
            (mem_keys_of_dictGet b.bids bid.price (bid :: ltail) hget)]
          exact hwf.bids_nodup
        by_cases hk : k = bid.price
        · subst hk
          rw [hb'bids, dictGet_delete_self _ _ hnd2] at hmid
          exact Option.noConfusion hmid
        · rw [hb'bids, dictGet_delete_ne _ bid.price k hk,
            dictGet_set_ne b.bids bid.price k _ hk] at hmid
          exact ⟨lmid, hmid, hff⟩
      · have hbr : (b.mutateOrder bid bid').remove_order bid'
            = { b.mutateOrder bid bid' with
                bids := dictSet (b.mutateOrder bid bid').bids bid'.price ltail } := by
          unfold ProductAwareOrderBook.remove_order
          simp only [hbid's, hsideS, hbmid_get, herase]
          rw [if_neg hnil]
        have hb'bids : b'.bids = dictSet b.bids bid.price ltail := by
          rw [hb'1, hbr, hbm]
          exact dictSet_dictSet b.bids bid.price (bid' :: ltail) ltail
        by_cases hk : k = bid.price
        · subst hk
          rw [hb'bids, dictGet_set_self] at hmid
          obtain rfl := Option.some.inj hmid
          exact ⟨bid :: ltail, hget, levelFifo_cons bid ltail l' hff⟩
        · rw [hb'bids, dictGet_set_ne b.bids bid.price k ltail hk] at hmid
          exact ⟨lmid, hmid, hff⟩
    · have hb'1 : b' = b.mutateOrder bid bid' := by
        rw [hbset]
        exact if_neg hrem
      have hiv : inc'.volume = 0 := by
        show inc.volume - traded = 0
        rcases le_total inc.volume bid.volume with h1 | h1
        · rw [htraded, min_eq_left h1]
          ring
        · exfalso
          apply hrem
          show bid.volume - traded ≤ 0
          rw [htraded, min_eq_right h1]
          ring_nf
          exact le_refl 0
      have hstop : ¬ 0 < inc'.volume := by
        rw [hiv]
        exact lt_irrefl 0
      intro k l' hkl
      have hkl2 : dictGet (matchSellFuel fuel b' inc' t).2.2.bids k = some l' := hkl
      rw [matchSellFuel_nonpos fuel b' inc' t hstop] at hkl2
      have hkl3 : dictGet b'.bids k = some l' := hkl2
      rw [hb'1, hbm] at hkl3
      have hkl4 : dictGet (dictSet b.bids bid.price (bid' :: ltail)) k = some l' := hkl3
      by_cases hk : k = bid.price
      · subst hk
        rw [dictGet_set_self] at hkl4
        obtain rfl := Option.some.inj hkl4
        exact ⟨bid :: ltail, hget, Or.inr ⟨[], bid, ltail, bid.volume - traded, rfl, rfl⟩⟩
      · rw [dictGet_set_ne b.bids bid.price k _ hk] at hkl4
        exact ⟨l', hkl4, levelFifo_refl l'⟩

/-- C2. Price-time priority with FIFO: trade prices of a matching pass
are monotone from the best price outwards (non-decreasing for an incoming
buy, non-increasing for an incoming sell) and every trade price is at
least as good as every surviving resting order on the matched side, so a
better-priced resting order is exhausted before a worse-priced one is
touched; within every price level of the matched side the FIFO
discipline holds — the surviving orders are an arrival-order suffix of
the pre-pass level, a prefix of earlier-added orders having been fully
consumed with at most the earliest survivor partially reduced
(`levelFifo`); and in the FIFO scenario — resting bids 5@50 (agent A,
first) and 7@50 (agent B, second) against an incoming sell 10@49 —
exactly two trades occur, 5@50 against A then 5@50 against B, leaving
agent B resting with 2@50. -/
theorem price_time_priority_fifo (b : ProductAwareOrderBook) (inc : Order) (t : Int)
    (hwf : BookWF b) :
    (inc.side = Side.BUY →
      List.Pairwise (fun t1 t2 => t1.price ≤ t2.price) (b.match_order inc t).1 ∧
      (∀ tr ∈ (b.match_order inc t).1, ∀ x ∈ sideOrders (b.match_order inc t).2.2.asks,
        tr.price ≤ x.price) ∧
      (∀ k l', dictGet (b.match_order inc t).2.2.asks k = some l' →
        ∃ l, dictGet b.asks k = some l ∧ levelFifo l l')) ∧
    (inc.side = Side.SELL →
      List.Pairwise (fun t1 t2 => t2.price ≤ t1.price) (b.match_order inc t).1 ∧
      (∀ tr ∈ (b.match_order inc t).1, ∀ x ∈ sideOrders (b.match_order inc t).2.2.bids,
        x.price ≤ tr.price) ∧
      (∀ k l', dictGet (b.match_order inc t).2.2.bids k = some l' →
        ∃ l, dictGet b.bids k = some l ∧ levelFifo l l')) ∧
    fifoBook.match_order fifoIncoming 1
      = ([fifoTradeA, fifoTradeB], { fifoIncoming with volume := 0 }, fifoBookAfter) := by
  refine ⟨?_, ?_, ?_⟩
  · intro hside
    rw [match_order_buy_eq b inc t hside]
    have h := matchBuyFuel_spec (sideCount b.asks + 1) b inc t hwf
    exact ⟨h.2.2.2.2.2.2.2.2.2.2, h.2.2.2.2.2.2.2.2.2.1,
      matchBuyFuel_level_fifo (sideCount b.asks + 1) b inc t hwf⟩
  · intro hside
    rw [match_order_sell_eq b inc t hside]
    have h := matchSellFuel_spec (sideCount b.bids + 1) b inc t hwf
    exact ⟨h.2.2.2.2.2.2.2.2.2.2, h.2.2.2.2.2.2.2.2.2.1,
      matchSellFuel_level_fifo (sideCount b.bids + 1) b inc t hwf⟩
  · rw [match_order_sell_eq fifoBook fifoIncoming 1 rfl]
    have hfc : sideCount fifoBook.bids + 1 = 2 + 1 := rfl
    rw [hfc]
    have hv1 : 0 < fifoIncoming.volume := by norm_num [fifoIncoming]
    have hbb1 : fifoBook.best_bid = some fifoBidA := by decide
    have hc1 : ¬ fifoBidA.price < fifoIncoming.price := by norm_num [fifoBidA, fifoIncoming]
    rw [matchSellFuel_succ_eq 2 fifoBook fifoIncoming 1 fifoBidA hv1 hbb1 hc1]
    have ht1 : ({ product_id := fifoBook.product.product_id
                  price := fifoBidA.price
                  volume := min fifoIncoming.volume fifoBidA.volume
                  buy_order_id := fifoBidA.id
                  sell_order_id := fifoIncoming.id
                  buy_agent_id := fifoBidA.agent_id
                  sell_agent_id := fifoIncoming.agent_id
                  time := (1 : Int) } : Trade) = fifoTradeA := by
      norm_num [fifoBook, fifoBidA, fifoIncoming, fifoTradeA, sampleOpenProduct, min_def]
    have hb1 : (if ({ fifoBidA with volume := fifoBidA.volume - min fifoIncoming.volume fifoBidA.volume } : Order).volume ≤ 0
        then (fifoBook.mutateOrder fifoBidA { fifoBidA with volume := fifoBidA.volume - min fifoIncoming.volume fifoBidA.volume }).remove_order
          { fifoBidA with volume := fifoBidA.volume - min fifoIncoming.volume fifoBidA.volume }
        else fifoBook.mutateOrder fifoBidA { fifoBidA with volume := fifoBidA.volume - min fifoIncoming.volume fifoBidA.volume })
        = fifoBookM1 := by
      rw [if_pos (by norm_num [fifoBidA, fifoIncoming, min_def])]
      norm_num [ProductAwareOrderBook.mutateOrder, ProductAwareOrderBook.remove_order,
        fifoBook, fifoBidA, fifoBidB, fifoIncoming, fifoBookM1, sampleOpenProduct,
        dictGet, dictSet, dictDelete, eraseFirstOrder, replaceFirstOrder, min_def]
    have hi1 : ({ fifoIncoming with volume := fifoIncoming.volume - min fifoIncoming.volume fifoBidA.volume } : Order)
        = fifoIncM1 := by
      norm_num [fifoIncoming, fifoBidA, fifoIncM1, min_def]
    rw [ht1, hb1, hi1]
    have hv2 : 0 < fifoIncM1.volume := by norm_num [fifoIncM1, fifoIncoming]
    have hbb2 : fifoBookM1.best_bid = some fifoBidB := by decide
    have hc2 : ¬ fifoBidB.price < fifoIncM1.price := by norm_num [fifoBidB, fifoIncM1, fifoIncoming]
    rw [matchSellFuel_succ_eq 1 fifoBookM1 fifoIncM1 1 fifoBidB hv2 hbb2 hc2]
    have ht2 : ({ product_id := fifoBookM1.product.product_id
                  price := fifoBidB.price
                  volume := min fifoIncM1.volume fifoBidB.volume
                  buy_order_id := fifoBidB.id
                  sell_order_id := fifoIncM1.id
                  buy_agent_id := fifoBidB.agent_id
                  sell_agent_id := fifoIncM1.agent_id
                  time := (1 : Int) } : Trade) = fifoTradeB := by
      norm_num [fifoBookM1, fifoBidB, fifoIncM1, fifoIncoming, fifoTradeB, sampleOpenProduct, min_def]
    have hb2 : (if ({ fifoBidB with volume := fifoBidB.volume - min fifoIncM1.volume fifoBidB.volume } : Order).volume ≤ 0
        then (fifoBookM1.mutateOrder fifoBidB { fifoBidB with volume := fifoBidB.volume - min fifoIncM1.volume fifoBidB.volume }).remove_order
          { fifoBidB with volume := fifoBidB.volume - min fifoIncM1.volume fifoBidB.volume }
        else fifoBookM1.mutateOrder fifoBidB { fifoBidB with volume := fifoBidB.volume - min fifoIncM1.volume fifoBidB.volume })
        = fifoBookAfter := by
      rw [if_neg (by norm_num [fifoBidB, fifoIncM1, fifoIncoming, min_def])]
      norm_num [ProductAwareOrderBook.mutateOrder,
        fifoBookM1, fifoBidB, fifoIncM1, fifoIncoming, fifoBookAfter, sampleOpenProduct,
        dictGet, dictSet, replaceFirstOrder, min_def]
    have hi2 : ({ fifoIncM1 with volume := fifoIncM1.volume - min fifoIncM1.volume fifoBidB.volume } : Order)
        = { fifoIncoming with volume := 0 } := by
      norm_num [fifoIncM1, fifoIncoming, fifoBidB, min_def]
    rw [ht2, hb2, hi2]
    rw [matchSellFuel_nonpos 1 fifoBookAfter { fifoIncoming with volume := 0 } 1 (by norm_num)]

/-- Closed witness for `price_time_priority_fifo`: the FIFO scenario
itself — two trades at 50, agent A's bid first, agent B left with 2 MW —
together with the within-level FIFO relation instantiated at the
surviving price level 50: the pre-pass level `[A, B]` relates to the
post-pass level `[B with 2 MW]` by consuming the prefix `[A]`. -/
theorem price_time_priority_fifo_witness :
    List.Pairwise (fun t1 t2 => t2.price ≤ t1.price) (fifoBook.match_order fifoIncoming 1).1 ∧
    (∃ l, dictGet fifoBook.bids 50 = some l ∧
      levelFifo l [{ fifoBidB with volume := 2 }]) ∧
    fifoBook.match_order fifoIncoming 1
      = ([fifoTradeA, fifoTradeB], { fifoIncoming with volume := 0 }, fifoBookAfter) := by
  have h := price_time_priority_fifo fifoBook fifoIncoming 1
    ⟨by decide, by decide, by decide, by decide⟩
  have hlev : dictGet (fifoBook.match_order fifoIncoming 1).2.2.bids 50
      = some [{ fifoBidB with volume := 2 }] := by
    rw [h.2.2]
    decide
  exact ⟨(h.2.1 rfl).1, (h.2.1 rfl).2.2 50 _ hlev, h.2.2⟩

/-!
Lifecycle of the settlement schedule (claim C6).
-/

theorem schedState_succ (ps : List Product) (n : Nat) :
    schedState ps (n + 1) = schedStep (schedState ps n) n := by
  unfold schedState
  rw [List.range_succ, List.foldl_append, List.foldl_cons, List.foldl_nil]

theorem settleTicksFor_append (pid : Int) (evs : List (Nat × List Int)) (n : Nat)
    (cl : List Int) :
    settleTicksFor pid (evs ++ [(n, cl)])
      = settleTicksFor pid evs ++ (if pid ∈ cl then [n] else []) := by
  unfold settleTicksFor
  rw [List.filterMap_append]
  by_cases h : pid ∈ cl
  · simp [h]
  · simp [h]

theorem schedStep_snd_ticks (pid : Int) (acc : MultiProductMarketOperator × List (Nat × List Int))
    (t : Nat) :
    settleTicksFor pid (schedStep acc t).2
      = settleTicksFor pid acc.2
        ++ (if pid ∈ (acc.1.update_product_status (t : Int)).2 then [t] else []) := by
  show settleTicksFor pid
      (if (acc.1.update_product_status (t : Int)).2 ≠ []
       then acc.2 ++ [(t, (acc.1.update_product_status (t : Int)).2)] else acc.2) = _
  by_cases h : (acc.1.update_product_status (t : Int)).2 ≠ []
  · rw [if_pos h, settleTicksFor_append]
  · rw [if_neg h, not_not.mp h, if_neg (List.not_mem_nil pid), List.append_nil]

theorem stepStatus_pending_stay (p : Product) (t : Int)
    (hs : p.status = ProductStatus.PENDING) (ht : ¬ t ≥ p.gate_open) :
    stepStatus p t = none := by
  unfold stepStatus
  rw [if_neg (by rintro ⟨-, h⟩; exact ht h),
    if_neg (by rintro ⟨h, -⟩; rw [hs] at h; exact ProductStatus.noConfusion h),
    if_neg (by rintro ⟨h, -⟩; rw [hs] at h; exact ProductStatus.noConfusion h)]

theorem stepStatus_open_stay (p : Product) (t : Int)
    (hs : p.status = ProductStatus.OPEN) (ht : ¬ t ≥ p.gate_close) :
    stepStatus p t = none := by
  unfold stepStatus
  rw [if_neg (by rintro ⟨h, -⟩; rw [hs] at h; exact ProductStatus.noConfusion h),
    if_neg (by rintro ⟨-, h⟩; exact ht h),
    if_neg (by rintro ⟨h, -⟩; rw [hs] at h; exact ProductStatus.noConfusion h)]

theorem statusRank_notOpen (s : ProductStatus) (h : 2 ≤ statusRank s) :
    s ≠ ProductStatus.OPEN := by
  intro he
  subst he
  exact absurd h (by decide)

theorem applyStepStatus_status (p : Product) (t : Int) (s : ProductStatus)
    (h : stepStatus p t = some s) : (applyStepStatus p t).status = s := by
  unfold applyStepStatus
  rw [h]
  rfl

theorem applyStepStatus_none (p : Product) (t : Int)
    (h : stepStatus p t = none) : applyStepStatus p t = p := by
  unfold applyStepStatus
  rw [h]

/-- Invariant of the simulation loop for a product that starts PENDING
with `0 ≤ gate_open < gate_close`: after `n` loop ticks (and the pre-loop
status update at 0) the catalog keys are unchanged; the product is
PENDING before its gate-open tick has run, OPEN from then until its
gate-close tick has run, and CLOSED or SETTLED afterwards; and the
settlement engine has been invoked for it exactly on the gate-close tick,
once that tick has run. -/
theorem sched_state_inv (ps : List Product) (p : Product)
    (hmem : p ∈ ps) (hnd : (ps.map Product.product_id).Nodup)
    (hpend : p.status = ProductStatus.PENDING)
    (hgo : 0 ≤ p.gate_open) (hgc : p.gate_open < p.gate_close) (n : Nat) :
    ((schedState ps n).1.products.map Prod.fst = ps.map Product.product_id) ∧
    (∃ q, dictGet (schedState ps n).1.products p.product_id = some q ∧
      q.gate_open = p.gate_open ∧ q.gate_close = p.gate_close ∧
      ((q.status = ProductStatus.PENDING ∧ 0 < p.gate_open ∧ (n : Int) ≤ p.gate_open) ∨
       (q.status = ProductStatus.OPEN ∧ (p.gate_open = 0 ∨ p.gate_open < (n : Int)) ∧
         (n : Int) ≤ p.gate_close) ∨
       (2 ≤ statusRank q.status ∧ p.gate_close < (n : Int)))) ∧
    settleTicksFor p.product_id (schedState ps n).2
      = (if (n : Int) ≤ p.gate_close then [] else [p.gate_close.toNat]) := by
  induction n with
  | zero =>
    have h0 : schedState ps 0
        = (((MultiProductMarketOperator.from_products ps).update_product_status 0).1,
           ([] : List (Nat × List Int))) := rfl
    rw [h0]
    refine ⟨?_, ?_, ?_⟩
    · rw [ups_products_keys]
      show ((ps.map fun q => (q.product_id, q)).map Prod.fst) = ps.map Product.product_id
      rw [List.map_map]
      rfl
    · have hget0 : dictGet (MultiProductMarketOperator.from_products ps).products
          p.product_id = some p := by
        apply dictGet_of_mem_nodup
        · show ((ps.map fun q => (q.product_id, q)).map Prod.fst).Nodup
          rw [List.map_map]
          exact hnd
        · exact List.mem_map.mpr ⟨p, hmem, rfl⟩
      have hget1 : dictGet ((MultiProductMarketOperator.from_products
            ps).update_product_status 0).1.products p.product_id
          = some (applyStepStatus p 0) := by
        rw [ups_products_get, hget0]
        rfl
      obtain ⟨hto, htc, -, -⟩ := applyStepStatus_timing p 0
      refine ⟨applyStepStatus p 0, hget1, hto, htc, ?_⟩
      by_cases hg0 : (0 : Int) ≥ p.gate_open
      · have hstep := stepStatus_pending_open p 0 hpend hg0
        right
        left
        exact ⟨applyStepStatus_status p 0 _ hstep, Or.inl (by omega), by push_cast; omega⟩
      · have hstep := stepStatus_pending_stay p 0 hpend hg0
        left
        rw [applyStepStatus_none p 0 hstep]
        exact ⟨hpend, by omega, by push_cast; omega⟩
    · show settleTicksFor p.product_id [] = _
      rw [if_pos (by push_cast; omega)]
      rfl
  | succ n ih =>
    obtain ⟨hkeys, ⟨q, hq, hto, htc, hbr⟩, hticks⟩ := ih
    rw [schedState_succ]
    have hndS : (((schedState ps n).1.products).map Prod.fst).Nodup := by
      rw [hkeys]
      exact hnd
    have hrep := ups_closed_mem (schedState ps n).1 (n : Int) p.product_id q hndS hq
    have hget' : dictGet ((schedState ps n).1.update_product_status
          (n : Int)).1.products p.product_id
        = some (applyStepStatus q (n : Int)) := by
      rw [ups_products_get, hq]
      rfl
    have htick2 := schedStep_snd_ticks p.product_id (schedState ps n) n
    obtain ⟨hto2, htc2, -, -⟩ := applyStepStatus_timing q (n : Int)
    refine ⟨?_, ⟨applyStepStatus q (n : Int), hget', ?_, ?_, ?_⟩, ?_⟩
    · show (((schedState ps n).1.update_product_status (n : Int)).1.products.map Prod.fst) = _
      rw [ups_products_keys]
      exact hkeys
    · rw [hto2, hto]
    · rw [htc2, htc]
    · rcases hbr with ⟨hqs, hGpos, hnle⟩ | ⟨hqs, hopen, hnle⟩ | ⟨hrank, hlt⟩
      · by_cases hntime : (n : Int) ≥ q.gate_open
        · have hstep := stepStatus_pending_open q (n : Int) hqs hntime
          right
          left
          rw [hto] at hntime
          exact ⟨applyStepStatus_status q _ _ hstep, Or.inr (by push_cast; omega),
            by push_cast; omega⟩
        · have hstep := stepStatus_pending_stay q (n : Int) hqs hntime
          left
          rw [applyStepStatus_none q _ hstep]
          rw [hto] at hntime
          exact ⟨hqs, hGpos, by push_cast; omega⟩
      · by_cases hclose : (n : Int) ≥ q.gate_close
        · have hstep := stepStatus_open_close q (n : Int) hqs hclose
          right
          right
          rw [htc] at hclose
          refine ⟨?_, by push_cast; omega⟩
          rw [applyStepStatus_status q _ _ hstep]
          decide
        · have hstep := stepStatus_open_stay q (n : Int) hqs hclose
          right
          left
          rw [applyStepStatus_none q _ hstep]
          rw [htc] at hclose
          refine ⟨hqs, ?_, by push_cast; omega⟩
          rcases hopen with h | h
          · exact Or.inl h
          · exact Or.inr (by push_cast; omega)
      · right
        right
        refine ⟨?_, by push_cast; omega⟩
        rcases stepStatus_chain q (n : Int) with hnone | ⟨s, hsome, hchain⟩
        · rw [applyStepStatus_none q _ hnone]
          exact hrank
        · rw [applyStepStatus_status q _ _ hsome]
          have := ChainStep_rank q.status s hchain
          omega
    · rw [htick2, hticks]
      rcases hbr with ⟨hqs, hGpos, hnle⟩ | ⟨hqs, hopen, hnle⟩ | ⟨hrank, hlt⟩
      · have hnm : p.product_id ∉ ((schedState ps n).1.update_product_status (n : Int)).2 := by
          intro hin
          obtain ⟨h1, -⟩ := hrep.mp hin
          rw [hqs] at h1
          exact ProductStatus.noConfusion h1
        rw [if_neg hnm, List.append_nil,
          if_pos (show (n : Int) ≤ p.gate_close by omega),
          if_pos (show ((n + 1 : Nat) : Int) ≤ p.gate_close by push_cast; omega)]
      · by_cases hclose : (n : Int) ≥ q.gate_close
        · have hin : p.product_id ∈ ((schedState ps n).1.update_product_status (n : Int)).2 :=
            hrep.mpr ⟨hqs, hclose⟩
          rw [htc] at hclose
          rw [if_pos hin, if_pos (show (n : Int) ≤ p.gate_close from hnle), List.nil_append,
            if_neg (show ¬ ((n + 1 : Nat) : Int) ≤ p.gate_close by push_cast; omega)]
          rw [show p.gate_close.toNat = n from by omega]
        · have hnm : p.product_id ∉ ((schedState ps n).1.update_product_status (n : Int)).2 := by
            intro hin
            obtain ⟨-, h2⟩ := hrep.mp hin
            exact hclose h2
          rw [htc] at hclose
          rw [if_neg hnm, List.append_nil,
            if_pos (show (n : Int) ≤ p.gate_close from hnle),
            if_pos (show ((n + 1 : Nat) : Int) ≤ p.gate_close by push_cast; omega)]
      · have hnm : p.product_id ∉ ((schedState ps n).1.update_product_status (n : Int)).2 := by
          intro hin
          obtain ⟨h1, -⟩ := hrep.mp hin
          exact statusRank_notOpen q.status hrank h1
        rw [if_neg hnm, List.append_nil,
          if_neg (show ¬ (n : Int) ≤ p.gate_close by omega),
          if_neg (show ¬ ((n + 1 : Nat) : Int) ≤ p.gate_close by push_cast; omega)]

/-- Counterexample to C6 as stated: with `earlyCloseProduct` (gate-close
tick 2, delivery end tick 10) the settlement engine is invoked at tick 2,
a tick at which `t ≥ delivery_end` does not hold — settlement fires at
the OPEN→CLOSED (gate-close) transition, not at the CLOSED→SETTLED
(delivery-end) transition. -/
theorem settlement_at_gate_close_counterexample :
    settleTicksFor 0 (runSettlementSchedule [earlyCloseProduct] 5) = [2] ∧
    ¬ ((2 : Int) ≥ earlyCloseProduct.delivery_end) := by
  exact ⟨by decide, by decide⟩

/-- C6 (amended). In a simulation run over `n_steps` ticks, a product
that starts PENDING with `0 ≤ gate_open < gate_close < n_steps` has the
settlement engine invoked for it exactly once, and the invocation happens
at the product's OPEN→CLOSED transition — the gate-close tick — which
lies strictly before the delivery-window end. -/
theorem settlement_once_at_gate_close (ps : List Product) (p : Product) (n_steps : Nat)
    (hmem : p ∈ ps) (hnd : (ps.map Product.product_id).Nodup)
    (hpend : p.status = ProductStatus.PENDING) (hgo : 0 ≤ p.gate_open)
    (hgc : p.gate_open < p.gate_close) (hn : p.gate_close < (n_steps : Int))
    (hde : p.gate_close < p.delivery_end) :
    settleTicksFor p.product_id (runSettlementSchedule ps n_steps)
      = [p.gate_close.toNat] ∧
    ((p.gate_close.toNat : Int) = p.gate_close ∧
      (p.gate_close.toNat : Int) < p.delivery_end) := by
  obtain ⟨-, -, hticks⟩ := sched_state_inv ps p hmem hnd hpend hgo hgc n_steps
  have htn : (p.gate_close.toNat : Int) = p.gate_close := Int.toNat_of_nonneg (by omega)
  refine ⟨?_, htn, by omega⟩
  have hr : runSettlementSchedule ps n_steps = (schedState ps n_steps).2 := rfl
  rw [hr, hticks, if_neg (by omega)]

/-- Closed witness for `settlement_once_at_gate_close`: in a 5-tick run
the product closing at tick 2 is settled exactly at tick 2, before its
delivery end at tick 10. -/
theorem settlement_once_at_gate_close_witness :
    settleTicksFor earlyCloseProduct.product_id (runSettlementSchedule [earlyCloseProduct] 5)
      = [earlyCloseProduct.gate_close.toNat] ∧
    ((earlyCloseProduct.gate_close.toNat : Int) = earlyCloseProduct.gate_close ∧
      (earlyCloseProduct.gate_close.toNat : Int) < earlyCloseProduct.delivery_end) :=
  settlement_once_at_gate_close [earlyCloseProduct] earlyCloseProduct 5
    (by decide) (by decide) (by decide) (by decide) (by decide) (by decide) (by decide)
